import Mathlib

/-!
# A verification development for the `cpucompare` profile core

This file shallowly embeds `src/utils/parseProfile.ts` of the `cpucompare`
repository and proves properties of the embedding.

Modelling conventions:
* JavaScript numbers are modelled as rationals (`ℚ`); timestamps, which the
  code obtains through `parseInt`, as integers (`ℤ`).  `NaN` / `Infinity`
  propagation is not modelled; theorems whose meaning depends on numeric
  values carry hypotheses keeping the inputs inside the modelled fragment,
  and the JSON-level extraction below rejects (with `JsErr.modelLimit`)
  inputs whose numeric fields would turn into `NaN` in JavaScript.
* JavaScript `Map`s are association lists in insertion order; `Map.set` on an
  existing key updates the value in place (`jsMapSet`), exactly as JavaScript
  `Map` keeps the original insertion position of an updated key.
* Exceptions thrown by the code (`TypeError` on a property access on
  `null`/`undefined`, `RangeError` on stack overflow from unbounded
  recursion) are modelled with `Except JsErr`.  `JsErr.modelLimit` marks
  inputs outside the modelled fragment; it does not correspond to a
  JavaScript throw.
-/

/-- Already-deserialized JSON values.  `undef` is never produced by JSON
deserialization; it models the `undefined` value that arises from accessing
an absent property and is needed to embed expressions like `json.samples`. -/
inductive Json where
  | null
  | undef
  | bool (b : Bool)
  | num (q : ℚ)
  | str (s : String)
  | arr (elems : List Json)
  | obj (fields : List (String × Json))

/-- Errors of the embedded JavaScript.  `typeError` and `rangeError` model
real JavaScript throws; `modelLimit` marks an input outside the modelled
fragment (such inputs do not necessarily throw in JavaScript). -/
inductive JsErr where
  | typeError (msg : String)
  | rangeError (msg : String)
  | modelLimit (msg : String)

/-- JavaScript truthiness of a JSON value. -/
def Json.truthy : Json → Bool
  | .null => false
  | .undef => false
  | .bool b => b
  | .num q => decide (q ≠ 0)
  | .str s => decide (s ≠ "")
  | .arr _ => true
  | .obj _ => true

/-- Property access `j[k]`, which throws a `TypeError` when the receiver is
`null` or `undefined` and yields `undefined` when the property is absent.
The properties the source accesses by name are not built-ins of the primitive
types, so on primitives and arrays the access yields `undefined`. -/
def jGet : Json → String → Except JsErr Json
  | .null, k => .error (.typeError ("Cannot read properties of null (reading " ++ k ++ ")"))
  | .undef, k => .error (.typeError ("Cannot read properties of undefined (reading " ++ k ++ ")"))
  | .obj fs, k => .ok (((fs.find? (fun e => e.1 == k)).map (fun e => e.2)).getD .undef)
  | _, _ => .ok (.undef)

/-- Total variant of `jGet` for receivers that are not `null`/`undefined`;
used to state shape predicates. -/
def jField (j : Json) (k : String) : Json :=
  match j with
  | .obj fs => ((fs.find? (fun e => e.1 == k)).map (fun e => e.2)).getD .undef
  | _ => (.undef)

/-- `x || d`: the JavaScript defaulting idiom. -/
def jOr (x d : Json) : Json := if x.truthy then x else d

/-- `Object.entries`.  On a parsed JSON object these are its key/value pairs
(JSON.parse collapses duplicate keys, keeping the last; the `obj` field list
is taken as given); on arrays and strings, index/element pairs; on other
primitives, the empty list. -/
def jsEntries : Json → List (String × Json)
  | .obj fs => fs
  | .arr es => es.mapIdx (fun i e => (toString i, e))
  | .str s => s.toList.mapIdx (fun i c => (toString i, Json.str (String.mk [c])))
  | _ => []

/-! ## JavaScript `Map`s as association lists -/

/-- `Map.get`. -/
def jsMapGet [BEq κ] (m : List (κ × α)) (k : κ) : Option α :=
  (m.find? (fun e => e.1 == k)).map (fun e => e.2)

/-- `Map.has`. -/
def jsMapHas [BEq κ] (m : List (κ × α)) (k : κ) : Bool :=
  (jsMapGet m k).isSome

/-- `Map.set`: updates an existing key in place (keeping its insertion
position) or appends a new binding. -/
def jsMapSet [BEq κ] (m : List (κ × α)) (k : κ) (v : α) : List (κ × α) :=
  if jsMapHas m k then m.map (fun e => if e.1 == k then (e.1, v) else e)
  else m ++ [(k, v)]

/-- In-place mutation of the value object stored under an existing key
(`map.get(k).field = ...`); a no-op when the key is absent. -/
def jsMapModify [BEq κ] (m : List (κ × α)) (k : κ) (f : α → α) : List (κ × α) :=
  m.map (fun e => if e.1 == k then (e.1, f e.2) else e)

/-! ## The normalized data model (`ParsedProfile`, `FunctionData`) -/

/-- The `FunctionData` record of the source.  Times are in the capture's
native unit (microseconds for both supported formats).  For sample-format
(V8) records the source stores the node's numeric child ids in the same
loosely-typed field; we render them as strings there (they are never read
downstream). -/
structure FunctionData where
  id : String
  name : String
  selfTime : ℚ
  totalTime : ℚ
  category : String
  parent : Option String := none
  children : List String := []
deriving DecidableEq

/-- A node of the flame-graph tree handed to the renderer. -/
inductive FlameNode where
  | mk (name : String) (value : ℚ) (children : List FlameNode)

def FlameNode.name : FlameNode → String
  | .mk n _ _ => n

def FlameNode.value : FlameNode → ℚ
  | .mk _ v _ => v

def FlameNode.children : FlameNode → List FlameNode
  | .mk _ _ c => c

/-- The `flamegraphData : any` field: a built flame tree for a recognized
format, or the raw payload echoed back for an unsupported shape. -/
inductive FlameData where
  | tree (t : FlameNode)
  | raw (j : Json)

/-- The `ParsedProfile` result type of the source. -/
structure ParsedProfile where
  flamegraphData : FlameData
  totalDuration : ℚ
  functions : List FunctionData

/-! ## Typed inputs

The typed structures below are the values the JSON-level extraction (further
down) produces; the parsers are defined over them.  Fields record the result
of the defaulting/`toString` expressions noted in each comment. -/

/-- One entry of the trace-event `samples` array.  `ts` is `parseInt(sample.ts)`
(restricted to inputs where this is not `NaN`); `sf` is `sample.sf?.toString()`
(`none` for an absent/`null` frame id); `weight` is `parseInt(sample.weight)`
with `none` for `NaN` (the code then defaults the weight to 1). -/
structure TraceSample where
  ts : Int
  sf : Option String := none
  weight : Option Int := none
deriving DecidableEq

/-- One value of the trace-event `stackFrames` mapping.  `name` and
`category` are the string field values (`none` when absent or falsy);
`parent` is `frame.parent ? frame.parent.toString() : undefined`. -/
structure StackFrameIn where
  name : Option String := none
  category : Option String := none
  parent : Option String := none
deriving DecidableEq

/-- `x || default` for an optional string field: JavaScript replaces any
falsy value, which for a string includes `""`. -/
def jsStrOr (x : Option String) (d : String) : String :=
  match x with
  | some s => if s = "" then d else s
  | none => d

/-- The `callFrame` object of a sample-format node (`node.callFrame || {}`),
with each field `none` when absent. -/
structure V8CallFrame where
  functionName : Option String := none
  url : Option String := none
  lineNumber : Option Int := none
  columnNumber : Option Int := none
deriving DecidableEq

/-- One entry of the sample-format `nodes` array. -/
structure V8Node where
  id : Int
  callFrame : Option V8CallFrame := none
  children : Option (List Int) := none
deriving DecidableEq

/-! ## The sample-format (V8 / Chrome DevTools) parser -/

/-- Display-name synthesis of `parseV8Profile`: when a URL is present, embed
`(filename:line:column)` where the filename is the last `/`-separated
segment of the URL. -/
def v8DisplayName (cf : V8CallFrame) : String :=
  let functionName := jsStrOr cf.functionName "(anonymous)"
  let url := jsStrOr cf.url ""
  if url = "" then functionName
  else
    let filename := (url.splitOn "/").getLastD ""
    let lineNumber := cf.lineNumber.getD 0
    let columnNumber := cf.columnNumber.getD 0
    s!"{functionName} ({filename}:{lineNumber}:{columnNumber})"

/-- The initial `FunctionData` record for a node (times zero, category fixed
to "JavaScript", no parent field; the node's numeric child ids are stored, as
the source does, in the loosely-typed `children` field). -/
def v8InitRecord (node : V8Node) : FunctionData :=
  { id := toString node.id
    name := v8DisplayName (node.callFrame.getD {})
    selfTime := 0
    totalTime := 0
    category := "JavaScript"
    parent := none
    children := (node.children.getD []).map toString }

/-- `nodes.forEach(node => functionMap.set(node.id, ...))`. -/
def v8FunctionMapInit (nodes : List V8Node) : List (Int × FunctionData) :=
  nodes.foldl (fun acc node => jsMapSet acc node.id (v8InitRecord node)) []

/-- The sample walk: for sample `i`, `timeDeltas[i] || 0` is added to the
grand total and, when the node exists, to that node's self and total time. -/
def v8ProcessSamples (fm : List (Int × FunctionData)) (samples : List Int)
    (timeDeltas : List ℚ) : List (Int × FunctionData) × ℚ :=
  samples.enum.foldl
    (fun acc p =>
      let timeDelta := timeDeltas.getD p.1 0
      let fm1 :=
        if jsMapHas acc.1 p.2 then
          jsMapModify acc.1 p.2 (fun f =>
            { f with selfTime := f.selfTime + timeDelta,
                     totalTime := f.totalTime + timeDelta })
        else acc.1
      (fm1, acc.2 + timeDelta))
    (fm, 0)

/-- `nodes.find(n => n.id === nodeId)?.children || []`. -/
def childIdsOf (nodes : List V8Node) (nodeId : Int) : List Int :=
  match nodes.find? (fun n => n.id == nodeId) with
  | some n => n.children.getD []
  | none => []

/-- Root detection of `buildFlameGraphData`: a node is a root iff no node's
children list references its id. -/
def v8RootNodes (nodes : List V8Node) : List V8Node :=
  nodes.filter (fun node =>
    !(nodes.any (fun other => (other.children.getD []).contains node.id)))

/-- The recursive `buildNode` of `buildFlameGraphData`: node value is the
function's **self** time; children are built in the order of the node's
children array, unpruned and unsorted.  The fuel models the JavaScript call
stack: on cyclic children data the source recurses forever and overflows the
stack, which we model as a `RangeError` when the fuel (one more than the
number of nodes, an upper bound for the depth of any acyclic recursion) runs
out. -/
def buildNodeV8 (nodes : List V8Node) (fm : List (Int × FunctionData)) :
    Nat → Int → Except JsErr FlameNode
  | 0, _ => .error (.rangeError "Maximum call stack size exceeded")
  | fuel+1, nodeId =>
    match jsMapGet fm nodeId with
    | none => .ok (.mk "Unknown" 0 [])
    | some func => do
        let cs ← (childIdsOf nodes nodeId).mapM (buildNodeV8 nodes fm fuel)
        .ok (.mk func.name func.selfTime cs)

/-- `buildFlameGraphData`: zero roots give a placeholder, a single root is
returned directly, several roots hang under an artificial zero-value root
(no dominant-root heuristic in this format). -/
def buildFlameGraphData (fm : List (Int × FunctionData)) (nodes : List V8Node) :
    Except JsErr FlameNode :=
  let rootNodes := v8RootNodes nodes
  match rootNodes with
  | [] => .ok (.mk "Root" 0 [])
  | [r] => buildNodeV8 nodes fm (nodes.length + 1) r.id
  | rs => do
      let cs ← rs.mapM (fun n => buildNodeV8 nodes fm (nodes.length + 1) n.id)
      .ok (.mk "Root" 0 cs)

/-- `parseV8Profile` over typed inputs (`startTime`/`endTime` are read by the
source but unused).  Note that the returned `totalDuration` is **not**
divided by 1000 in this parser. -/
def parseV8Profile (nodes : List V8Node) (samples : List Int)
    (timeDeltas : List ℚ) : Except JsErr ParsedProfile := do
  let fm0 := v8FunctionMapInit nodes
  let r := v8ProcessSamples fm0 samples timeDeltas
  let flame ← buildFlameGraphData r.1 nodes
  .ok { flamegraphData := .tree flame
        totalDuration := r.2
        functions := r.1.map (fun e => e.2) }

/-! ## The differ (`compareProfiles`) -/

inductive DiffType where
  | added
  | removed
  | changed
deriving DecidableEq

/-- The `FunctionDifference` record; all time fields are divided by 1000 at
emission. -/
structure FunctionDifference where
  name : String
  type : DiffType
  leftSelfTime : ℚ
  rightSelfTime : ℚ
  leftTotalTime : ℚ
  rightTotalTime : ℚ
  selfTimeDiff : ℚ
  totalTimeDiff : ℚ
deriving DecidableEq

structure ProfileComparison where
  leftTotalDuration : ℚ
  rightTotalDuration : ℚ
  totalDurationDiff : ℚ
  differences : List FunctionDifference

/-- `new Map(functions.map(f => [f.name, f]))`: later duplicates overwrite,
keeping the first insertion position. -/
def mapByName (fs : List FunctionData) : List (String × FunctionData) :=
  fs.foldl (fun acc f => jsMapSet acc f.name f) []

/-- The `changed` row for a name present on both sides. -/
def changedEntry (name : String) (leftFunc rightFunc : FunctionData) : FunctionDifference :=
  { name := name
    type := .changed
    leftSelfTime := leftFunc.selfTime / 1000
    rightSelfTime := rightFunc.selfTime / 1000
    leftTotalTime := leftFunc.totalTime / 1000
    rightTotalTime := rightFunc.totalTime / 1000
    selfTimeDiff := (rightFunc.selfTime - leftFunc.selfTime) / 1000
    totalTimeDiff := (rightFunc.totalTime - leftFunc.totalTime) / 1000 }

/-- The `removed` row for a name present only on the left. -/
def removedEntry (name : String) (leftFunc : FunctionData) : FunctionDifference :=
  { name := name
    type := .removed
    leftSelfTime := leftFunc.selfTime / 1000
    rightSelfTime := 0
    leftTotalTime := leftFunc.totalTime / 1000
    rightTotalTime := 0
    selfTimeDiff := -leftFunc.selfTime / 1000
    totalTimeDiff := -leftFunc.totalTime / 1000 }

/-- The `added` row for a name present only on the right. -/
def addedEntry (name : String) (rightFunc : FunctionData) : FunctionDifference :=
  { name := name
    type := .added
    leftSelfTime := 0
    rightSelfTime := rightFunc.selfTime / 1000
    leftTotalTime := 0
    rightTotalTime := rightFunc.totalTime / 1000
    selfTimeDiff := rightFunc.selfTime / 1000
    totalTimeDiff := rightFunc.totalTime / 1000 }

/-- The left-side pass of `compareProfiles`: a `changed` row when the name is
on both sides and a **native-unit** delta exceeds 0.01, a `removed` row when
it is only on the left. -/
def emitLeft (rightFunctions : List (String × FunctionData))
    (e : String × FunctionData) : Option FunctionDifference :=
  match jsMapGet rightFunctions e.1 with
  | some rightFunc =>
      if 1/100 < |rightFunc.selfTime - e.2.selfTime| ∨
          1/100 < |rightFunc.totalTime - e.2.totalTime| then
        some (changedEntry e.1 e.2 rightFunc)
      else none
  | none => some (removedEntry e.1 e.2)

/-- The right-side pass: an `added` row for names absent on the left. -/
def emitRight (leftFunctions : List (String × FunctionData))
    (e : String × FunctionData) : Option FunctionDifference :=
  if jsMapHas leftFunctions e.1 then none else some (addedEntry e.1 e.2)

/-! ## The trace-event (Hermes / React Native) parser -/

/-- The initial `FunctionData` record for a stack frame: name and category
defaulted, parent as handed over by extraction, no children yet. -/
def traceInitRecord (frameId : String) (frame : StackFrameIn) : FunctionData :=
  { id := frameId
    name := jsStrOr frame.name "(anonymous)"
    selfTime := 0
    totalTime := 0
    category := jsStrOr frame.category "Unknown"
    parent := frame.parent
    children := [] }

/-- `Object.entries(stackFrames).forEach(([frameId, frame]) =>
functionMap.set(frameId, ...))`. -/
def traceInitMap (stackFrames : List (String × StackFrameIn)) :
    List (String × FunctionData) :=
  stackFrames.foldl (fun acc e => jsMapSet acc e.1 (traceInitRecord e.1 e.2)) []

/-- The parent/child pass: for every frame whose parent is truthy and
resolvable, append its id to the parent's `children`.  The source iterates
the live map while mutating only `children` fields, so the iteration
sequence and every parent lookup agree with a snapshot of the (static)
id/parent pairs, which is what the fold below consumes. -/
def linkChildren (m : List (String × FunctionData)) : List (String × FunctionData) :=
  (m.map (fun e => (e.1, e.2.parent))).foldl
    (fun acc pr =>
      match pr.2 with
      | some p =>
          if p != "" && jsMapHas acc p then
            jsMapModify acc p (fun f => { f with children := f.children ++ [pr.1] })
          else acc
      | none => acc)
    m

/-- The running minimum of the timestamps (`firstTimestamp`), whose initial
value `Infinity` is modelled as `none`. -/
def firstTimestamp (samples : List TraceSample) : Option Int :=
  samples.foldl
    (fun acc s =>
      match acc with
      | none => some s.ts
      | some m => some (min m s.ts))
    none

/-- The running maximum of the timestamps (`lastTimestamp`), initialised
to 0 as in the source. -/
def lastTimestamp (samples : List TraceSample) : Int :=
  samples.foldl (fun acc s => max acc s.ts) 0

/-- `totalDuration = lastTimestamp - firstTimestamp` in the native unit.
With no samples the source computes `0 - Infinity = -Infinity`, which is
outside the modelled fragment; we return 0 there and state span facts only
for nonempty sample lists. -/
def traceSpan (samples : List TraceSample) : Int :=
  match firstTimestamp samples with
  | some f => lastTimestamp samples - f
  | none => 0

/-- `averageSampleInterval`: the span divided by `samples.length - 1` when
more than one sample exists, else the span itself. -/
def averageSampleInterval (samples : List TraceSample) : ℚ :=
  if 1 < samples.length then
    (traceSpan samples : ℚ) / ((samples.length : ℚ) - 1)
  else (traceSpan samples : ℚ)

/-- `parseInt(sample.weight) || 1`: a `NaN` (`none`) or zero weight counts
as 1. -/
def weightOf (s : TraceSample) : Int :=
  match s.weight with
  | some w => if w = 0 then 1 else w
  | none => 1

/-- The weighted sample counts per frame id: a sample contributes when its
frame id is truthy and present in the map. -/
def sampleCounts (m : List (String × FunctionData)) (samples : List TraceSample) :
    List (String × Int) :=
  samples.foldl
    (fun counts s =>
      match s.sf with
      | some frameId =>
          if frameId != "" && jsMapHas m frameId then
            jsMapSet counts frameId (((jsMapGet counts frameId).getD 0) + weightOf s)
          else counts
      | none => counts)
    []

/-- `func.selfTime = (sampleCounts.get(frameId) || 0) * averageSampleInterval`
for every frame. -/
def applySelfTimes (m : List (String × FunctionData))
    (counts : List (String × Int)) (avg : ℚ) : List (String × FunctionData) :=
  m.map (fun e => (e.1, { e.2 with selfTime := (((jsMapGet counts e.1).getD 0 : Int) : ℚ) * avg }))

/-- The recursive `calculateTotalTime` with its `visited` set, threading the
visited list and the mutated map.  A frame already visited returns its
currently stored total (`?.totalTime || 0`).  The fuel is structural
bookkeeping only: each recursive call happens with a strictly enlarged
visited set, so with the fuel the callers pass (one more than the map size)
the zero-fuel default is unreachable (`calcTotalTime_spec` below). -/
def calcTotalTime :
    Nat → List String × List (String × FunctionData) → String →
    (List String × List (String × FunctionData)) × ℚ
  | 0, st, _ => (st, 0)
  | fuel+1, st, frameId =>
    if st.1.contains frameId then
      (st, ((jsMapGet st.2 frameId).map (fun f => f.totalTime)).getD 0)
    else
      let st1 : List String × List (String × FunctionData) := (frameId :: st.1, st.2)
      match jsMapGet st1.2 frameId with
      | none => (st1, 0)
      | some func =>
        let r := func.children.foldl
          (fun acc c =>
            let rc := calcTotalTime fuel acc.1 c
            (rc.1, acc.2 + rc.2))
          (st1, func.selfTime)
        ((r.1.1, jsMapModify r.1.2 frameId (fun f => { f with totalTime := r.2 })), r.2)

/-- The root test `!func.parent || !functionMap.has(func.parent)`. -/
def isRootFrame (m : List (String × FunctionData)) (f : FunctionData) : Bool :=
  match f.parent with
  | none => true
  | some p => p == "" || !(jsMapHas m p)

/-- The total-time pass: `calculateTotalTime` from every root frame, sharing
one visited set.  Parents and keys are never mutated, so the root tests read
the same values on the snapshot `m` as on the live map. -/
def runTotals (m : List (String × FunctionData)) : List (String × FunctionData) :=
  (m.foldl
    (fun st e => if isRootFrame m e.2 then (calcTotalTime (m.length + 1) st e.1).1 else st)
    (([] : List String), m)).2

/-- `name.includes(sub)`. -/
def jsStrIncludes (s sub : String) : Bool :=
  decide (1 < (s.splitOn sub).length)

/-- The display-name cleanup of `buildFlameGraphFromTraceData`: for names
embedding a localhost URL, keep the part before the first `(` and replace
the rest with the URL's trailing path segment up to the first `:`
(`'unknown'` when that segment is empty). -/
def cleanDisplayName (name : String) : String :=
  if jsStrIncludes name "http://localhost:" then
    let parts := name.splitOn "("
    if 1 < parts.length then
      let urlPart := parts.getD 1 ""
      let lastSeg := (urlPart.splitOn "/").getLastD ""
      let filename0 := ((lastSeg.splitOn ":").headD "")
      let filename := if filename0 = "" then "unknown" else filename0
      let head := (parts.headD "").trim
      s!"{head} ({filename})"
    else name
  else name

/-- The recursive `buildNode` of `buildFlameGraphFromTraceData`: value is
`max(0, totalTime / 1000)`, children with neither value nor children are
pruned, surviving children are sorted by descending value.  The `children`
lists this runs on are synthesised from the (single) `parent` links by
`linkChildren`, so the recursion from the root frames is cycle-free and
depth-bounded by the map size; with the fuel the callers pass, the
zero-fuel default is unreachable. -/
def buildNodeTrace (m : List (String × FunctionData)) :
    Nat → String → FlameNode
  | 0, _ => .mk "Unknown" 0 []
  | fuel+1, frameId =>
    match jsMapGet m frameId with
    | none => .mk "Unknown" 0 []
    | some func =>
      let children := ((func.children.map (buildNodeTrace m fuel)).filter
          (fun c => decide (0 < c.value) || decide (0 < c.children.length))).mergeSort
          (fun a b => decide (b.value ≤ a.value))
      .mk (cleanDisplayName func.name) (max 0 (func.totalTime / 1000)) children

/-- `buildFlameGraphFromTraceData`: build and prune the root nodes, sort
them by descending value, then apply the root policy (single root returned
directly; a dominant root, more than twice the runner-up, returned alone;
otherwise an artificial `Profile Root`). -/
def buildFlameGraphFromTraceData (m : List (String × FunctionData)) : FlameNode :=
  let rootFrames := (m.map (fun e => e.2)).filter (fun f => isRootFrame m f)
  if rootFrames.isEmpty then .mk "Root" 0 []
  else
    let rootNodes := ((rootFrames.map (fun f => buildNodeTrace m (m.length + 1) f.id)).filter
        (fun c => decide (0 < c.value) || decide (0 < c.children.length))).mergeSort
        (fun a b => decide (b.value ≤ a.value))
    match rootNodes with
    | [] => .mk "Profile Root" 0 []
    | [r] => r
    | r1 :: r2 :: rest =>
      if r2.value * 2 < r1.value then r1
      else .mk "Profile Root" 0 (r1 :: r2 :: rest)

/-- `parseTraceEventProfile` over typed inputs.  Only the total duration is
converted to milliseconds at the return; the per-function times stay in the
native unit. -/
def parseTraceEventProfile (samples : List TraceSample)
    (stackFrames : List (String × StackFrameIn)) : ParsedProfile :=
  let m1 := linkChildren (traceInitMap stackFrames)
  let totalDuration := traceSpan samples
  let avg := averageSampleInterval samples
  let m2 := applySelfTimes m1 (sampleCounts m1 samples) avg
  let m3 := runTotals m2
  { flamegraphData := .tree (buildFlameGraphFromTraceData m3)
    totalDuration := (totalDuration : ℚ) / 1000
    functions := m3.map (fun e => e.2) }

/-! ## JSON-level extraction and format routing

The functions below embed the loosely-typed surface of the source: property
accesses that can throw, `||` defaulting, and the coercions (`toString`,
`parseInt`) applied to the raw field values.  They produce the typed inputs
of the parsers above.  Where JavaScript would silently continue with values
whose behaviour we do not model (stringification of objects, `NaN`
arithmetic, string-typed collections), extraction stops with
`JsErr.modelLimit`. -/

/-- `v.toString()` for a JSON value known not to be `null`/`undefined`;
restricted to strings, integers and booleans (objects and arrays also
stringify in JavaScript, but their stringifications are not modelled). -/
def jsToStringId : Json → Except JsErr String
  | .str s => .ok s
  | .num q => if q.den = 1 then .ok (toString q.num) else .error (.modelLimit "non-integer id")
  | .bool b => .ok (if b then "true" else "false")
  | .null => .error (.typeError "Cannot read properties of null (reading toString)")
  | .undef => .error (.typeError "Cannot read properties of undefined (reading toString)")
  | _ => .error (.modelLimit "object/array stringification is not modelled")

/-- `parseInt(String(v))` with `none` for `NaN`.  Number inputs truncate
toward zero; string inputs are restricted to full decimal integers (the
prefix-parsing of `parseInt` and exponent-notation stringification are not
modelled and map to `none`, i.e. `NaN`). -/
def jsParseIntOpt : Json → Option Int
  | .num q => some (if 0 ≤ q then q.floor else q.ceil)
  | .str s => s.toInt?
  | _ => none

/-- An optional string field: absent/falsy values become `none` (the code
then substitutes its default); a truthy value must be a string (a truthy
non-string would be stored raw by the code, which only matters — and then
throws — once string methods run on it; such inputs are outside the model). -/
def extractOptStrField (j : Json) (field : String) : Except JsErr (Option String) := do
  let v ← jGet j field
  if v.truthy then
    match v with
    | .str s => .ok (some s)
    | _ => .error (.modelLimit ("truthy non-string " ++ field))
  else .ok none

/-- `frame.parent ? frame.parent.toString() : undefined`. -/
def extractParent (frame : Json) : Except JsErr (Option String) := do
  let v ← jGet frame "parent"
  if v.truthy then do
    let s ← jsToStringId v
    .ok (some s)
  else .ok none

/-- One `stackFrames` entry.  A `null` frame value throws on the very first
property access, as in the source. -/
def extractTraceFrame (frame : Json) : Except JsErr StackFrameIn := do
  let name ← extractOptStrField frame "name"
  let category ← extractOptStrField frame "category"
  let parent ← extractParent frame
  .ok { name := name, category := category, parent := parent }

/-- One `samples` entry: `parseInt(sample.ts)` (a `NaN` here would poison
every derived time in the source without throwing; outside the model),
`sample.sf?.toString()` and `parseInt(sample.weight)`. -/
def extractTraceSample (sample : Json) : Except JsErr TraceSample := do
  let tsv ← jGet sample "ts"
  let ts ← match jsParseIntOpt tsv with
    | some t => Except.ok t
    | none => Except.error (.modelLimit "ts does not parse to an integer (NaN)")
  let sfv ← jGet sample "sf"
  let sf ← match sfv with
    | .null => Except.ok (Option.none)
    | .undef => Except.ok (Option.none)
    | v => do
        let s ← jsToStringId v
        Except.ok (some s)
  let wv ← jGet sample "weight"
  .ok { ts := ts, sf := sf, weight := jsParseIntOpt wv }

/-- The extraction half of `parseTraceEventProfile`: defaulted `samples` and
`stackFrames`, the stack-frame loop, then the sample loops (whose first
statement, `samples.forEach`, throws when a truthy `samples` is not an
array). -/
def extractTraceParts (profile : Json) :
    Except JsErr (List TraceSample × List (String × StackFrameIn)) := do
  let samplesJ := jOr (← jGet profile "samples") (Json.arr [])
  let stackFramesJ := jOr (← jGet profile "stackFrames") (Json.obj [])
  let frames ← (jsEntries stackFramesJ).mapM (fun e => do
    let fr ← extractTraceFrame e.2
    Except.ok (e.1, fr))
  let samples ← match samplesJ with
    | .arr es => es.mapM extractTraceSample
    | _ => Except.error (.typeError "samples.forEach is not a function")
  .ok (samples, frames)

/-- `parseTraceEventProfile` on a raw payload. -/
def parseTraceEventProfileJ (profile : Json) : Except JsErr ParsedProfile := do
  let parts ← extractTraceParts profile
  .ok (parseTraceEventProfile parts.1 parts.2)

/-- One `nodes` entry: `node.callFrame || {}` and its fields, then
`node.id` (whose `toString()` throws when the id is absent) and
`node.children || []`.  Ids and children are restricted to integers: a
string id would make the later numeric `Map` lookups and `includes` tests
behave in ways the model does not cover. -/
def extractV8Node (node : Json) : Except JsErr V8Node := do
  let callFrameJ := jOr (← jGet node "callFrame") (Json.obj [])
  let functionName ← extractOptStrField callFrameJ "functionName"
  let url ← extractOptStrField callFrameJ "url"
  let lineNumber ← match jField callFrameJ "lineNumber" with
    | .num q => if q.den = 1 then Except.ok (some q.num)
                else Except.error (.modelLimit "non-integer lineNumber")
    | .undef => Except.ok (Option.none)
    | .null => Except.ok (Option.none)
    | _ => Except.error (.modelLimit "non-number lineNumber")
  let columnNumber ← match jField callFrameJ "columnNumber" with
    | .num q => if q.den = 1 then Except.ok (some q.num)
                else Except.error (.modelLimit "non-integer columnNumber")
    | .undef => Except.ok (Option.none)
    | .null => Except.ok (Option.none)
    | _ => Except.error (.modelLimit "non-number columnNumber")
  let idv ← jGet node "id"
  let id ← match idv with
    | .num q => if q.den = 1 then Except.ok q.num
                else Except.error (.modelLimit "non-integer node id")
    | .null => Except.error (.typeError "Cannot read properties of null (reading toString)")
    | .undef => Except.error (.typeError "Cannot read properties of undefined (reading toString)")
    | _ => Except.error (.modelLimit "non-number node id")
  let childrenJ ← jGet node "children"
  let children ← if childrenJ.truthy then
      match childrenJ with
      | .arr es => do
          let cs ← es.mapM (fun e => match e with
            | Json.num q => if q.den = 1 then Except.ok q.num
                            else Except.error (JsErr.modelLimit "non-integer child id")
            | _ => Except.error (JsErr.modelLimit "non-number child id"))
          Except.ok (some cs)
      | _ => Except.error (.modelLimit "truthy non-array children")
    else Except.ok (Option.none)
  let cf : V8CallFrame := { functionName := functionName, url := url,
                            lineNumber := lineNumber, columnNumber := columnNumber }
  .ok { id := id, callFrame := some cf, children := children }

/-- The extraction half of `parseV8Profile`: defaulted `nodes`, `samples`
and `timeDeltas` (`startTime`/`endTime` are read but unused), the node loop,
then the sample walk.  Sample entries are numeric `Map` keys and time deltas
are numbers; other element types are outside the model. -/
def extractV8Parts (profile : Json) :
    Except JsErr (List V8Node × List Int × List ℚ) := do
  let nodesJ := jOr (← jGet profile "nodes") (Json.arr [])
  let samplesJ := jOr (← jGet profile "samples") (Json.arr [])
  let deltasJ := jOr (← jGet profile "timeDeltas") (Json.arr [])
  let nodes ← match nodesJ with
    | .arr es => es.mapM extractV8Node
    | _ => Except.error (.typeError "nodes.forEach is not a function")
  let samples ← match samplesJ with
    | .arr es => es.mapM (fun e => match e with
        | Json.num q => if q.den = 1 then Except.ok q.num
                        else Except.error (JsErr.modelLimit "non-integer sample")
        | _ => Except.error (JsErr.modelLimit "non-number sample"))
    | _ => Except.error (.typeError "samples.forEach is not a function")
  let deltas ← match deltasJ with
    | .arr es => es.mapM (fun e => match e with
        | Json.num q => Except.ok q
        | _ => Except.error (JsErr.modelLimit "non-number time delta"))
    | _ => Except.error (.modelLimit "truthy non-array timeDeltas")
  .ok (nodes, samples, deltas)

/-- `parseV8Profile` on a raw payload. -/
def parseV8ProfileJ (profile : Json) : Except JsErr ParsedProfile := do
  let parts ← extractV8Parts profile
  parseV8Profile parts.1 parts.2.1 parts.2.2

/-- `parseCpuProfile`: structural format sniffing, then dispatch; an
unrecognised shape degrades to an empty profile echoing the payload. -/
def parseCpuProfileJ (json : Json) : Except JsErr ParsedProfile := do
  let samplesV ← jGet json "samples"
  let stackFramesV ← jGet json "stackFrames"
  if samplesV.truthy && stackFramesV.truthy then
    parseTraceEventProfileJ json
  else do
    let nodesV ← jGet json "nodes"
    let samplesV2 ← jGet json "samples"
    let timeDeltasV ← jGet json "timeDeltas"
    if nodesV.truthy && samplesV2.truthy && timeDeltasV.truthy then
      parseV8ProfileJ json
    else
      .ok { flamegraphData := .raw json, totalDuration := 0, functions := [] }

/-- `compareProfiles`.  The final sort is by descending absolute (already
converted) self-time delta; JavaScript's `Array.prototype.sort` is stable,
which `List.mergeSort` matches. -/
def compareProfiles (left right : ParsedProfile) : ProfileComparison :=
  let leftFunctions := mapByName left.functions
  let rightFunctions := mapByName right.functions
  let d1 := leftFunctions.foldl
    (fun acc e => acc ++ (emitLeft rightFunctions e).toList) []
  let d2 := rightFunctions.foldl
    (fun acc e => acc ++ (emitRight leftFunctions e).toList) d1
  let differences := d2.mergeSort
    (fun a b => decide (|b.selfTimeDiff| ≤ |a.selfTimeDiff|))
  { leftTotalDuration := left.totalDuration
    rightTotalDuration := right.totalDuration
    totalDurationDiff := right.totalDuration - left.totalDuration
    differences := differences }

/-! ## Derived notions used by the statements -/

/-- The keys of a function map. -/
def keysOf (m : List (String × FunctionData)) : List String :=
  m.map (fun e => e.1)

/-- The `children` list stored for a frame id (empty when absent). -/
def childrenAt (m : List (String × FunctionData)) (id : String) : List String :=
  ((jsMapGet m id).map (fun f => f.children)).getD []

/-- The `selfTime` stored for a frame id (0 when absent). -/
def selfAt (m : List (String × FunctionData)) (id : String) : ℚ :=
  ((jsMapGet m id).map (fun f => f.selfTime)).getD 0

/-- The `totalTime` stored for a frame id (0 when absent). -/
def totalAt (m : List (String × FunctionData)) (id : String) : ℚ :=
  ((jsMapGet m id).map (fun f => f.totalTime)).getD 0

/-- The parent link the total-time pass follows: the stored parent when it
is truthy and resolvable, `none` otherwise (which makes the frame a root
candidate). -/
def resolvedParent (m : List (String × FunctionData)) (id : String) : Option String :=
  match jsMapGet m id with
  | some f =>
      match f.parent with
      | some p => if p != "" && jsMapHas m p then some p else none
      | none => none
  | none => none

/-- `reachesRoot m n id`: the parent chain starting at `id` reaches a root
candidate within `n` steps.  `∀ id ∈ keysOf m, reachesRoot m (m.length + 1) id`
says exactly that the parent links contain no cycle. -/
def reachesRoot (m : List (String × FunctionData)) : Nat → String → Bool
  | 0, _ => false
  | n+1, id =>
    match resolvedParent m id with
    | none => true
    | some p => reachesRoot m n p

/-- The total time recorded in an emitted `functions` list for a given frame
id (0 when absent). -/
def outTotal (fs : List FunctionData) (id : String) : ℚ :=
  ((fs.find? (fun f => f.id == id)).map (fun f => f.totalTime)).getD 0

/-- `boundedDepthV8 nodes n id`: every children path from `id` ends within
`n` levels.  `∀ n ∈ nodes, boundedDepthV8 nodes (nodes.length + 1) n.id`
says exactly that the sample-format children graph is acyclic (on cyclic
data the source's `buildNode` recurses forever). -/
def boundedDepthV8 (nodes : List V8Node) : Nat → Int → Bool
  | 0, _ => false
  | n+1, id => (childIdsOf nodes id).all (fun c => boundedDepthV8 nodes n c)

/-- `MirrorsV8 nodes fm t id`: the flame node `t` is the faithful image of
node `id`: a placeholder for an unknown id, and otherwise the function's
name, its **accumulated self time** as value, and one child per entry of the
node's children array, in that order (nothing pruned, nothing sorted). -/
inductive MirrorsV8 (nodes : List V8Node) (fm : List (Int × FunctionData)) :
    FlameNode → Int → Prop where
  | unknown (id : Int) (h : jsMapGet fm id = none) :
      MirrorsV8 nodes fm (.mk "Unknown" 0 []) id
  | known (id : Int) (func : FunctionData) (cs : List FlameNode)
      (h : jsMapGet fm id = some func)
      (hcs : List.Forall₂ (fun t c => MirrorsV8 nodes fm t c) cs (childIdsOf nodes id)) :
      MirrorsV8 nodes fm (.mk func.name func.selfTime cs) id

/-- Routing test for the trace-event format (`json.samples && json.stackFrames`). -/
def routesTrace (j : Json) : Bool :=
  (jField j "samples").truthy && (jField j "stackFrames").truthy

/-- Routing test for the sample format (`json.nodes && json.samples && json.timeDeltas`,
reached only when the trace-event test failed). -/
def routesV8 (j : Json) : Bool :=
  !routesTrace j && (jField j "nodes").truthy &&
    (jField j "samples").truthy && (jField j "timeDeltas").truthy

/-- A record with its `children` emptied: the parent/child pass mutates only
that field. -/
def dropChildren (f : FunctionData) : FunctionData :=
  { f with children := [] }

/-- A record with its `totalTime` zeroed: the totals pass mutates only that
field, so two maps with equal `stripTotal` images agree on everything the
pass reads. -/
def stripTotal (f : FunctionData) : FunctionData :=
  { f with totalTime := 0 }

/-- `m` is `m0` with possibly different `totalTime`s: same keys in the same
order and entrywise equal up to `totalTime`. -/
def SameShape (m0 m : List (String × FunctionData)) : Prop :=
  keysOf m = keysOf m0 ∧
  ∀ id, (jsMapGet m id).map stripTotal = (jsMapGet m0 id).map stripTotal

/-- The invariant of the total-time pass: every visited frame outside the
in-flight stack `A` already satisfies the subtree equation, with all its
children visited and not in flight. -/
def DoneInv (m0 m : List (String × FunctionData)) (v A : List String) : Prop :=
  ∀ w ∈ v, w ∉ A →
    (totalAt m w = selfAt m0 w + ((childrenAt m0 w).map (totalAt m)).sum ∧
     ∀ c ∈ childrenAt m0 w, c ∈ v ∧ c ∉ A)

/-! ## Shape predicates for the no-throw envelope

These delimit the payloads whose extraction succeeds: every property access
hits a non-`null` receiver, every collection iterated with an array method
is an array, numeric fields are integers where the model requires it, and
(`v8NodeOk`) every node has an `id`. -/

/-- A field that is falsy (defaulted by the code) or a string. -/
def strFieldOk (j : Json) (field : String) : Bool :=
  match jField j field with
  | .str _ => true
  | v => !v.truthy

/-- A `parent` field `extractParent` accepts: falsy, or a value whose
`toString()` the model covers. -/
def parentFieldOk (j : Json) : Bool :=
  match jField j "parent" with
  | .str _ => true
  | .num q => decide (q.den = 1)
  | .bool _ => true
  | v => !v.truthy

/-- One acceptable `stackFrames` entry: non-`null` with well-typed fields. -/
def traceFrameOk (fr : Json) : Bool :=
  match fr with
  | .null => false
  | .undef => false
  | _ => strFieldOk fr "name" && strFieldOk fr "category" && parentFieldOk fr

/-- One acceptable trace `samples` entry: non-`null`, with an integer-parsing
`ts` and a frame id whose `toString()` the model covers. -/
def traceSampleOk (s : Json) : Bool :=
  match s with
  | .null => false
  | .undef => false
  | _ =>
    (jsParseIntOpt (jField s "ts")).isSome &&
    (match jField s "sf" with
     | .null => true
     | .undef => true
     | .str _ => true
     | .bool _ => true
     | .num q => decide (q.den = 1)
     | _ => false)

/-- The trace-event no-throw envelope: a `samples` array of acceptable
samples (after `|| []` defaulting) and acceptable `stackFrames` entries. -/
def traceShapeOk (j : Json) : Bool :=
  (match jOr (jField j "samples") (Json.arr []) with
   | .arr es => es.all traceSampleOk
   | _ => false) &&
  ((jsEntries (jOr (jField j "stackFrames") (Json.obj []))).all (fun e => traceFrameOk e.2))

/-- A `lineNumber`/`columnNumber` value the model covers: absent, `null` or
an integer. -/
def intFieldOk (v : Json) : Bool :=
  match v with
  | .num q => decide (q.den = 1)
  | .undef => true
  | .null => true
  | _ => false

/-- One acceptable `nodes` entry: non-`null`, an integer `id` (an absent id
throws in the source), well-typed `callFrame` fields, and falsy or
integer-array `children`. -/
def v8NodeOk (n : Json) : Bool :=
  match n with
  | .null => false
  | .undef => false
  | _ =>
    strFieldOk (jOr (jField n "callFrame") (Json.obj [])) "functionName" &&
    strFieldOk (jOr (jField n "callFrame") (Json.obj [])) "url" &&
    intFieldOk (jField (jOr (jField n "callFrame") (Json.obj [])) "lineNumber") &&
    intFieldOk (jField (jOr (jField n "callFrame") (Json.obj [])) "columnNumber") &&
    (match jField n "id" with
     | .num q => decide (q.den = 1)
     | _ => false) &&
    (match jField n "children" with
     | .arr es => es.all (fun e => match e with
        | Json.num q => decide (q.den = 1)
        | _ => false)
     | v => !v.truthy)

/-- The sample-format no-throw envelope: acceptable nodes, integer samples
and numeric time deltas (each after `|| []` defaulting). -/
def v8ShapeOk (j : Json) : Bool :=
  (match jOr (jField j "nodes") (Json.arr []) with
   | .arr es => es.all v8NodeOk
   | _ => false) &&
  (match jOr (jField j "samples") (Json.arr []) with
   | .arr es => es.all (fun e => match e with
      | Json.num q => decide (q.den = 1)
      | _ => false)
   | _ => false) &&
  (match jOr (jField j "timeDeltas") (Json.arr []) with
   | .arr es => es.all (fun e => match e with
      | Json.num _ => true
      | _ => false)
   | _ => false)

/-! # Theorems

## Generic lemmas about the collection embeddings -/

theorem jsMapGet_eq_some_of_mem [BEq κ] [LawfulBEq κ] :
    ∀ (m : List (κ × α)), (m.map Prod.fst).Nodup → ∀ e ∈ m, jsMapGet m e.1 = some e.2 := by
  intro m
  induction m with
  | nil => intro _ e he; exact absurd he (List.not_mem_nil e)
  | cons h t ih =>
      intro hn e he
      rcases List.mem_cons.mp he with rfl | ht
      · simp [jsMapGet]
      · have hmem : e.1 ∈ t.map Prod.fst := List.mem_map_of_mem Prod.fst ht
        have hn' := List.nodup_cons.mp hn
        have h1 : ¬(h.1 == e.1) = true := by
          intro hc
          exact hn'.1 ((eq_of_beq hc) ▸ hmem)
        have := ih hn'.2 e ht
        simpa [jsMapGet, List.find?_cons, h1] using this

theorem mem_of_jsMapGet_eq_some [BEq κ] [LawfulBEq κ] {m : List (κ × α)} {k : κ} {v : α}
    (h : jsMapGet m k = some v) : (k, v) ∈ m := by
  unfold jsMapGet at h
  rcases Option.map_eq_some'.mp h with ⟨e, he, hev⟩
  have hmem := List.mem_of_find?_eq_some he
  have hp := List.find?_some he
  have : e.1 = k := eq_of_beq hp
  have : e = (k, v) := by
    cases e
    simp only at hev this
    simp [this, hev]
  exact this ▸ hmem

theorem jsMapHas_iff_mem_keys [BEq κ] [LawfulBEq κ] (m : List (κ × α)) (k : κ) :
    jsMapHas m k = true ↔ k ∈ m.map Prod.fst := by
  unfold jsMapHas jsMapGet
  rw [Option.isSome_map']
  rw [List.find?_isSome]
  constructor
  · rintro ⟨e, he, hp⟩
    exact (eq_of_beq hp) ▸ List.mem_map_of_mem Prod.fst he
  · intro hk
    rcases List.mem_map.mp hk with ⟨e, he, hek⟩
    exact ⟨e, he, by simp [hek]⟩

theorem map_fst_jsMapSet [BEq κ] [LawfulBEq κ] (m : List (κ × α)) (k : κ) (v : α) :
    (jsMapSet m k v).map Prod.fst =
      if jsMapHas m k then m.map Prod.fst else m.map Prod.fst ++ [k] := by
  unfold jsMapSet
  by_cases h : jsMapHas m k
  · simp only [h, if_true]
    rw [List.map_map]
    congr 1
    funext e
    by_cases he : (e.1 == k) = true <;> simp [he]
  · simp [h]

theorem nodup_keys_jsMapSet [BEq κ] [LawfulBEq κ] (m : List (κ × α)) (k : κ) (v : α)
    (hn : (m.map Prod.fst).Nodup) : ((jsMapSet m k v).map Prod.fst).Nodup := by
  rw [map_fst_jsMapSet]
  by_cases h : jsMapHas m k
  · simpa [h] using hn
  · have hk : k ∉ m.map Prod.fst := fun hc => h ((jsMapHas_iff_mem_keys m k).mpr hc)
    simp only [h, Bool.false_eq_true, if_false]
    rw [List.nodup_append]
    refine ⟨hn, List.nodup_singleton k, ?_⟩
    intro a ha hb
    rw [List.mem_singleton] at hb
    exact hk (hb ▸ ha)

theorem mapByName_keys_nodup (fs : List FunctionData) :
    ((mapByName fs).map Prod.fst).Nodup := by
  unfold mapByName
  suffices h : ∀ (l : List FunctionData) (init : List (String × FunctionData)),
      (init.map Prod.fst).Nodup →
      ((l.foldl (fun acc f => jsMapSet acc f.name f) init).map Prod.fst).Nodup by
    exact h fs [] (by simp)
  intro l
  induction l with
  | nil => intro init h; simpa using h
  | cons f t ih =>
      intro init h
      exact ih (jsMapSet init f.name f) (nodup_keys_jsMapSet init f.name f h)

theorem foldl_append_toList (f : α → Option β) :
    ∀ (l : List α) (init : List β),
      l.foldl (fun acc e => acc ++ (f e).toList) init = init ++ l.filterMap f := by
  intro l
  induction l with
  | nil => intro init; simp
  | cons x xs ih =>
      intro init
      rw [List.foldl_cons, ih]
      cases h : f x <;> simp [h, List.filterMap_cons]

/-- The differences list is a permutation of the rows emitted by the two
passes (the final sort only reorders). -/
theorem compareProfiles_differences_perm (left right : ParsedProfile) :
    (compareProfiles left right).differences.Perm
      ((mapByName left.functions).filterMap (emitLeft (mapByName right.functions)) ++
       (mapByName right.functions).filterMap (emitRight (mapByName left.functions))) := by
  unfold compareProfiles
  simp only
  refine (List.mergeSort_perm _ _).trans ?_
  rw [foldl_append_toList, foldl_append_toList]
  simp

/-! ## C6: comparing a profile against itself -/

/-- C6.  For every profile `P`, `compareProfiles P P` yields no difference
rows at all (in particular zero Added, zero Removed and zero Changed
entries) and a total-duration delta of 0. -/
theorem compareProfiles_self (P : ParsedProfile) :
    (compareProfiles P P).differences = [] ∧
    (compareProfiles P P).totalDurationDiff = 0 ∧
    (compareProfiles P P).leftTotalDuration = P.totalDuration ∧
    (compareProfiles P P).rightTotalDuration = P.totalDuration := by
  have hL : ∀ e ∈ mapByName P.functions, emitLeft (mapByName P.functions) e = none := by
    intro e he
    have hget := jsMapGet_eq_some_of_mem _ (mapByName_keys_nodup P.functions) e he
    unfold emitLeft
    rw [hget]
    have hc : ¬((1:ℚ)/100 < |e.2.selfTime - e.2.selfTime| ∨
        (1:ℚ)/100 < |e.2.totalTime - e.2.totalTime|) := by
      simp only [sub_self, abs_zero]
      norm_num
    simp [hc]
  have hR : ∀ e ∈ mapByName P.functions, emitRight (mapByName P.functions) e = none := by
    intro e he
    have hget := jsMapGet_eq_some_of_mem _ (mapByName_keys_nodup P.functions) e he
    unfold emitRight
    have hhas : jsMapHas (mapByName P.functions) e.1 = true := by
      unfold jsMapHas
      rw [hget]
      rfl
    simp [hhas]
  have hperm := compareProfiles_differences_perm P P
  rw [List.filterMap_eq_nil.mpr hL, List.filterMap_eq_nil.mpr hR] at hperm
  have hnil : (compareProfiles P P).differences = [] := hperm.eq_nil
  refine ⟨hnil, ?_, rfl, rfl⟩
  show P.totalDuration - P.totalDuration = 0
  exact sub_self _

/-! ## C5: ordering of the differences -/

/-- C5.  The differences of every comparison are sorted descending by
absolute self-time delta, and ties keep their emission order (the sort is
stable), which together with the deterministic emission order makes the
result deterministic. -/
theorem compareProfiles_differences_sorted (left right : ParsedProfile) :
    (compareProfiles left right).differences.Pairwise
      (fun a b => |b.selfTimeDiff| ≤ |a.selfTimeDiff|) ∧
    (∀ a b : FunctionDifference, |a.selfTimeDiff| = |b.selfTimeDiff| →
      [a, b].Sublist
        ((mapByName left.functions).filterMap (emitLeft (mapByName right.functions)) ++
         (mapByName right.functions).filterMap (emitRight (mapByName left.functions))) →
      [a, b].Sublist (compareProfiles left right).differences) := by
  have htrans : ∀ a b c : FunctionDifference,
      (fun a b => decide (|b.selfTimeDiff| ≤ |a.selfTimeDiff|)) a b = true →
      (fun a b => decide (|b.selfTimeDiff| ≤ |a.selfTimeDiff|)) b c = true →
      (fun a b => decide (|b.selfTimeDiff| ≤ |a.selfTimeDiff|)) a c = true := by
    intro a b c hab hbc
    simp only [decide_eq_true_eq] at hab hbc ⊢
    exact le_trans hbc hab
  have htotal : ∀ a b : FunctionDifference,
      ((fun a b => decide (|b.selfTimeDiff| ≤ |a.selfTimeDiff|)) a b ||
       (fun a b => decide (|b.selfTimeDiff| ≤ |a.selfTimeDiff|)) b a) = true := by
    intro a b
    simp only [Bool.or_eq_true, decide_eq_true_eq]
    exact le_total _ _
  constructor
  · have hs := List.sorted_mergeSort htrans htotal
      ((mapByName left.functions).foldl
        (fun acc e => acc ++ (emitLeft (mapByName right.functions) e).toList) [] ++ [])
    have h := @List.sorted_mergeSort FunctionDifference (fun a b =>
        decide (|b.selfTimeDiff| ≤ |a.selfTimeDiff|)) htrans htotal
      ((mapByName right.functions).foldl
        (fun acc e => acc ++ (emitRight (mapByName left.functions) e).toList)
        ((mapByName left.functions).foldl
          (fun acc e => acc ++ (emitLeft (mapByName right.functions) e).toList) []))
    refine List.Pairwise.imp ?_ h
    intro a b hab
    simpa using hab
  · intro a b hab hsub
    have hle : (fun a b => decide (|b.selfTimeDiff| ≤ |a.selfTimeDiff|)) a b = true := by
      simp [hab]
    have hsub' : [a, b].Sublist
        ((mapByName right.functions).foldl
          (fun acc e => acc ++ (emitRight (mapByName left.functions) e).toList)
          ((mapByName left.functions).foldl
            (fun acc e => acc ++ (emitLeft (mapByName right.functions) e).toList) [])) := by
      rw [foldl_append_toList, foldl_append_toList]
      simpa using hsub
    exact List.mergeSort_stable_pair htrans htotal hle hsub'

/-! ## C4: the change threshold -/

/-- Any difference row whose name is present (with values `fl`, `fr`) in
both name-keyed maps is the `changed` row for those values, and its
emission certifies that a native-unit delta exceeded the 0.01 threshold. -/
theorem compareProfiles_named_row (left right : ParsedProfile) (name : String)
    (fl fr : FunctionData)
    (hl : jsMapGet (mapByName left.functions) name = some fl)
    (hr : jsMapGet (mapByName right.functions) name = some fr) :
    ∀ d ∈ (compareProfiles left right).differences, d.name = name →
      d = changedEntry name fl fr ∧
      ((1:ℚ)/100 < |fr.selfTime - fl.selfTime| ∨ (1:ℚ)/100 < |fr.totalTime - fl.totalTime|) := by
  have hperm := compareProfiles_differences_perm left right
  intro d hd hdname
  have hd' := hperm.mem_iff.mp hd
  rcases List.mem_append.mp hd' with hdl | hdr
  · rcases List.mem_filterMap.mp hdl with ⟨e, he, hee⟩
    unfold emitLeft at hee
    rcases hre : jsMapGet (mapByName right.functions) e.1 with _ | rf
    · rw [hre] at hee
      have : d = removedEntry e.1 e.2 := by
        simpa using hee.symm
      have hde : d.name = e.1 := by rw [this]; rfl
      have he1 : e.1 = name := by rw [← hde, hdname]
      rw [he1] at hre
      rw [hre] at hr
      exact absurd hr (by simp)
    · rw [hre] at hee
      dsimp only at hee
      by_cases hcond : ((1:ℚ)/100 < |rf.selfTime - e.2.selfTime| ∨
          (1:ℚ)/100 < |rf.totalTime - e.2.totalTime|)
      · rw [if_pos hcond] at hee
        have hdval : d = changedEntry e.1 e.2 rf := by simpa using hee.symm
        have hde : d.name = e.1 := by rw [hdval]; rfl
        have he1 : e.1 = name := by rw [← hde, hdname]
        subst he1
        have hgetl := jsMapGet_eq_some_of_mem _ (mapByName_keys_nodup left.functions) e he
        rw [hgetl] at hl
        have he2 : e.2 = fl := by simpa using hl
        rw [hre] at hr
        have hrf : rf = fr := by simpa using hr
        subst he2
        subst hrf
        exact ⟨hdval, hcond⟩
      · rw [if_neg hcond] at hee
        exact absurd hee (by simp)
  · rcases List.mem_filterMap.mp hdr with ⟨e, he, hee⟩
    unfold emitRight at hee
    by_cases hhas : jsMapHas (mapByName left.functions) e.1
    · rw [if_pos hhas] at hee
      exact absurd hee (by simp)
    · rw [if_neg hhas] at hee
      have hdval : d = addedEntry e.1 e.2 := by simpa using hee.symm
      have hde : d.name = e.1 := by rw [hdval]; rfl
      have he1 : e.1 = name := by rw [← hde, hdname]
      rw [he1] at hhas
      have : jsMapHas (mapByName left.functions) name = true := by
        unfold jsMapHas
        rw [hl]
        rfl
      exact absurd this hhas

/-- C4 (amended).  For a name present in both name-keyed maps, a row for
that name is emitted iff a **native-unit** delta exceeds 0.01 (i.e. 0.01 of
the capture's native time unit, not 0.01 ms); every emitted row for the name
is the `changed` row carrying both converted deltas. -/
theorem compareProfiles_changed_iff (left right : ParsedProfile) (name : String)
    (fl fr : FunctionData)
    (hl : jsMapGet (mapByName left.functions) name = some fl)
    (hr : jsMapGet (mapByName right.functions) name = some fr) :
    ((∃ d ∈ (compareProfiles left right).differences, d.name = name ∧ d.type = DiffType.changed) ↔
      ((1:ℚ)/100 < |fr.selfTime - fl.selfTime| ∨ (1:ℚ)/100 < |fr.totalTime - fl.totalTime|)) ∧
    (∀ d ∈ (compareProfiles left right).differences, d.name = name →
      d = changedEntry name fl fr) := by
  have hperm := compareProfiles_differences_perm left right
  have hmemL := mem_of_jsMapGet_eq_some hl
  have hnamed := compareProfiles_named_row left right name fl fr hl hr
  constructor
  · constructor
    · rintro ⟨d, hd, hdname, _⟩
      exact (hnamed d hd hdname).2
    · intro hcond
      refine ⟨changedEntry name fl fr, ?_, rfl, rfl⟩
      rw [hperm.mem_iff]
      apply List.mem_append.mpr
      left
      apply List.mem_filterMap.mpr
      refine ⟨(name, fl), hmemL, ?_⟩
      unfold emitLeft
      rw [hr]
      simp only [if_pos hcond]
  · intro d hd hdname
    exact (hnamed d hd hdname).1

/-- C4 counterexample.  A native-unit self-time difference of 5 (e.g. 5 µs)
passes the threshold, so a `changed` row is emitted although both recorded
millisecond deltas are far below 0.01 ms — the claim's "epsilon in
milliseconds" reading is false. -/
theorem compareProfiles_changed_iff_counterexample :
    ∃ d ∈ (compareProfiles
      { flamegraphData := FlameData.raw Json.null, totalDuration := 0,
        functions := [{ id := "1", name := "f", selfTime := 0, totalTime := 0, category := "x" }] }
      { flamegraphData := FlameData.raw Json.null, totalDuration := 0,
        functions := [{ id := "1", name := "f", selfTime := 5, totalTime := 0, category := "x" }] }).differences,
      d.type = DiffType.changed ∧ |d.selfTimeDiff| ≤ 1/100 ∧ |d.totalTimeDiff| ≤ 1/100 := by
  have hperm := compareProfiles_differences_perm
      { flamegraphData := FlameData.raw Json.null, totalDuration := 0,
        functions := [{ id := "1", name := "f", selfTime := 0, totalTime := 0, category := "x" }] }
      { flamegraphData := FlameData.raw Json.null, totalDuration := 0,
        functions := [{ id := "1", name := "f", selfTime := 5, totalTime := 0, category := "x" }] }
  refine ⟨changedEntry "f"
      { id := "1", name := "f", selfTime := 0, totalTime := 0, category := "x" }
      { id := "1", name := "f", selfTime := 5, totalTime := 0, category := "x" }, ?_, rfl, ?_, ?_⟩
  · rw [hperm.mem_iff]
    apply List.mem_append.mpr
    left
    apply List.mem_filterMap.mpr
    refine ⟨("f", { id := "1", name := "f", selfTime := 0, totalTime := 0, category := "x" }), ?_, ?_⟩
    · norm_num [mapByName, jsMapSet, jsMapHas, jsMapGet]
    · norm_num [emitLeft, mapByName, jsMapSet, jsMapHas, jsMapGet]
  · norm_num [changedEntry, abs_le]
  · norm_num [changedEntry, abs_le]

/-- C4 witness: the amended threshold theorem applied to two concrete
one-function profiles whose native self times differ by 5. -/
theorem compareProfiles_changed_iff_witness :
    (∃ d ∈ (compareProfiles
      { flamegraphData := FlameData.raw Json.null, totalDuration := 0,
        functions := [{ id := "1", name := "g", selfTime := 1, totalTime := 2, category := "x" }] }
      { flamegraphData := FlameData.raw Json.null, totalDuration := 0,
        functions := [{ id := "1", name := "g", selfTime := 6, totalTime := 2, category := "x" }] }).differences,
      d.name = "g" ∧ d.type = DiffType.changed) := by
  have h := compareProfiles_changed_iff
      { flamegraphData := FlameData.raw Json.null, totalDuration := 0,
        functions := [{ id := "1", name := "g", selfTime := 1, totalTime := 2, category := "x" }] }
      { flamegraphData := FlameData.raw Json.null, totalDuration := 0,
        functions := [{ id := "1", name := "g", selfTime := 6, totalTime := 2, category := "x" }] }
      "g"
      { id := "1", name := "g", selfTime := 1, totalTime := 2, category := "x" }
      { id := "1", name := "g", selfTime := 6, totalTime := 2, category := "x" }
      (by norm_num [mapByName, jsMapSet, jsMapHas, jsMapGet])
      (by norm_num [mapByName, jsMapSet, jsMapHas, jsMapGet])
  exact h.1.mpr (by norm_num)

/-! ## C9: the worked sample-format example -/

/-- C9.  On the two-node capture with `samples = [A, B, A]` and
`timeDeltas = [10, 5, 10]`, node A's self and total time are both 20, node
B's both 5 (no subtree summation in this format), and the accumulated total
duration is 25 in the native unit. -/
theorem parseV8Profile_worked_example :
    (parseV8Profile
        [{ id := 1, callFrame := some { functionName := some "A" }, children := some [2] },
         { id := 2, callFrame := some { functionName := some "B" } }]
        [1, 2, 1] [10, 5, 10]).map
      (fun p => (p.totalDuration, p.functions.map (fun f => (f.name, f.selfTime, f.totalTime)))) =
    Except.ok ((25 : ℚ), [("A", (20 : ℚ), (20 : ℚ)), ("B", (5 : ℚ), (5 : ℚ))]) := by
  norm_num +decide [parseV8Profile, v8FunctionMapInit, v8InitRecord, v8DisplayName, jsStrOr,
    v8ProcessSamples, jsMapSet, jsMapHas, jsMapGet, jsMapModify, buildFlameGraphData,
    v8RootNodes, childIdsOf, buildNodeV8, List.enum, List.enumFrom, List.find?, List.foldl,
    List.mapM.loop, Except.map, Except.bind, List.filter, List.any, Function.comp,
    Int.reduceBEq, Int.reduceEq]
  rw [show ((1:Int) == 2) = false from rfl]
  norm_num [Bind.bind, Except.bind]

/-! ## C3: unit conversion at the output boundary -/

/-- The duration accumulator of the sample walk is the sum of the attributed
deltas, independent of the map threading. -/
theorem v8ProcessSamples_snd (fm : List (Int × FunctionData)) (samples : List Int)
    (timeDeltas : List ℚ) :
    (v8ProcessSamples fm samples timeDeltas).2 =
      (samples.enum.map (fun pr => timeDeltas.getD pr.1 0)).sum := by
  unfold v8ProcessSamples
  suffices h : ∀ (l : List (ℕ × Int)) (fm0 : List (Int × FunctionData)) (q : ℚ),
      (l.foldl (fun acc p =>
        let timeDelta := timeDeltas.getD p.1 0
        let fm1 :=
          if jsMapHas acc.1 p.2 then
            jsMapModify acc.1 p.2 (fun f =>
              { f with selfTime := f.selfTime + timeDelta,
                       totalTime := f.totalTime + timeDelta })
          else acc.1
        (fm1, acc.2 + timeDelta)) (fm0, q)).2 =
      q + (l.map (fun pr => timeDeltas.getD pr.1 0)).sum by
    rw [h]
    ring
  intro l
  induction l with
  | nil => intro fm0 q; simp
  | cons x xs ih =>
      intro fm0 q
      rw [List.foldl_cons]
      rw [ih]
      simp only [List.map_cons, List.sum_cons]
      ring

/-- C3 (amended).  Unit handling as the code performs it: the trace-event
parser divides its total duration by 1000 at the return while passing the
per-function records through from the native-unit map unconverted; the
sample-format parser returns the accumulated native-unit delta sum
**unconverted** and likewise passes its per-function records through
unconverted; and every difference row the differ emits is one of the three
entry builders, each of which divides every time field by 1000. -/
theorem unit_conversion_boundaries :
    (∀ (samples : List TraceSample) (stackFrames : List (String × StackFrameIn)),
      samples ≠ [] →
      (parseTraceEventProfile samples stackFrames).totalDuration =
        (traceSpan samples : ℚ) / 1000 ∧
      (parseTraceEventProfile samples stackFrames).functions =
        (runTotals (applySelfTimes (linkChildren (traceInitMap stackFrames))
          (sampleCounts (linkChildren (traceInitMap stackFrames)) samples)
          (averageSampleInterval samples))).map (fun e => e.2)) ∧
    (∀ (nodes : List V8Node) (samples : List Int) (timeDeltas : List ℚ) (p : ParsedProfile),
      parseV8Profile nodes samples timeDeltas = Except.ok p →
      p.totalDuration = (samples.enum.map (fun pr => timeDeltas.getD pr.1 0)).sum ∧
      p.functions = ((v8ProcessSamples (v8FunctionMapInit nodes) samples timeDeltas).1).map
        (fun e => e.2)) ∧
    (∀ (left right : ParsedProfile), ∀ d ∈ (compareProfiles left right).differences,
      (∃ name lf rf, jsMapGet (mapByName left.functions) name = some lf ∧
          jsMapGet (mapByName right.functions) name = some rf ∧
          d = changedEntry name lf rf) ∨
      (∃ name lf, jsMapGet (mapByName left.functions) name = some lf ∧
          jsMapGet (mapByName right.functions) name = none ∧
          d = removedEntry name lf) ∨
      (∃ name rf, jsMapGet (mapByName right.functions) name = some rf ∧
          jsMapHas (mapByName left.functions) name = false ∧
          d = addedEntry name rf)) ∧
    (∀ (name : String) (lf rf : FunctionData),
      (changedEntry name lf rf).leftSelfTime = lf.selfTime / 1000 ∧
      (changedEntry name lf rf).rightSelfTime = rf.selfTime / 1000 ∧
      (changedEntry name lf rf).leftTotalTime = lf.totalTime / 1000 ∧
      (changedEntry name lf rf).rightTotalTime = rf.totalTime / 1000 ∧
      (changedEntry name lf rf).selfTimeDiff = (rf.selfTime - lf.selfTime) / 1000 ∧
      (changedEntry name lf rf).totalTimeDiff = (rf.totalTime - lf.totalTime) / 1000) ∧
    (∀ (name : String) (lf : FunctionData),
      (removedEntry name lf).leftSelfTime = lf.selfTime / 1000 ∧
      (removedEntry name lf).leftTotalTime = lf.totalTime / 1000 ∧
      (removedEntry name lf).rightSelfTime = 0 ∧
      (removedEntry name lf).rightTotalTime = 0 ∧
      (removedEntry name lf).selfTimeDiff = -lf.selfTime / 1000 ∧
      (removedEntry name lf).totalTimeDiff = -lf.totalTime / 1000) ∧
    (∀ (name : String) (rf : FunctionData),
      (addedEntry name rf).rightSelfTime = rf.selfTime / 1000 ∧
      (addedEntry name rf).rightTotalTime = rf.totalTime / 1000 ∧
      (addedEntry name rf).leftSelfTime = 0 ∧
      (addedEntry name rf).leftTotalTime = 0 ∧
      (addedEntry name rf).selfTimeDiff = rf.selfTime / 1000 ∧
      (addedEntry name rf).totalTimeDiff = rf.totalTime / 1000) := by
  refine ⟨?_, ?_, ?_, ?_, ?_, ?_⟩
  · intro samples stackFrames _
    exact ⟨rfl, rfl⟩
  · intro nodes samples timeDeltas p hp
    unfold parseV8Profile at hp
    dsimp only at hp
    rcases hfl : buildFlameGraphData
        (v8ProcessSamples (v8FunctionMapInit nodes) samples timeDeltas).1 nodes with
      err | flame
    · rw [hfl] at hp
      exact absurd hp (by simp [Bind.bind, Except.bind])
    · rw [hfl] at hp
      simp only [Bind.bind, Except.bind, Except.ok.injEq] at hp
      rw [← hp]
      exact ⟨v8ProcessSamples_snd _ _ _, rfl⟩
  · intro left right d hd
    have hperm := compareProfiles_differences_perm left right
    have hd2 := hperm.mem_iff.mp hd
    rcases List.mem_append.mp hd2 with h1 | h2
    · rcases List.mem_filterMap.mp h1 with ⟨e, he, hee⟩
      have hgl : jsMapGet (mapByName left.functions) e.1 = some e.2 :=
        jsMapGet_eq_some_of_mem _ (mapByName_keys_nodup left.functions) e he
      unfold emitLeft at hee
      rcases hg : jsMapGet (mapByName right.functions) e.1 with _ | rf
      · rw [hg] at hee
        dsimp only at hee
        exact Or.inr (Or.inl ⟨e.1, e.2, hgl, hg, (Option.some.inj hee).symm⟩)
      · rw [hg] at hee
        dsimp only at hee
        by_cases hcond : (1/100 < |rf.selfTime - e.2.selfTime| ∨
            1/100 < |rf.totalTime - e.2.totalTime|)
        · rw [if_pos hcond] at hee
          exact Or.inl ⟨e.1, e.2, rf, hgl, hg, (Option.some.inj hee).symm⟩
        · rw [if_neg hcond] at hee
          exact absurd hee (by simp)
    · rcases List.mem_filterMap.mp h2 with ⟨e, he, hee⟩
      have hgr : jsMapGet (mapByName right.functions) e.1 = some e.2 :=
        jsMapGet_eq_some_of_mem _ (mapByName_keys_nodup right.functions) e he
      unfold emitRight at hee
      by_cases hhas : jsMapHas (mapByName left.functions) e.1 = true
      · rw [if_pos hhas] at hee
        exact absurd hee (by simp)
      · have hhf : jsMapHas (mapByName left.functions) e.1 = false := by
          rcases hb : jsMapHas (mapByName left.functions) e.1 with _ | _
          · rfl
          · exact absurd hb hhas
        rw [if_neg hhas] at hee
        exact Or.inr (Or.inr ⟨e.1, e.2, hgr, hhf, (Option.some.inj hee).symm⟩)
  · intro name lf rf
    exact ⟨rfl, rfl, rfl, rfl, rfl, rfl⟩
  · intro name lf
    exact ⟨rfl, rfl, rfl, rfl, rfl, rfl⟩
  · intro name rf
    exact ⟨rfl, rfl, rfl, rfl, rfl, rfl⟩

/-- C3 counterexample.  A sample-format capture whose deltas sum to 25
native units comes back with `totalDuration = 25`, not the
milliseconds value 25/1000 the claim requires. -/
theorem unit_conversion_counterexample :
    (parseV8Profile [{ id := 1, callFrame := some { functionName := some "A" } }]
        [1, 1] [10, 15]).map (fun p => p.totalDuration) = Except.ok (25 : ℚ) ∧
    (25 : ℚ) ≠ 25 / 1000 := by
  constructor
  · norm_num +decide [parseV8Profile, v8FunctionMapInit, v8InitRecord, v8DisplayName, jsStrOr,
      v8ProcessSamples, jsMapSet, jsMapHas, jsMapGet, jsMapModify, buildFlameGraphData,
      v8RootNodes, childIdsOf, buildNodeV8, List.enum, List.enumFrom, List.find?, List.foldl,
      List.mapM.loop, Except.map, Except.bind, Bind.bind, Pure.pure, Except.pure,
      List.filter, List.any, Function.comp, Int.reduceBEq, Int.reduceEq]
  · norm_num

/-- C3 witness: the amended boundary theorem applied to concrete inputs for
the trace conversion, the sample-format non-conversion, and the differ's row
classification. -/
theorem unit_conversion_witness :
    (([{ ts := 5 }] : List TraceSample) ≠ []) ∧
    (parseTraceEventProfile [{ ts := 5 }] []).totalDuration =
      (traceSpan [{ ts := 5 }] : ℚ) / 1000 ∧
    ({ flamegraphData := FlameData.tree (FlameNode.mk "Root" 0 []), totalDuration := 0,
       functions := [] } : ParsedProfile).totalDuration =
      (([] : List Int).enum.map (fun pr => ([] : List ℚ).getD pr.1 0)).sum ∧
    ∀ d ∈ (compareProfiles
      { flamegraphData := FlameData.raw Json.null, totalDuration := 0,
        functions := [{ id := "1", name := "h", selfTime := 1, totalTime := 2, category := "x" }] }
      { flamegraphData := FlameData.raw Json.null, totalDuration := 0,
        functions := [{ id := "1", name := "h", selfTime := 6, totalTime := 2, category := "x" }] }).differences,
      (∃ name lf rf, jsMapGet (mapByName
            [{ id := "1", name := "h", selfTime := 1, totalTime := 2, category := "x" }]) name =
            some lf ∧
          jsMapGet (mapByName
            [{ id := "1", name := "h", selfTime := 6, totalTime := 2, category := "x" }]) name =
            some rf ∧
          d = changedEntry name lf rf) ∨
      (∃ name lf, jsMapGet (mapByName
            [{ id := "1", name := "h", selfTime := 1, totalTime := 2, category := "x" }]) name =
            some lf ∧
          jsMapGet (mapByName
            [{ id := "1", name := "h", selfTime := 6, totalTime := 2, category := "x" }]) name =
            none ∧
          d = removedEntry name lf) ∨
      (∃ name rf, jsMapGet (mapByName
            [{ id := "1", name := "h", selfTime := 6, totalTime := 2, category := "x" }]) name =
            some rf ∧
          jsMapHas (mapByName
            [{ id := "1", name := "h", selfTime := 1, totalTime := 2, category := "x" }]) name =
            false ∧
          d = addedEntry name rf) := by
  refine ⟨by decide, (unit_conversion_boundaries.1 [{ ts := 5 }] [] (by decide)).1, ?_, ?_⟩
  · have h2 := unit_conversion_boundaries.2.1 [] [] []
      { flamegraphData := FlameData.tree (FlameNode.mk "Root" 0 []), totalDuration := 0,
        functions := [] }
      (by norm_num [parseV8Profile, v8FunctionMapInit, v8ProcessSamples, buildFlameGraphData,
        v8RootNodes, Bind.bind, Except.bind, List.enum])
    exact h2.1
  · exact unit_conversion_boundaries.2.2.1
      { flamegraphData := FlameData.raw Json.null, totalDuration := 0,
        functions := [{ id := "1", name := "h", selfTime := 1, totalTime := 2, category := "x" }] }
      { flamegraphData := FlameData.raw Json.null, totalDuration := 0,
        functions := [{ id := "1", name := "h", selfTime := 6, totalTime := 2, category := "x" }] }

/-! ## C8: the time span and average sample interval -/

theorem foldl_max_spec (l : List Int) : ∀ (a : Int),
    a ≤ l.foldl max a ∧ (∀ x ∈ l, x ≤ l.foldl max a) ∧
    (l.foldl max a = a ∨ ∃ x ∈ l, l.foldl max a = x) := by
  induction l with
  | nil => intro a; simp
  | cons y ys ih =>
      intro a
      rw [List.foldl_cons]
      rcases ih (max a y) with ⟨h1, h2, h3⟩
      refine ⟨le_trans (le_max_left a y) h1, ?_, ?_⟩
      · intro x hx
        rcases List.mem_cons.mp hx with rfl | hx'
        · exact le_trans (le_max_right a x) h1
        · exact h2 x hx'
      · rcases h3 with h | ⟨x, hx, hfx⟩
        · rcases le_total y a with hy | hy
          · left
            rw [h, max_eq_left hy]
          · right
            exact ⟨y, List.mem_cons_self y ys, by rw [h, max_eq_right hy]⟩
        · right
          exact ⟨x, List.mem_cons_of_mem y hx, hfx⟩

theorem foldl_min_spec (l : List Int) : ∀ (a : Int),
    l.foldl min a ≤ a ∧ (∀ x ∈ l, l.foldl min a ≤ x) ∧
    (l.foldl min a = a ∨ ∃ x ∈ l, l.foldl min a = x) := by
  induction l with
  | nil => intro a; simp
  | cons y ys ih =>
      intro a
      rw [List.foldl_cons]
      rcases ih (min a y) with ⟨h1, h2, h3⟩
      refine ⟨le_trans h1 (min_le_left a y), ?_, ?_⟩
      · intro x hx
        rcases List.mem_cons.mp hx with rfl | hx'
        · exact le_trans h1 (min_le_right a x)
        · exact h2 x hx'
      · rcases h3 with h | ⟨x, hx, hfx⟩
        · rcases le_total a y with hy | hy
          · left
            rw [h, min_eq_left hy]
          · right
            exact ⟨y, List.mem_cons_self y ys, by rw [h, min_eq_right hy]⟩
        · right
          exact ⟨x, List.mem_cons_of_mem y hx, hfx⟩

/-- On a nonempty sample list the running minimum is a fold of `min` seeded
with the first timestamp. -/
theorem firstTimestamp_cons (s : TraceSample) (rest : List TraceSample) :
    firstTimestamp (s :: rest) =
      some ((rest.map (fun r => r.ts)).foldl min s.ts) := by
  unfold firstTimestamp
  rw [List.foldl_cons]
  suffices h : ∀ (l : List TraceSample) (m : Int),
      l.foldl (fun acc s =>
        match acc with
        | none => some s.ts
        | some m => some (min m s.ts)) (some m) =
      some ((l.map (fun r => r.ts)).foldl min m) by
    exact h rest s.ts
  intro l
  induction l with
  | nil => intro m; rfl
  | cons y ys ih =>
      intro m
      rw [List.foldl_cons, ih]
      rfl

theorem lastTimestamp_eq_foldl_map (samples : List TraceSample) :
    lastTimestamp samples = (samples.map (fun r => r.ts)).foldl max 0 := by
  unfold lastTimestamp
  rw [List.foldl_map]

/-- C8 (amended).  For a nonempty sample list the span is
`max(0, max ts) - min ts`: the minuend is the running maximum seeded with 0,
so for a single sample with timestamp `t ≥ 0` the span is `0`, **not** `t`
as the claim's "fewer than 2 samples" clause states; the average sample
interval is `span / (n - 1)` for `n > 1` and the span itself otherwise. -/
theorem traceSpan_characterization (samples : List TraceSample) (h : samples ≠ []) :
    (∃ f, firstTimestamp samples = some f ∧
      traceSpan samples = lastTimestamp samples - f ∧
      (∀ s ∈ samples, f ≤ s.ts) ∧ (∃ s ∈ samples, s.ts = f)) ∧
    (0 ≤ lastTimestamp samples ∧ (∀ s ∈ samples, s.ts ≤ lastTimestamp samples) ∧
      (lastTimestamp samples = 0 ∨ ∃ s ∈ samples, s.ts = lastTimestamp samples)) ∧
    averageSampleInterval samples =
      (if 1 < samples.length then (traceSpan samples : ℚ) / ((samples.length : ℚ) - 1)
       else (traceSpan samples : ℚ)) := by
  rcases samples with _ | ⟨s, rest⟩
  · exact absurd rfl h
  refine ⟨?_, ?_, rfl⟩
  · refine ⟨(rest.map (fun r => r.ts)).foldl min s.ts, firstTimestamp_cons s rest, ?_, ?_, ?_⟩
    · unfold traceSpan
      rw [firstTimestamp_cons]
    · intro x hx
      rcases foldl_min_spec (rest.map (fun r => r.ts)) s.ts with ⟨h1, h2, _⟩
      rcases List.mem_cons.mp hx with rfl | hx'
      · exact h1
      · exact h2 x.ts (List.mem_map_of_mem (fun r => r.ts) hx')
    · rcases foldl_min_spec (rest.map (fun r => r.ts)) s.ts with ⟨_, _, h3⟩
      rcases h3 with heq | ⟨x, hx, hfx⟩
      · exact ⟨s, List.mem_cons_self s rest, heq.symm⟩
      · rcases List.mem_map.mp hx with ⟨r, hr, hrx⟩
        exact ⟨r, List.mem_cons_of_mem s hr, by rw [hrx, hfx]⟩
  · rw [lastTimestamp_eq_foldl_map]
    rcases foldl_max_spec ((s :: rest).map (fun r => r.ts)) 0 with ⟨h1, h2, h3⟩
    refine ⟨h1, ?_, ?_⟩
    · intro x hx
      exact h2 x.ts (List.mem_map_of_mem (fun r => r.ts) hx)
    · rcases h3 with heq | ⟨x, hx, hfx⟩
      · exact Or.inl heq
      · rcases List.mem_map.mp hx with ⟨r, hr, hrx⟩
        exact Or.inr ⟨r, hr, by rw [hrx, hfx]⟩

/-- C8 counterexample.  A single sample with timestamp 5 yields a span of 0
(and hence an average interval of 0), not the timestamp 5 the claim's
"fewer than 2 samples" clause states. -/
theorem traceSpan_counterexample :
    traceSpan [{ ts := 5 }] = 0 ∧ averageSampleInterval [{ ts := 5 }] = 0 ∧ (0 : ℤ) ≠ 5 := by
  refine ⟨?_, ?_, by norm_num⟩
  · norm_num [traceSpan, firstTimestamp, lastTimestamp, List.foldl]
  · norm_num [averageSampleInterval, traceSpan, firstTimestamp, lastTimestamp, List.foldl]

/-- C8 witness: the span characterization applied to a concrete two-sample
capture. -/
theorem traceSpan_witness :
    (∃ f, firstTimestamp [{ ts := 3 }, { ts := 10 }] = some f ∧
      traceSpan [{ ts := 3 }, { ts := 10 }] = lastTimestamp [{ ts := 3 }, { ts := 10 }] - f ∧
      (∀ s ∈ [({ ts := 3 } : TraceSample), { ts := 10 }], f ≤ s.ts) ∧
      (∃ s ∈ [({ ts := 3 } : TraceSample), { ts := 10 }], s.ts = f)) ∧
    (0 ≤ lastTimestamp [{ ts := 3 }, { ts := 10 }] ∧
      (∀ s ∈ [({ ts := 3 } : TraceSample), { ts := 10 }],
        s.ts ≤ lastTimestamp [{ ts := 3 }, { ts := 10 }]) ∧
      (lastTimestamp [{ ts := 3 }, { ts := 10 }] = 0 ∨
        ∃ s ∈ [({ ts := 3 } : TraceSample), { ts := 10 }],
          s.ts = lastTimestamp [{ ts := 3 }, { ts := 10 }])) ∧
    averageSampleInterval [{ ts := 3 }, { ts := 10 }] =
      (if 1 < ([({ ts := 3 } : TraceSample), { ts := 10 }]).length then
        (traceSpan [{ ts := 3 }, { ts := 10 }] : ℚ) /
          ((([({ ts := 3 } : TraceSample), { ts := 10 }]).length : ℚ) - 1)
       else (traceSpan [{ ts := 3 }, { ts := 10 }] : ℚ)) :=
  traceSpan_characterization [{ ts := 3 }, { ts := 10 }] (by simp)

/-! ## C7: format detection and the unsupported-shape fallback -/

/-- On a receiver that is not `null`/`undefined`, a property access succeeds
and yields the total lookup. -/
theorem jGet_eq_jField (j : Json) (h1 : j ≠ Json.null) (h2 : j ≠ Json.undef) (k : String) :
    jGet j k = Except.ok (jField j k) := by
  cases j
  · exact absurd rfl h1
  · exact absurd rfl h2
  all_goals rfl

/-- C7 (amended).  For every payload other than `null` (and the synthetic
`undefined`, which deserialization never produces): truthy `samples` and
`stackFrames` route to the trace-event path even in the presence of other
keys; otherwise truthy `nodes`, `samples` and `timeDeltas` route to the
sample-format path; otherwise the result is the empty profile echoing the
payload.  On `null` itself the very first property access throws instead
(see the counterexample). -/
theorem parseCpuProfile_routing (j : Json) (h1 : j ≠ Json.null) (h2 : j ≠ Json.undef) :
    ((jField j "samples").truthy = true → (jField j "stackFrames").truthy = true →
      parseCpuProfileJ j = parseTraceEventProfileJ j) ∧
    (¬((jField j "samples").truthy = true ∧ (jField j "stackFrames").truthy = true) →
      (jField j "nodes").truthy = true → (jField j "samples").truthy = true →
      (jField j "timeDeltas").truthy = true →
      parseCpuProfileJ j = parseV8ProfileJ j) ∧
    (¬((jField j "samples").truthy = true ∧ (jField j "stackFrames").truthy = true) →
      ¬((jField j "nodes").truthy = true ∧ (jField j "samples").truthy = true ∧
        (jField j "timeDeltas").truthy = true) →
      parseCpuProfileJ j = Except.ok
        { flamegraphData := FlameData.raw j, totalDuration := 0, functions := [] }) := by
  refine ⟨?_, ?_, ?_⟩
  · intro hs hsf
    unfold parseCpuProfileJ
    simp only [jGet_eq_jField j h1 h2]
    simp [Bind.bind, Except.bind, hs, hsf]
  · intro hns hn hs htd
    have hsf : (jField j "stackFrames").truthy = false := by
      cases hsf : (jField j "stackFrames").truthy with
      | false => rfl
      | true => exact absurd ⟨hs, hsf⟩ hns
    unfold parseCpuProfileJ
    simp only [jGet_eq_jField j h1 h2]
    simp [Bind.bind, Except.bind, hsf, hn, hs, htd]
  · intro hns hnv
    have hcond : ((jField j "samples").truthy && (jField j "stackFrames").truthy) = false := by
      cases hsa : (jField j "samples").truthy with
      | false => simp [hsa]
      | true =>
        cases hsf : (jField j "stackFrames").truthy with
        | false => simp [hsf]
        | true => exact absurd ⟨hsa, hsf⟩ hns
    have hcond2 : ((jField j "nodes").truthy && (jField j "samples").truthy &&
        (jField j "timeDeltas").truthy) = false := by
      cases ha : (jField j "nodes").truthy with
      | false => simp [ha]
      | true =>
        cases hb : (jField j "samples").truthy with
        | false => simp [hb]
        | true =>
          cases hc : (jField j "timeDeltas").truthy with
          | false => simp [hc]
          | true => exact absurd ⟨ha, hb, hc⟩ hnv
    unfold parseCpuProfileJ
    simp only [jGet_eq_jField j h1 h2]
    simp [Bind.bind, Except.bind, hcond, hcond2]

/-- C7 counterexample.  On the payload `null` the claim's fallback clause
("otherwise the core returns an empty NormalizedProfile") fails: the first
property access throws a `TypeError` instead. -/
theorem parseCpuProfile_routing_counterexample :
    parseCpuProfileJ Json.null ≠ Except.ok
      { flamegraphData := FlameData.raw Json.null, totalDuration := 0, functions := [] } ∧
    parseCpuProfileJ Json.null =
      Except.error (JsErr.typeError "Cannot read properties of null (reading samples)") := by
  constructor
  · simp [parseCpuProfileJ, jGet, Bind.bind, Except.bind]
  · simp [parseCpuProfileJ, jGet, Bind.bind, Except.bind]

/-- C7 witness: the routing theorem applied to a trace-shaped payload with
an unrelated extra key, and to an unsupported payload. -/
theorem parseCpuProfile_routing_witness :
    parseCpuProfileJ (Json.obj [("samples", Json.arr []), ("stackFrames", Json.obj []),
        ("unrelated", Json.num 7)]) =
      parseTraceEventProfileJ (Json.obj [("samples", Json.arr []), ("stackFrames", Json.obj []),
        ("unrelated", Json.num 7)]) ∧
    parseCpuProfileJ (Json.num 5) = Except.ok
      { flamegraphData := FlameData.raw (Json.num 5), totalDuration := 0, functions := [] } := by
  constructor
  · exact (parseCpuProfile_routing _ (by simp) (by simp)).1
      (by simp [jField, Json.truthy, List.find?]) (by simp [jField, Json.truthy, List.find?])
  · exact (parseCpuProfile_routing _ (by simp) (by simp)).2.2
      (by simp [jField, Json.truthy]) (by simp [jField, Json.truthy])

/-! ## C10: faithfulness of the sample-format flame tree -/

theorem mapM_ok_forall {ε α β : Type} {f : α → Except ε β} {P : β → α → Prop} :
    ∀ (l : List α), (∀ a ∈ l, ∃ b, f a = Except.ok b ∧ P b a) →
      ∃ bs, l.mapM f = Except.ok bs ∧ List.Forall₂ P bs l := by
  intro l
  induction l with
  | nil => intro _; exact ⟨[], rfl, List.Forall₂.nil⟩
  | cons x xs ih =>
      intro h
      obtain ⟨b, hb, hPb⟩ := h x (List.mem_cons_self x xs)
      obtain ⟨bs, hbs, hP⟩ := ih (fun a ha => h a (List.mem_cons_of_mem _ ha))
      refine ⟨b :: bs, ?_, List.Forall₂.cons hPb hP⟩
      simp only [List.mapM_cons, hb, hbs]
      rfl

/-- The one-step unfolding of `buildNodeV8` at positive fuel. -/
theorem buildNodeV8_succ (nodes : List V8Node) (fm : List (Int × FunctionData))
    (n : Nat) (id : Int) :
    buildNodeV8 nodes fm (n+1) id =
      (match jsMapGet fm id with
      | none => Except.ok (FlameNode.mk "Unknown" 0 [])
      | some func => do
          let cs ← (childIdsOf nodes id).mapM (buildNodeV8 nodes fm n)
          Except.ok (FlameNode.mk func.name func.selfTime cs)) := rfl

/-- With enough fuel for the (acyclic) children graph, `buildNode` succeeds
and mirrors the node: value is the accumulated self time, children follow
the node's children array in order, unpruned and unsorted. -/
theorem buildNodeV8_mirrors (nodes : List V8Node) (fm : List (Int × FunctionData)) :
    ∀ (fuel : Nat) (id : Int), boundedDepthV8 nodes fuel id = true →
      ∃ t, buildNodeV8 nodes fm fuel id = Except.ok t ∧ MirrorsV8 nodes fm t id := by
  intro fuel
  induction fuel with
  | zero => intro id h; exact absurd h (by simp [boundedDepthV8])
  | succ n ih =>
      intro id h
      unfold boundedDepthV8 at h
      rcases hg : jsMapGet fm id with _ | func
      · refine ⟨FlameNode.mk "Unknown" 0 [], ?_, MirrorsV8.unknown id hg⟩
        rw [buildNodeV8_succ, hg]
      · have hall := List.all_eq_true.mp h
        have hc : ∀ c ∈ childIdsOf nodes id,
            ∃ t, buildNodeV8 nodes fm n c = Except.ok t ∧ MirrorsV8 nodes fm t c :=
          fun c hcm => ih c (hall c hcm)
        obtain ⟨cs, hcs, hmir⟩ := mapM_ok_forall (childIdsOf nodes id) hc
        refine ⟨FlameNode.mk func.name func.selfTime cs, ?_,
          MirrorsV8.known id func cs hg hmir⟩
        rw [buildNodeV8_succ, hg]
        dsimp only
        rw [hcs]
        rfl

/-- C10.  For every sample-format capture whose children graph is acyclic,
the parse succeeds and its flame tree is the faithful image of the node
graph: each built node carries the function's accumulated self time as its
value and one child per entry of that node's children array, in exactly the
input order — no zero-value pruning and no sorting by value — and the root
policy is placeholder / single root / artificial root with all roots as
children (no dominant-root heuristic). -/
theorem parseV8Profile_flame_faithful (nodes : List V8Node) (samples : List Int)
    (timeDeltas : List ℚ)
    (hdepth : ∀ n ∈ nodes, boundedDepthV8 nodes (nodes.length + 1) n.id = true) :
    ∃ p t, parseV8Profile nodes samples timeDeltas = Except.ok p ∧
      p.flamegraphData = FlameData.tree t ∧
      p.functions = ((v8ProcessSamples (v8FunctionMapInit nodes) samples timeDeltas).1).map
        (fun e => e.2) ∧
      ((v8RootNodes nodes = [] ∧ t = FlameNode.mk "Root" 0 []) ∨
       (∃ r, v8RootNodes nodes = [r] ∧
         MirrorsV8 nodes ((v8ProcessSamples (v8FunctionMapInit nodes) samples timeDeltas).1)
           t r.id) ∨
       (∃ r1 r2 rs, v8RootNodes nodes = r1 :: r2 :: rs ∧ t.name = "Root" ∧ t.value = 0 ∧
         List.Forall₂
           (fun c n => MirrorsV8 nodes
             ((v8ProcessSamples (v8FunctionMapInit nodes) samples timeDeltas).1) c n.id)
           t.children (r1 :: r2 :: rs))) := by
  have hroots_sub : ∀ r ∈ v8RootNodes nodes, r ∈ nodes := by
    intro r hr
    exact List.mem_of_mem_filter hr
  rcases hroot : v8RootNodes nodes with _ | ⟨r1, rest⟩
  · refine ⟨{ flamegraphData := FlameData.tree (FlameNode.mk "Root" 0 []),
              totalDuration := (v8ProcessSamples (v8FunctionMapInit nodes) samples timeDeltas).2,
              functions := ((v8ProcessSamples (v8FunctionMapInit nodes) samples
                timeDeltas).1).map (fun e => e.2) },
            FlameNode.mk "Root" 0 [], ?_, rfl, rfl, Or.inl ⟨rfl, rfl⟩⟩
    unfold parseV8Profile
    dsimp only
    unfold buildFlameGraphData
    rw [hroot]
    rfl
  · rcases rest with _ | ⟨r2, rs⟩
    · have hr1 : r1 ∈ nodes := hroots_sub r1 (by rw [hroot]; exact List.mem_cons_self r1 [])
      obtain ⟨t, ht, hmir⟩ := buildNodeV8_mirrors nodes
        ((v8ProcessSamples (v8FunctionMapInit nodes) samples timeDeltas).1)
        (nodes.length + 1) r1.id (hdepth r1 hr1)
      refine ⟨{ flamegraphData := FlameData.tree t,
                totalDuration := (v8ProcessSamples (v8FunctionMapInit nodes) samples
                  timeDeltas).2,
                functions := ((v8ProcessSamples (v8FunctionMapInit nodes) samples
                  timeDeltas).1).map (fun e => e.2) },
              t, ?_, rfl, rfl, Or.inr (Or.inl ⟨r1, rfl, hmir⟩)⟩
      unfold parseV8Profile
      dsimp only
      unfold buildFlameGraphData
      rw [hroot]
      dsimp only
      rw [ht]
      rfl
    · have hc : ∀ r ∈ r1 :: r2 :: rs,
          ∃ t, buildNodeV8 nodes
            ((v8ProcessSamples (v8FunctionMapInit nodes) samples timeDeltas).1)
            (nodes.length + 1) r.id = Except.ok t ∧
          MirrorsV8 nodes
            ((v8ProcessSamples (v8FunctionMapInit nodes) samples timeDeltas).1) t r.id := by
        intro r hr
        exact buildNodeV8_mirrors nodes _ (nodes.length + 1) r.id
          (hdepth r (hroots_sub r (by rw [hroot]; exact hr)))
      obtain ⟨cs, hcs, hmir⟩ := mapM_ok_forall (r1 :: r2 :: rs)
        (f := fun r => buildNodeV8 nodes
          ((v8ProcessSamples (v8FunctionMapInit nodes) samples timeDeltas).1)
          (nodes.length + 1) r.id) hc
      refine ⟨{ flamegraphData := FlameData.tree (FlameNode.mk "Root" 0 cs),
                totalDuration := (v8ProcessSamples (v8FunctionMapInit nodes) samples
                  timeDeltas).2,
                functions := ((v8ProcessSamples (v8FunctionMapInit nodes) samples
                  timeDeltas).1).map (fun e => e.2) },
              FlameNode.mk "Root" 0 cs, ?_, rfl, rfl,
              Or.inr (Or.inr ⟨r1, r2, rs, rfl, rfl, rfl, hmir⟩)⟩
      unfold parseV8Profile
      dsimp only
      unfold buildFlameGraphData
      rw [hroot]
      dsimp only
      rw [show ((r1 :: r2 :: rs).mapM (fun n => buildNodeV8 nodes
          ((v8ProcessSamples (v8FunctionMapInit nodes) samples timeDeltas).1)
          (nodes.length + 1) n.id)) = Except.ok cs from hcs]
      rfl

/-- C10 witness: the faithfulness theorem applied to the two-node capture. -/
theorem parseV8Profile_flame_faithful_witness :
    ∃ p t, parseV8Profile
        [{ id := 1, callFrame := some { functionName := some "A" }, children := some [2] },
         { id := 2, callFrame := some { functionName := some "B" } }]
        [1, 2, 1] [10, 5, 10] = Except.ok p ∧
      p.flamegraphData = FlameData.tree t ∧
      p.functions = ((v8ProcessSamples (v8FunctionMapInit
        [{ id := 1, callFrame := some { functionName := some "A" }, children := some [2] },
         { id := 2, callFrame := some { functionName := some "B" } }])
        [1, 2, 1] [10, 5, 10]).1).map (fun e => e.2) ∧
      ((v8RootNodes
        [{ id := 1, callFrame := some { functionName := some "A" }, children := some [2] },
         { id := 2, callFrame := some { functionName := some "B" } }] = [] ∧
         t = FlameNode.mk "Root" 0 []) ∨
       (∃ r, v8RootNodes
        [{ id := 1, callFrame := some { functionName := some "A" }, children := some [2] },
         { id := 2, callFrame := some { functionName := some "B" } }] = [r] ∧
         MirrorsV8
           [{ id := 1, callFrame := some { functionName := some "A" }, children := some [2] },
            { id := 2, callFrame := some { functionName := some "B" } }]
           ((v8ProcessSamples (v8FunctionMapInit
             [{ id := 1, callFrame := some { functionName := some "A" }, children := some [2] },
              { id := 2, callFrame := some { functionName := some "B" } }])
             [1, 2, 1] [10, 5, 10]).1) t r.id) ∨
       (∃ r1 r2 rs, v8RootNodes
        [{ id := 1, callFrame := some { functionName := some "A" }, children := some [2] },
         { id := 2, callFrame := some { functionName := some "B" } }] = r1 :: r2 :: rs ∧
         t.name = "Root" ∧ t.value = 0 ∧
         List.Forall₂
           (fun c n => MirrorsV8
             [{ id := 1, callFrame := some { functionName := some "A" }, children := some [2] },
              { id := 2, callFrame := some { functionName := some "B" } }]
             ((v8ProcessSamples (v8FunctionMapInit
               [{ id := 1, callFrame := some { functionName := some "A" }, children := some [2] },
                { id := 2, callFrame := some { functionName := some "B" } }])
               [1, 2, 1] [10, 5, 10]).1) c n.id)
           t.children (r1 :: r2 :: rs))) :=
  parseV8Profile_flame_faithful
    [{ id := 1, callFrame := some { functionName := some "A" }, children := some [2] },
     { id := 2, callFrame := some { functionName := some "B" } }]
    [1, 2, 1] [10, 5, 10]
    (by decide)

/-! ## C1: total-time aggregation in the trace-event parser -/

theorem map_fst_jsMapModify [BEq κ] (m : List (κ × α)) (k : κ) (f : α → α) :
    (jsMapModify m k f).map Prod.fst = m.map Prod.fst := by
  unfold jsMapModify
  rw [List.map_map]
  congr 1
  funext e
  by_cases he : (e.1 == k) = true <;> simp [he]

theorem jsMapGet_modify_ne [BEq κ] [LawfulBEq κ] (m : List (κ × α)) (k q : κ) (f : α → α)
    (h : q ≠ k) : jsMapGet (jsMapModify m k f) q = jsMapGet m q := by
  induction m with
  | nil => rfl
  | cons e t ih =>
      unfold jsMapModify at ih ⊢
      by_cases he : (e.1 == k) = true
      · have h1 : (e.1 == q) = false := by
          have : e.1 = k := eq_of_beq he
          simp [this, Ne.symm h]
        simp [jsMapGet, List.find?_cons, he, h1] at ih ⊢
        exact ih
      · by_cases hq : (e.1 == q) = true
        · simp [jsMapGet, List.find?_cons, he, hq]
        · simp only [List.map_cons, he, Bool.false_eq_true, if_false]
          simp [jsMapGet, List.find?_cons, hq] at ih ⊢
          exact ih

theorem jsMapGet_modify_self [BEq κ] [LawfulBEq κ] (m : List (κ × α)) (k : κ) (f : α → α) :
    jsMapGet (jsMapModify m k f) k = (jsMapGet m k).map f := by
  induction m with
  | nil => rfl
  | cons e t ih =>
      unfold jsMapModify at ih ⊢
      by_cases he : (e.1 == k) = true
      · simp [jsMapGet, List.find?_cons, he]
      · simp only [List.map_cons, he, Bool.false_eq_true, if_false]
        simp [jsMapGet, List.find?_cons, he] at ih ⊢
        exact ih

theorem isSome_jsMapGet_of_mem_keys [BEq κ] [LawfulBEq κ] (m : List (κ × α)) (k : κ)
    (h : k ∈ m.map Prod.fst) : (jsMapGet m k).isSome := by
  have := (jsMapHas_iff_mem_keys m k).mpr h
  unfold jsMapHas at this
  exact this

theorem jsMapGet_applySelfTimes (m : List (String × FunctionData))
    (counts : List (String × Int)) (avg : ℚ) (q : String) :
    jsMapGet (applySelfTimes m counts avg) q =
      (jsMapGet m q).map (fun f =>
        { f with selfTime := (((jsMapGet counts q).getD 0 : Int) : ℚ) * avg }) := by
  induction m with
  | nil => rfl
  | cons e t ih =>
      unfold applySelfTimes at ih ⊢
      by_cases hq : (e.1 == q) = true
      · have : e.1 = q := eq_of_beq hq
        simp [jsMapGet, List.find?_cons, hq, this]
      · simp only [List.map_cons]
        simp [jsMapGet, List.find?_cons, hq] at ih ⊢
        exact ih

theorem map_fst_applySelfTimes (m : List (String × FunctionData))
    (counts : List (String × Int)) (avg : ℚ) :
    (applySelfTimes m counts avg).map Prod.fst = m.map Prod.fst := by
  unfold applySelfTimes
  rw [List.map_map]
  rfl

theorem foldl_jsMapSet_nodup [BEq κ] [LawfulBEq κ] (g : κ × β → α) :
    ∀ (l : List (κ × β)) (init : List (κ × α)),
      (init.map Prod.fst ++ l.map Prod.fst).Nodup →
      l.foldl (fun acc e => jsMapSet acc e.1 (g e)) init =
        init ++ l.map (fun e => (e.1, g e)) := by
  intro l
  induction l with
  | nil => intro init _; simp
  | cons x xs ih =>
      intro init hn
      rw [List.foldl_cons]
      have hx : x.1 ∉ init.map Prod.fst := by
        intro hc
        have hd := List.disjoint_of_nodup_append hn
        exact hd hc (by simp)
      have hset : jsMapSet init x.1 (g x) = init ++ [(x.1, g x)] := by
        unfold jsMapSet
        have : jsMapHas init x.1 = false := by
          rcases hh : jsMapHas init x.1 with _ | _
          · rfl
          · exact absurd ((jsMapHas_iff_mem_keys init x.1).mp hh) hx
        simp [this]
      rw [hset, ih]
      · simp
      · rw [List.map_append]
        have : init.map Prod.fst ++ [(x.1, g x)].map Prod.fst ++ xs.map Prod.fst =
            init.map Prod.fst ++ (x :: xs).map Prod.fst := by
          simp
        rw [this]
        exact hn

theorem traceInitMap_eq (stackFrames : List (String × StackFrameIn))
    (hn : (stackFrames.map Prod.fst).Nodup) :
    traceInitMap stackFrames =
      stackFrames.map (fun e => (e.1, traceInitRecord e.1 e.2)) := by
  unfold traceInitMap
  have h := foldl_jsMapSet_nodup (fun e => traceInitRecord e.1 e.2) stackFrames []
    (by simpa using hn)
  simpa using h

/-- The parent/child pass preserves keys and everything but `children`. -/
theorem linkFold_preserves :
    ∀ (l : List (String × Option String)) (acc : List (String × FunctionData)),
      keysOf (l.foldl
        (fun acc pr =>
          match pr.2 with
          | some p =>
              if p != "" && jsMapHas acc p then
                jsMapModify acc p (fun f => { f with children := f.children ++ [pr.1] })
              else acc
          | none => acc) acc) = keysOf acc ∧
      ∀ q, (jsMapGet (l.foldl
        (fun acc pr =>
          match pr.2 with
          | some p =>
              if p != "" && jsMapHas acc p then
                jsMapModify acc p (fun f => { f with children := f.children ++ [pr.1] })
              else acc
          | none => acc) acc) q).map dropChildren = (jsMapGet acc q).map dropChildren := by
  intro l
  induction l with
  | nil => intro acc; exact ⟨rfl, fun _ => rfl⟩
  | cons x xs ih =>
      intro acc
      rw [List.foldl_cons]
      rcases hpo : x.2 with _ | p
      · simpa [hpo] using ih acc
      · by_cases hc : (p != "" && jsMapHas acc p) = true
        · have hmod := ih (jsMapModify acc p (fun f => { f with children := f.children ++ [x.1] }))
          simp only [hpo, hc, if_true]
          refine ⟨?_, ?_⟩
          · rw [hmod.1]
            show (jsMapModify acc p _).map Prod.fst = acc.map Prod.fst
            exact map_fst_jsMapModify acc p _
          · intro q
            rw [hmod.2 q]
            by_cases hq : q = p
            · subst hq
              rw [jsMapGet_modify_self]
              cases jsMapGet acc q with
              | none => rfl
              | some f => rfl
            · rw [jsMapGet_modify_ne acc p q _ hq]
        · have hb : (p != "" && jsMapHas acc p) = false := by
            rcases hb : (p != "" && jsMapHas acc p) with _ | _
            · rfl
            · exact absurd hb hc
          simpa [hpo, hb] using ih acc

theorem linkChildren_keys (m : List (String × FunctionData)) :
    keysOf (linkChildren m) = keysOf m := by
  unfold linkChildren
  exact (linkFold_preserves (m.map (fun e => (e.1, e.2.parent))) m).1

theorem linkChildren_get_dropChildren (m : List (String × FunctionData)) (q : String) :
    (jsMapGet (linkChildren m) q).map dropChildren = (jsMapGet m q).map dropChildren := by
  unfold linkChildren
  exact (linkFold_preserves (m.map (fun e => (e.1, e.2.parent))) m).2 q

/-- Membership in a `children` list after the parent/child pass: either it
was already there, or the pass appended it for a pair with a resolvable
nonempty parent. -/
theorem linkFold_children_mem :
    ∀ (l : List (String × Option String)) (acc : List (String × FunctionData)) (c p : String),
      c ∈ childrenAt (l.foldl
        (fun acc pr =>
          match pr.2 with
          | some p =>
              if p != "" && jsMapHas acc p then
                jsMapModify acc p (fun f => { f with children := f.children ++ [pr.1] })
              else acc
          | none => acc) acc) p ↔
        (c ∈ childrenAt acc p ∨ ((c, some p) ∈ l ∧ p ≠ "" ∧ jsMapHas acc p = true)) := by
  intro l
  induction l with
  | nil => intro acc c p; simp
  | cons x xs ih =>
      intro acc c p
      rcases x with ⟨x1, x2⟩
      rw [List.foldl_cons]
      rcases x2 with _ | pp
      · rw [ih acc c p]
        constructor
        · intro h
          rcases h with hmem | ⟨hin, hne, hhas⟩
          · exact Or.inl hmem
          · exact Or.inr ⟨List.mem_cons_of_mem _ hin, hne, hhas⟩
        · intro h
          rcases h with hmem | ⟨hin, hne, hhas⟩
          · exact Or.inl hmem
          · rcases List.mem_cons.mp hin with heq | hm
            · exact absurd (congrArg Prod.snd heq) (by simp)
            · exact Or.inr ⟨hm, hne, hhas⟩
      · by_cases hcond : (pp != "" && jsMapHas acc pp) = true
        · have hpp_ne : pp ≠ "" := by
            have := (Bool.and_eq_true _ _).mp hcond
            simpa [bne_iff_ne] using this.1
          have hpp_has : jsMapHas acc pp = true := ((Bool.and_eq_true _ _).mp hcond).2
          simp only [hcond, if_true]
          rw [ih]
          have hkeys : ∀ q, jsMapHas (jsMapModify acc pp
              (fun f => { f with children := f.children ++ [x1] })) q = jsMapHas acc q := by
            intro q
            unfold jsMapHas
            by_cases hq : q = pp
            · subst hq
              rw [jsMapGet_modify_self]
              simp
            · rw [jsMapGet_modify_ne acc pp q _ hq]
          rw [hkeys]
          by_cases hq : p = pp
          · subst hq
            have hch : childrenAt (jsMapModify acc p
                (fun f => { f with children := f.children ++ [x1] })) p =
                childrenAt acc p ++ [x1] := by
              unfold childrenAt
              rw [jsMapGet_modify_self]
              rcases hg : jsMapGet acc p with _ | f
              · exfalso
                unfold jsMapHas at hpp_has
                rw [hg] at hpp_has
                exact absurd hpp_has (by simp)
              · rfl
            rw [hch]
            constructor
            · intro h
              rcases h with hmem | ⟨hin, _, _⟩
              · rcases List.mem_append.mp hmem with h1 | h2
                · exact Or.inl h1
                · have hcx : c = x1 := by simpa using h2
                  subst hcx
                  exact Or.inr ⟨List.mem_cons_self _ _, hpp_ne, hpp_has⟩
              · exact Or.inr ⟨List.mem_cons_of_mem _ hin, hpp_ne, hpp_has⟩
            · intro h
              rcases h with hmem | ⟨hin, hne, hhas⟩
              · exact Or.inl (List.mem_append.mpr (Or.inl hmem))
              · rcases List.mem_cons.mp hin with heq | hm
                · have hcx : c = x1 := congrArg Prod.fst heq
                  exact Or.inl (List.mem_append.mpr (Or.inr (by simp [hcx])))
                · exact Or.inr ⟨hm, hne, hhas⟩
          · have hch : childrenAt (jsMapModify acc pp
                (fun f => { f with children := f.children ++ [x1] })) p =
                childrenAt acc p := by
              unfold childrenAt
              rw [jsMapGet_modify_ne acc pp p _ hq]
            rw [hch]
            constructor
            · intro h
              rcases h with hmem | ⟨hin, hne, hhas⟩
              · exact Or.inl hmem
              · exact Or.inr ⟨List.mem_cons_of_mem _ hin, hne, hhas⟩
            · intro h
              rcases h with hmem | ⟨hin, hne, hhas⟩
              · exact Or.inl hmem
              · rcases List.mem_cons.mp hin with heq | hm
                · have : some p = some pp := congrArg Prod.snd heq
                  exact absurd (by simpa using this) hq
                · exact Or.inr ⟨hm, hne, hhas⟩
        · have hb : (pp != "" && jsMapHas acc pp) = false := by
            rcases hbv : (pp != "" && jsMapHas acc pp) with _ | _
            · rfl
            · exact absurd hbv hcond
          simp only [hb, Bool.false_eq_true, if_false]
          rw [ih]
          constructor
          · intro h
            rcases h with hmem | ⟨hin, hne, hhas⟩
            · exact Or.inl hmem
            · exact Or.inr ⟨List.mem_cons_of_mem _ hin, hne, hhas⟩
          · intro h
            rcases h with hmem | ⟨hin, hne, hhas⟩
            · exact Or.inl hmem
            · rcases List.mem_cons.mp hin with heq | hm
              · have hc1 : some p = some pp := congrArg Prod.snd heq
                have hc2 : p = pp := by simpa using hc1
                subst hc2
                have : (p != "" && jsMapHas acc p) = true := by
                  simp [bne_iff_ne, hne, hhas]
                rw [hb] at this
                exact absurd this (by simp)
              · exact Or.inr ⟨hm, hne, hhas⟩

/-- After the parent/child pass on a duplicate-free map with empty initial
children, `c` is a child of `p` exactly when `p` is `c`'s resolvable parent. -/
theorem linkChildren_mem_iff (m : List (String × FunctionData))
    (hinit : ∀ e ∈ m, e.2.children = []) (hn : (keysOf m).Nodup) (c p : String) :
    c ∈ childrenAt (linkChildren m) p ↔ resolvedParent m c = some p := by
  unfold linkChildren
  rw [linkFold_children_mem]
  have hempty : childrenAt m p = [] := by
    unfold childrenAt
    rcases hg : jsMapGet m p with _ | f
    · rfl
    · have hmem := mem_of_jsMapGet_eq_some hg
      have := hinit _ hmem
      simp only at this
      simp [this]
  rw [hempty]
  simp only [List.not_mem_nil, false_or]
  constructor
  · rintro ⟨hmem, hne, hhas⟩
    rcases List.mem_map.mp hmem with ⟨e, he, heq⟩
    have he1 : e.1 = c := congrArg Prod.fst heq
    have he2 : e.2.parent = some p := congrArg Prod.snd heq
    have hget : jsMapGet m e.1 = some e.2 := jsMapGet_eq_some_of_mem m hn e he
    unfold resolvedParent
    rw [he1] at hget
    rw [hget]
    dsimp only
    rw [he2]
    simp [bne_iff_ne, hne, hhas]
  · intro hrp
    unfold resolvedParent at hrp
    rcases hg : jsMapGet m c with _ | f
    · rw [hg] at hrp
      exact absurd hrp (by simp)
    · rw [hg] at hrp
      dsimp only at hrp
      rcases hpp : f.parent with _ | pp
      · rw [hpp] at hrp
        exact absurd hrp (by simp)
      · rw [hpp] at hrp
        dsimp only at hrp
        by_cases hcond : (pp != "" && jsMapHas m pp) = true
        · rw [if_pos hcond] at hrp
          have hppp : pp = p := by simpa using hrp
          subst hppp
          have hcd := (Bool.and_eq_true _ _).mp hcond
          refine ⟨?_, by simpa [bne_iff_ne] using hcd.1, hcd.2⟩
          exact List.mem_map.mpr ⟨(c, f), mem_of_jsMapGet_eq_some hg, by simp [hpp]⟩
        · rw [if_neg (by simpa using hcond)] at hrp
          exact absurd hrp (by simp)

/-- `resolvedParent` only looks at keys and `parent` fields. -/
theorem resolvedParent_congr (m1 m2 : List (String × FunctionData))
    (hp : ∀ q, (jsMapGet m1 q).map (fun f => f.parent) =
      (jsMapGet m2 q).map (fun f => f.parent))
    (hk : ∀ q, jsMapHas m1 q = jsMapHas m2 q) :
    ∀ c, resolvedParent m1 c = resolvedParent m2 c := by
  intro c
  unfold resolvedParent
  have hpc := hp c
  rcases h1 : jsMapGet m1 c with _ | f1
  · rcases h2 : jsMapGet m2 c with _ | f2
    · rfl
    · rw [h1, h2] at hpc
      exact absurd hpc (by simp)
  · rcases h2 : jsMapGet m2 c with _ | f2
    · rw [h1, h2] at hpc
      exact absurd hpc (by simp)
    · rw [h1, h2] at hpc
      have hpar : f1.parent = f2.parent := by simpa using hpc
      dsimp only
      rw [hpar]
      rcases f2.parent with _ | pp
      · rfl
      · dsimp only
        rw [hk pp]

theorem reachesRoot_congr (m1 m2 : List (String × FunctionData))
    (h : ∀ c, resolvedParent m1 c = resolvedParent m2 c) :
    ∀ n id, reachesRoot m1 n id = reachesRoot m2 n id := by
  intro n
  induction n with
  | zero => intro id; rfl
  | succ k ih =>
      intro id
      unfold reachesRoot
      rw [h id]
      rcases resolvedParent m2 id with _ | pp
      · rfl
      · exact ih pp

theorem childrenAt_applySelfTimes (m : List (String × FunctionData))
    (counts : List (String × Int)) (avg : ℚ) (q : String) :
    childrenAt (applySelfTimes m counts avg) q = childrenAt m q := by
  unfold childrenAt
  rw [jsMapGet_applySelfTimes]
  rcases jsMapGet m q with _ | f
  · rfl
  · rfl

theorem parentMap_applySelfTimes (m : List (String × FunctionData))
    (counts : List (String × Int)) (avg : ℚ) (q : String) :
    (jsMapGet (applySelfTimes m counts avg) q).map (fun f => f.parent) =
      (jsMapGet m q).map (fun f => f.parent) := by
  rw [jsMapGet_applySelfTimes]
  rcases jsMapGet m q with _ | f
  · rfl
  · rfl

theorem jsMapHas_applySelfTimes (m : List (String × FunctionData))
    (counts : List (String × Int)) (avg : ℚ) (q : String) :
    jsMapHas (applySelfTimes m counts avg) q = jsMapHas m q := by
  unfold jsMapHas
  rw [jsMapGet_applySelfTimes]
  rcases jsMapGet m q with _ | f
  · rfl
  · rfl

theorem parentMap_linkChildren (m : List (String × FunctionData)) (q : String) :
    (jsMapGet (linkChildren m) q).map (fun f => f.parent) =
      (jsMapGet m q).map (fun f => f.parent) := by
  have h := linkChildren_get_dropChildren m q
  rcases h1 : jsMapGet (linkChildren m) q with _ | f1
  · rcases h2 : jsMapGet m q with _ | f2
    · rfl
    · rw [h1, h2] at h
      exact absurd h (by simp)
  · rcases h2 : jsMapGet m q with _ | f2
    · rw [h1, h2] at h
      exact absurd h (by simp)
    · rw [h1, h2] at h
      have hd : dropChildren f1 = dropChildren f2 := by simpa using h
      have hpar : f1.parent = f2.parent := by
        have := congrArg FunctionData.parent hd
        simpa [dropChildren] using this
      simp [hpar]

theorem jsMapHas_linkChildren (m : List (String × FunctionData)) (q : String) :
    jsMapHas (linkChildren m) q = jsMapHas m q := by
  unfold jsMapHas
  have h := linkChildren_get_dropChildren m q
  rcases h1 : jsMapGet (linkChildren m) q with _ | f1
  · rcases h2 : jsMapGet m q with _ | f2
    · rfl
    · rw [h1, h2] at h
      exact absurd h (by simp)
  · rcases h2 : jsMapGet m q with _ | f2
    · rw [h1, h2] at h
      exact absurd h (by simp)
    · rfl

theorem chain_desc_lt (rnk : String → ℕ) :
    ∀ (l : List String) (x : String),
      List.Chain' (fun a b => rnk b < rnk a) (x :: l) → ∀ y ∈ l, rnk y < rnk x := by
  intro l
  induction l with
  | nil => intro x _ y hy; exact absurd hy (List.not_mem_nil y)
  | cons z zs ih =>
      intro x h y hy
      have h1 : rnk z < rnk x := (List.chain'_cons.mp h).1
      have h2 := (List.chain'_cons.mp h).2
      rcases List.mem_cons.mp hy with rfl | hm
      · exact h1
      · exact lt_trans (ih z h2 y hm) h1

theorem contains_false_of_not_mem [BEq κ] [LawfulBEq κ] {l : List κ} {a : κ} (h : ¬ a ∈ l) :
    l.contains a = false := by
  rcases hc : l.contains a with _ | _
  · rfl
  · exact absurd (List.mem_of_elem_eq_true hc) h

theorem length_lt_of_sublist_of_mem {α : Type} {l₁ l₂ : List α} (h : l₁.Sublist l₂) (a : α)
    (ha2 : a ∈ l₂) (ha1 : ¬ a ∈ l₁) : l₁.length < l₂.length := by
  induction h with
  | slnil => exact absurd ha2 (List.not_mem_nil a)
  | cons b hsub ih =>
      by_cases hab : a = b
      · subst hab
        simpa using Nat.lt_succ_of_le hsub.length_le
      · rcases List.mem_cons.mp ha2 with h1 | h2
        · exact absurd h1 hab
        · simpa using Nat.lt_succ_of_lt (ih h2 ha1)
  | cons₂ b hsub ih =>
      have hab : a ≠ b := by
        intro hc
        exact ha1 (hc ▸ List.mem_cons_self b _)
      rcases List.mem_cons.mp ha2 with h1 | h2
      · exact absurd h1 hab
      · simpa using Nat.succ_lt_succ
          (ih h2 (fun hc => ha1 (List.mem_cons_of_mem b hc)))

theorem filter_unvisited_cons_lt (keys : List String) (v : List String) (id : String)
    (hid : id ∈ keys) (hv : ¬ id ∈ v) :
    (keys.filter (fun k => !((id :: v).contains k))).length <
      (keys.filter (fun k => !(v.contains k))).length := by
  have hsub : (keys.filter (fun k => !((id :: v).contains k))).Sublist
      (keys.filter (fun k => !(v.contains k))) := by
    apply List.monotone_filter_right
    intro a ha
    simp only [Bool.not_eq_true'] at ha ⊢
    rcases hc : v.contains a with _ | _
    · rfl
    · exfalso
      have : (id :: v).contains a = true := by
        have : a ∈ id :: v := List.mem_cons_of_mem id (List.mem_of_elem_eq_true hc)
        exact List.elem_eq_true_of_mem this
      rw [this] at ha
      exact absurd ha (by simp)
  apply length_lt_of_sublist_of_mem hsub id
  · rw [List.mem_filter]
    refine ⟨hid, ?_⟩
    rw [contains_false_of_not_mem hv]
    rfl
  · rw [List.mem_filter]
    rintro ⟨_, hcontra⟩
    have : (id :: v).contains id = true := List.elem_eq_true_of_mem (List.mem_cons_self id v)
    rw [this] at hcontra
    exact absurd hcontra (by simp)

theorem filter_unvisited_mono (keys : List String) (v v' : List String)
    (h : ∀ w ∈ v, w ∈ v') :
    (keys.filter (fun k => !(v'.contains k))).length ≤
      (keys.filter (fun k => !(v.contains k))).length := by
  apply List.Sublist.length_le
  apply List.monotone_filter_right
  intro a ha
  simp only [Bool.not_eq_true'] at ha ⊢
  rcases hc : v.contains a with _ | _
  · rfl
  · exfalso
    have hmem : a ∈ v' := h a (List.mem_of_elem_eq_true hc)
    have hcc : v'.contains a = true := List.elem_eq_true_of_mem hmem
    rw [hcc] at ha
    exact absurd ha (by simp)

/-- The one-step unfolding of `calcTotalTime` at positive fuel. -/
theorem calcTotalTime_succ (fuel : Nat) (st : List String × List (String × FunctionData))
    (frameId : String) :
    calcTotalTime (fuel+1) st frameId =
      (if st.1.contains frameId then
        (st, ((jsMapGet st.2 frameId).map (fun f => f.totalTime)).getD 0)
      else
        let st1 : List String × List (String × FunctionData) := (frameId :: st.1, st.2)
        match jsMapGet st1.2 frameId with
        | none => (st1, 0)
        | some func =>
          let r := func.children.foldl
            (fun acc c =>
              let rc := calcTotalTime fuel acc.1 c
              (rc.1, acc.2 + rc.2))
            (st1, func.selfTime)
          ((r.1.1, jsMapModify r.1.2 frameId (fun f => { f with totalTime := r.2 })), r.2)) :=
  rfl

theorem sameShape_get_facts {m0 m : List (String × FunctionData)} (h : SameShape m0 m)
    {id : String} (hid : id ∈ keysOf m0) :
    ∃ func, jsMapGet m id = some func ∧ func.children = childrenAt m0 id ∧
      func.selfTime = selfAt m0 id := by
  have hid' : id ∈ m0.map Prod.fst := hid
  have hsome0 : (jsMapGet m0 id).isSome := isSome_jsMapGet_of_mem_keys m0 id hid'
  rcases hg0 : jsMapGet m0 id with _ | f0
  · rw [hg0] at hsome0
    exact absurd hsome0 (by simp)
  · have hstrip := h.2 id
    rw [hg0] at hstrip
    rcases hg : jsMapGet m id with _ | func
    · rw [hg] at hstrip
      exact absurd hstrip (by simp)
    · rw [hg] at hstrip
      have hs : stripTotal func = stripTotal f0 := by simpa using hstrip
      refine ⟨func, rfl, ?_, ?_⟩
      · have := congrArg FunctionData.children hs
        simp only [stripTotal] at this
        unfold childrenAt
        rw [hg0]
        simpa using this
      · have := congrArg FunctionData.selfTime hs
        simp only [stripTotal] at this
        unfold selfAt
        rw [hg0]
        simpa using this

/-- The specification of `calculateTotalTime`: started on an unvisited frame
with the done-invariant holding outside the in-flight ancestor stack `A`,
it visits the frame's subtree, writes totals satisfying the subtree
equation, preserves every previously written total, and returns the total
it stored for the frame. -/
theorem calcTotalTime_spec (m0 : List (String × FunctionData)) (rnk : String → ℕ)
    (hchild_keys : ∀ p c, c ∈ childrenAt m0 p → c ∈ keysOf m0)
    (hrnk : ∀ p c, c ∈ childrenAt m0 p → rnk p < rnk c) :
    ∀ (fuel : Nat) (v : List String) (m : List (String × FunctionData)) (id : String)
      (A : List String),
      SameShape m0 m →
      ((keysOf m0).filter (fun k => !(v.contains k))).length < fuel →
      id ∈ keysOf m0 → ¬ id ∈ v →
      (∀ a ∈ A, a ∈ v) →
      List.Chain' (fun x y => rnk y < rnk x) (id :: A) →
      DoneInv m0 m v A →
      (∀ w, ¬ w ∈ v → totalAt m w = 0) →
      SameShape m0 (calcTotalTime fuel (v, m) id).1.2 ∧
      (∀ w ∈ v, w ∈ (calcTotalTime fuel (v, m) id).1.1) ∧
      id ∈ (calcTotalTime fuel (v, m) id).1.1 ∧
      (∀ w ∈ v, totalAt (calcTotalTime fuel (v, m) id).1.2 w = totalAt m w) ∧
      (∀ a ∈ A, totalAt (calcTotalTime fuel (v, m) id).1.2 a = totalAt m a) ∧
      DoneInv m0 (calcTotalTime fuel (v, m) id).1.2 (calcTotalTime fuel (v, m) id).1.1 A ∧
      (∀ w, ¬ w ∈ (calcTotalTime fuel (v, m) id).1.1 →
        totalAt (calcTotalTime fuel (v, m) id).1.2 w = 0) ∧
      (calcTotalTime fuel (v, m) id).2 =
        totalAt (calcTotalTime fuel (v, m) id).1.2 id := by
  intro fuel
  induction fuel with
  | zero =>
      intro v m id A _ hlt _ _ _ _ _ _
      exact absurd hlt (Nat.not_lt_zero _)
  | succ fuel ih =>
      intro v m id A hshape hlt hidk hidv hAv hchain hdone hzero
      have hcont : v.contains id = false := contains_false_of_not_mem hidv
      obtain ⟨func, hget, hfch, hfself⟩ := sameShape_get_facts hshape hidk
      have hstep : calcTotalTime (fuel+1) (v, m) id =
          (let r := func.children.foldl
            (fun acc c =>
              let rc := calcTotalTime fuel acc.1 c
              (rc.1, acc.2 + rc.2))
            ((id :: v, m), func.selfTime)
          ((r.1.1, jsMapModify r.1.2 id (fun f => { f with totalTime := r.2 })), r.2)) := by
        rw [calcTotalTime_succ]
        simp only [hcont, Bool.false_eq_true, if_false]
        rw [hget]
      -- the fold over the children
      have hAv1 : ∀ a ∈ id :: A, a ∈ id :: v := by
        intro a ha
        rcases List.mem_cons.mp ha with rfl | hm
        · exact List.mem_cons_self a v
        · exact List.mem_cons_of_mem id (hAv a hm)
      have hdone1 : DoneInv m0 m (id :: v) (id :: A) := by
        intro w hw hwA
        have hwv : w ∈ v := by
          rcases List.mem_cons.mp hw with rfl | hm
          · exact absurd (List.mem_cons_self w A) hwA
          · exact hm
        have hwA' : ¬ w ∈ A := fun hc => hwA (List.mem_cons_of_mem id hc)
        obtain ⟨heq, hch⟩ := hdone w hwv hwA'
        refine ⟨heq, ?_⟩
        intro c hc
        obtain ⟨hcv, hcA⟩ := hch c hc
        refine ⟨List.mem_cons_of_mem id hcv, ?_⟩
        intro hcon
        rcases List.mem_cons.mp hcon with rfl | hm
        · exact hidv hcv
        · exact hcA hm
      have hzero1 : ∀ w, ¬ w ∈ id :: v → totalAt m w = 0 := by
        intro w hw
        exact hzero w (fun hc => hw (List.mem_cons_of_mem id hc))
      have hlt1 : ((keysOf m0).filter (fun k => !((id :: v).contains k))).length < fuel := by
        have hd := filter_unvisited_cons_lt (keysOf m0) v id hidk hidv
        omega
      have hfold : ∀ (cs : List String) (v' : List String) (m' : List (String × FunctionData))
          (q : ℚ),
          (∀ c ∈ cs, c ∈ childrenAt m0 id) →
          SameShape m0 m' →
          ((keysOf m0).filter (fun k => !(v'.contains k))).length < fuel →
          (∀ a ∈ id :: A, a ∈ v') →
          DoneInv m0 m' v' (id :: A) →
          (∀ w, ¬ w ∈ v' → totalAt m' w = 0) →
          ∀ r, r = cs.foldl
            (fun acc c =>
              let rc := calcTotalTime fuel acc.1 c
              (rc.1, acc.2 + rc.2)) ((v', m'), q) →
          SameShape m0 r.1.2 ∧
          (∀ w ∈ v', w ∈ r.1.1) ∧
          (∀ w ∈ v', totalAt r.1.2 w = totalAt m' w) ∧
          DoneInv m0 r.1.2 r.1.1 (id :: A) ∧
          (∀ w, ¬ w ∈ r.1.1 → totalAt r.1.2 w = 0) ∧
          ((keysOf m0).filter (fun k => !(r.1.1.contains k))).length < fuel ∧
          (∀ c ∈ cs, c ∈ r.1.1) ∧
          r.2 = q + ((cs.map (totalAt r.1.2)).sum) := by
        intro cs
        induction cs with
        | nil =>
            intro v' m' q _ hsh hb hA' hD hz r hr
            subst hr
            exact ⟨hsh, fun w hw => hw, fun w _ => rfl, hD, hz, hb, fun c hc => absurd hc
              (List.not_mem_nil c), by simp⟩
        | cons c cs' ihc =>
            intro v' m' q hcs hsh hb hA' hD hz r hr
            rw [List.foldl_cons] at hr
            have hcchild : c ∈ childrenAt m0 id := hcs c (List.mem_cons_self c cs')
            by_cases hcv : c ∈ v'
            · -- already visited: the call returns the memoised total, state unchanged
              have hccont : v'.contains c = true := List.elem_eq_true_of_mem hcv
              have hcall : calcTotalTime fuel (v', m') c = ((v', m'), totalAt m' c) := by
                rcases fuel with _ | fuel'
                · exact absurd hb (Nat.not_lt_zero _)
                · rw [calcTotalTime_succ]
                  simp only [hccont, if_true]
                  rfl
              rw [hcall] at hr
              try dsimp only at hr
              obtain ⟨r1, r2, r3, r4, r5, r6, r7, r8⟩ := ihc v' m' (q + totalAt m' c)
                (fun x hx => hcs x (List.mem_cons_of_mem c hx)) hsh hb hA' hD hz r hr
              refine ⟨r1, r2, r3, r4, r5, r6, ?_, ?_⟩
              · intro x hx
                rcases List.mem_cons.mp hx with rfl | hm
                · exact r2 x hcv
                · exact r7 x hm
              · rw [r8, List.map_cons, List.sum_cons, r3 c hcv]
                ring
            · -- unvisited child: recurse via the fuel induction hypothesis
              have hck : c ∈ keysOf m0 := hchild_keys id c hcchild
              have hchain' : List.Chain' (fun x y => rnk y < rnk x) (c :: id :: A) :=
                List.chain'_cons.mpr ⟨hrnk id c hcchild, hchain⟩
              rcases hX : calcTotalTime fuel (v', m') c with ⟨⟨v1, m1⟩, val⟩
              have hcall := ih v' m' c (id :: A) hsh hb hck hcv hA' hchain' hD hz
              rw [hX] at hcall
              obtain ⟨c1, c2, c3, c4, c5, c6, c7, c8⟩ := hcall
              rw [hX] at hr
              try dsimp only at hr
              have hbnext : ((keysOf m0).filter (fun k => !(v1.contains k))).length < fuel := by
                have hdrop := filter_unvisited_cons_lt (keysOf m0) v' c hck hcv
                have hmono2 := filter_unvisited_mono (keysOf m0) (c :: v') v1 ?hsub
                case hsub =>
                  intro w hw
                  rcases List.mem_cons.mp hw with rfl | hm
                  · exact c3
                  · exact c2 w hm
                omega
              obtain ⟨r1, r2, r3, r4, r5, r6, r7, r8⟩ := ihc v1 m1 (q + val)
                (fun x hx => hcs x (List.mem_cons_of_mem c hx)) c1 hbnext
                (fun a ha => c2 a (hA' a ha)) c6 c7 r hr
              refine ⟨r1, ?_, ?_, r4, r5, r6, ?_, ?_⟩
              · intro w hw
                exact r2 w (c2 w hw)
              · intro w hw
                rw [r3 w (c2 w hw), c4 w hw]
              · intro x hx
                rcases List.mem_cons.mp hx with rfl | hm
                · exact r2 x c3
                · exact r7 x hm
              · rw [r8, List.map_cons, List.sum_cons, r3 c c3, ← c8]
                ring
      -- instantiate the fold specification on the frame's children
      obtain ⟨F1, F2, F3, F4, F5, F6, F7, F8⟩ := hfold func.children (id :: v) m func.selfTime
        (by rw [hfch]; exact fun c hc => hc) hshape hlt1 hAv1 hdone1 hzero1
        (func.children.foldl
          (fun acc c =>
            let rc := calcTotalTime fuel acc.1 c
            (rc.1, acc.2 + rc.2)) ((id :: v, m), func.selfTime)) rfl
      rw [hstep]
      dsimp only
      set R := func.children.foldl
        (fun acc c =>
          let rc := calcTotalTime fuel acc.1 c
          (rc.1, acc.2 + rc.2)) ((id :: v, m), func.selfTime) with hRdef
      -- facts about the id entry of the fold result
      have hidR : id ∈ R.1.1 := F2 id (List.mem_cons_self id v)
      obtain ⟨funcR, hgetR, _, _⟩ := sameShape_get_facts F1 hidk
      have hgetmod : jsMapGet (jsMapModify R.1.2 id (fun f => { f with totalTime := R.2 })) id =
          some { funcR with totalTime := R.2 } := by
        rw [jsMapGet_modify_self, hgetR]
        rfl
      have htotmod_self : totalAt (jsMapModify R.1.2 id
          (fun f => { f with totalTime := R.2 })) id = R.2 := by
        unfold totalAt
        rw [hgetmod]
        rfl
      have htotmod_ne : ∀ w, w ≠ id → totalAt (jsMapModify R.1.2 id
          (fun f => { f with totalTime := R.2 })) w = totalAt R.1.2 w := by
        intro w hw
        unfold totalAt
        rw [jsMapGet_modify_ne _ _ _ _ hw]
      have hAlt : ∀ a ∈ A, rnk a < rnk id := chain_desc_lt rnk A id hchain
      have hchne : ∀ c ∈ childrenAt m0 id, c ≠ id := by
        intro c hc hcontra
        have := hrnk id c hc
        rw [hcontra] at this
        exact absurd this (lt_irrefl _)
      have hchnA : ∀ c ∈ childrenAt m0 id, ¬ c ∈ A := by
        intro c hc hcontra
        have h1 := hrnk id c hc
        have h2 := hAlt c hcontra
        omega
      refine ⟨?_, ?_, ?_, ?_, ?_, ?_, ?_, ?_⟩
      · -- SameShape is preserved by the total write
        refine ⟨?_, ?_⟩
        · show keysOf (jsMapModify R.1.2 id _) = keysOf m0
          have : keysOf (jsMapModify R.1.2 id
              (fun f => { f with totalTime := R.2 })) = keysOf R.1.2 :=
            map_fst_jsMapModify R.1.2 id _
          rw [this]
          exact F1.1
        · intro q
          by_cases hq : q = id
          · subst hq
            show (jsMapGet (jsMapModify R.1.2 q _) q).map stripTotal = _
            rw [jsMapGet_modify_self]
            have hF := F1.2 q
            rcases hx : jsMapGet R.1.2 q with _ | f
            · rw [hx] at hF
              simpa using hF
            · rw [hx] at hF
              simpa [stripTotal] using hF
          · show (jsMapGet (jsMapModify R.1.2 id _) q).map stripTotal = _
            rw [jsMapGet_modify_ne _ _ _ _ hq]
            exact F1.2 q
      · intro w hw
        exact F2 w (List.mem_cons_of_mem id hw)
      · exact hidR
      · intro w hw
        have hwne : w ≠ id := fun hc => hidv (hc ▸ hw)
        rw [htotmod_ne w hwne]
        exact F3 w (List.mem_cons_of_mem id hw)
      · intro a ha
        have hane : a ≠ id := by
          intro hc
          have := hAlt a ha
          rw [hc] at this
          exact absurd this (lt_irrefl _)
        rw [htotmod_ne a hane]
        exact F3 a (List.mem_cons_of_mem id (hAv a ha))
      · -- the done-invariant now includes `id`
        intro w hw hwA
        by_cases hwid : w = id
        · subst hwid
          refine ⟨?_, ?_⟩
          · rw [htotmod_self]
            have hmap : List.map (totalAt (jsMapModify R.1.2 w
                  (fun f => { f with totalTime := R.2 }))) (childrenAt m0 w) =
                List.map (totalAt R.1.2) (childrenAt m0 w) :=
              List.map_congr_left (fun c hc => htotmod_ne c (hchne c hc))
            rw [hmap, F8, hfch, hfself]
          · intro c hc
            exact ⟨F7 c (by rw [hfch]; exact hc), hchnA c hc⟩
        · have hwA' : ¬ w ∈ id :: A := by
            intro hcon
            rcases List.mem_cons.mp hcon with h1 | h2
            · exact hwid h1
            · exact hwA h2
          obtain ⟨heq, hch⟩ := F4 w hw hwA'
          refine ⟨?_, ?_⟩
          · have hmap : List.map (totalAt (jsMapModify R.1.2 id
                  (fun f => { f with totalTime := R.2 }))) (childrenAt m0 w) =
                List.map (totalAt R.1.2) (childrenAt m0 w) := by
              refine List.map_congr_left (fun c hc => ?_)
              have hcne : c ≠ id := by
                intro hcontra
                exact (hch c hc).2 (hcontra ▸ List.mem_cons_self id A)
              exact htotmod_ne c hcne
            rw [htotmod_ne w hwid, hmap, heq]
          · intro c hc
            obtain ⟨hcv', hcA'⟩ := hch c hc
            exact ⟨hcv', fun hcon => hcA' (List.mem_cons_of_mem id hcon)⟩
      · intro w hw
        have hwne : w ≠ id := fun hc => hw (hc ▸ hidR)
        rw [htotmod_ne w hwne]
        exact F5 w hw
      · rw [htotmod_self]

theorem jsMapGet_jsMapSet_self [BEq κ] [LawfulBEq κ] (m : List (κ × α)) (k : κ) (v : α) :
    jsMapGet (jsMapSet m k v) k = some v := by
  unfold jsMapSet
  by_cases h : jsMapHas m k
  · rw [if_pos h]
    have hmod : m.map (fun e => if e.1 == k then (e.1, v) else e) =
        jsMapModify m k (fun _ => v) := rfl
    rw [hmod, jsMapGet_modify_self]
    unfold jsMapHas at h
    rcases hg : jsMapGet m k with _ | f
    · rw [hg] at h
      exact absurd h (by simp)
    · rfl
  · rw [if_neg h]
    unfold jsMapGet
    rw [List.find?_append]
    have hnone : m.find? (fun e => e.1 == k) = none := by
      unfold jsMapHas jsMapGet at h
      rcases hf : m.find? (fun e => e.1 == k) with _ | e
      · exact hf
      · rw [hf] at h
        exact absurd (by simp : (((some e).map (fun e => e.2)).isSome = true)) h
    rw [hnone]
    simp [List.find?]

theorem jsMapGet_jsMapSet_ne [BEq κ] [LawfulBEq κ] (m : List (κ × α)) (k q : κ) (v : α)
    (h : q ≠ k) : jsMapGet (jsMapSet m k v) q = jsMapGet m q := by
  unfold jsMapSet
  by_cases hh : jsMapHas m k
  · rw [if_pos hh]
    have hmod : m.map (fun e => if e.1 == k then (e.1, v) else e) =
        jsMapModify m k (fun _ => v) := rfl
    rw [hmod, jsMapGet_modify_ne m k q _ h]
  · rw [if_neg hh]
    unfold jsMapGet
    rw [List.find?_append]
    have hlast : ([(k, v)]).find? (fun e => e.1 == q) = none := by
      have : (k == q) = false := by
        rcases hb : (k == q) with _ | _
        · rfl
        · exact absurd (eq_of_beq hb).symm h
      simp [List.find?, this]
    rw [hlast]
    rw [Option.or_none]

theorem option_map_congr_of_map_eq {α β γ : Type} (π : α → γ) (g : α → β)
    (hg : ∀ x y, π x = π y → g x = g y) {o1 o2 : Option α}
    (h : o1.map π = o2.map π) : o1.map g = o2.map g := by
  rcases o1 with _ | x <;> rcases o2 with _ | y
  · rfl
  · exact absurd h (by simp)
  · exact absurd h (by simp)
  · have hxy : π x = π y := by simpa using h
    simp [hg x y hxy]

theorem foldl_jsMapSet_pair_prop [BEq κ] [LawfulBEq κ] {β : Type}
    (P : κ × α → Prop) (g : κ × β → α) :
    ∀ (l : List (κ × β)) (init : List (κ × α)), (∀ e ∈ init, P e) →
      (∀ x : κ × β, P (x.1, g x)) →
      ∀ e ∈ l.foldl (fun acc x => jsMapSet acc x.1 (g x)) init, P e := by
  intro l
  induction l with
  | nil => intro init hinit _ e he; exact hinit e he
  | cons x xs ih =>
      intro init hinit hg e he
      rw [List.foldl_cons] at he
      refine ih (jsMapSet init x.1 (g x)) ?_ hg e he
      intro e' he'
      unfold jsMapSet at he'
      by_cases h : jsMapHas init x.1
      · rw [if_pos h] at he'
        rcases List.mem_map.mp he' with ⟨e0, he0, heq⟩
        by_cases hb : (e0.1 == x.1) = true
        · rw [if_pos hb] at heq
          have h1 : e0.1 = x.1 := eq_of_beq hb
          rw [← heq, h1]
          exact hg x
        · rw [if_neg hb] at heq
          rw [← heq]
          exact hinit e0 he0
      · rw [if_neg h] at he'
        rcases List.mem_append.mp he' with h1 | h2
        · exact hinit e' h1
        · rw [List.mem_singleton] at h2
          rw [h2]
          exact hg x

theorem foldl_jsMapSet_keys_nodup [BEq κ] [LawfulBEq κ] {β : Type} (g : κ × β → α) :
    ∀ (l : List (κ × β)) (init : List (κ × α)), (init.map Prod.fst).Nodup →
      ((l.foldl (fun acc x => jsMapSet acc x.1 (g x)) init).map Prod.fst).Nodup := by
  intro l
  induction l with
  | nil => intro init h; simpa using h
  | cons x xs ih =>
      intro init h
      exact ih (jsMapSet init x.1 (g x)) (nodup_keys_jsMapSet init x.1 (g x) h)

/-- Every entry `traceInitMap` produces stores its own key as `id`, with no
children and a zero total. -/
theorem traceInitMap_pair (stackFrames : List (String × StackFrameIn)) :
    ∀ e ∈ traceInitMap stackFrames,
      e.2.id = e.1 ∧ e.2.children = [] ∧ e.2.totalTime = 0 := by
  unfold traceInitMap
  refine foldl_jsMapSet_pair_prop
    (fun e => e.2.id = e.1 ∧ e.2.children = [] ∧ e.2.totalTime = 0)
    (fun e => traceInitRecord e.1 e.2) stackFrames []
    (fun e he => absurd he (List.not_mem_nil e)) (fun x => ⟨rfl, rfl, rfl⟩)

theorem traceInitMap_keys_nodup (stackFrames : List (String × StackFrameIn)) :
    (keysOf (traceInitMap stackFrames)).Nodup := by
  unfold traceInitMap keysOf
  exact foldl_jsMapSet_keys_nodup (fun e => traceInitRecord e.1 e.2) stackFrames [] (by simp)

/-- In a map whose values carry their own key as `id`, the `functions`-list
total lookup agrees with the map lookup. -/
theorem outTotal_eq_totalAt :
    ∀ (m : List (String × FunctionData)), (∀ e ∈ m, e.2.id = e.1) →
      ∀ q, outTotal (m.map (fun e => e.2)) q = totalAt m q := by
  intro m
  induction m with
  | nil => intro _ q; rfl
  | cons e t ih =>
      intro hid q
      have he : e.2.id = e.1 := hid e (List.mem_cons_self e t)
      have ht := ih (fun e' he' => hid e' (List.mem_cons_of_mem e he')) q
      rcases hb : (e.1 == q) with _ | _
      · have hbid : (e.2.id == q) = false := by rw [he, hb]
        unfold outTotal totalAt jsMapGet at ht ⊢
        rw [List.map_cons]
        rw [List.find?_cons_of_neg _ (by simp [hbid]),
          List.find?_cons_of_neg _ (by simp [hb])]
        exact ht
      · have hbid : (e.2.id == q) = true := by rw [he, hb]
        unfold outTotal totalAt jsMapGet
        rw [List.map_cons]
        rw [List.find?_cons_of_pos _ (by simp [hbid]),
          List.find?_cons_of_pos _ (by simp [hb])]
        rfl

/-- With nonnegative sample weights every accumulated count is nonnegative. -/
theorem sampleCounts_nonneg (m : List (String × FunctionData)) :
    ∀ (samples : List TraceSample) (counts : List (String × Int)),
      (∀ s ∈ samples, 0 ≤ weightOf s) →
      (∀ q, (0:Int) ≤ (jsMapGet counts q).getD 0) →
      ∀ q, (0:Int) ≤ (jsMapGet (samples.foldl
        (fun counts s =>
          match s.sf with
          | some frameId =>
              if frameId != "" && jsMapHas m frameId then
                jsMapSet counts frameId (((jsMapGet counts frameId).getD 0) + weightOf s)
              else counts
          | none => counts) counts) q).getD 0 := by
  intro samples
  induction samples with
  | nil => intro counts _ hc q; exact hc q
  | cons s rest ih =>
      intro counts hw hc q
      rw [List.foldl_cons]
      have hws : 0 ≤ weightOf s := hw s (List.mem_cons_self s rest)
      have hw' : ∀ x ∈ rest, 0 ≤ weightOf x := fun x hx => hw x (List.mem_cons_of_mem s hx)
      rcases hsf : s.sf with _ | fid
      · simp only [hsf]
        exact ih counts hw' hc q
      · simp only [hsf]
        by_cases hcond : (fid != "" && jsMapHas m fid) = true
        · rw [if_pos hcond]
          refine ih _ hw' ?_ q
          intro q'
          by_cases hq : q' = fid
          · subst hq
            rw [jsMapGet_jsMapSet_self]
            have := hc q'
            simpa using add_nonneg this hws
          · rw [jsMapGet_jsMapSet_ne counts fid q' _ hq]
            exact hc q'
        · rw [if_neg hcond]
          exact ih counts hw' hc q

/-- The computed span is never negative: the running maximum is seeded with
0 and dominates every timestamp, hence the running minimum. -/
theorem traceSpan_nonneg (samples : List TraceSample) : 0 ≤ traceSpan samples := by
  cases samples with
  | nil => exact le_refl 0
  | cons s rest =>
      have hspan : traceSpan (s :: rest) =
          lastTimestamp (s :: rest) - ((rest.map (fun r => r.ts)).foldl min s.ts) := by
        unfold traceSpan
        rw [firstTimestamp_cons]
      rw [hspan, lastTimestamp_eq_foldl_map]
      rcases (foldl_min_spec (rest.map (fun r => r.ts)) s.ts).2.2 with hm | ⟨x, hx, hfx⟩
      · have hle := (foldl_max_spec ((s :: rest).map (fun r => r.ts)) 0).2.1 s.ts
          (by simp)
        omega
      · have hxm : x ∈ (s :: rest).map (fun r => r.ts) := by
          rw [List.map_cons]
          exact List.mem_cons_of_mem _ hx
        have hle := (foldl_max_spec ((s :: rest).map (fun r => r.ts)) 0).2.1 x hxm
        omega

theorem averageSampleInterval_nonneg (samples : List TraceSample) :
    0 ≤ averageSampleInterval samples := by
  unfold averageSampleInterval
  have h := traceSpan_nonneg samples
  by_cases hl : 1 < samples.length
  · rw [if_pos hl]
    apply div_nonneg
    · exact_mod_cast h
    · have h1 : (1:ℚ) < (samples.length : ℚ) := by exact_mod_cast hl
      linarith
  · rw [if_neg hl]
    exact_mod_cast h

/-- All self-times written by `applySelfTimes` are nonnegative when the
counts and the average interval are. -/
theorem selfAt_applySelfTimes_nonneg (m : List (String × FunctionData))
    (counts : List (String × Int)) (avg : ℚ)
    (hc : ∀ q, (0:Int) ≤ (jsMapGet counts q).getD 0) (havg : 0 ≤ avg) :
    ∀ q, 0 ≤ selfAt (applySelfTimes m counts avg) q := by
  intro q
  unfold selfAt
  rw [jsMapGet_applySelfTimes]
  rcases jsMapGet m q with _ | f
  · exact le_refl 0
  · have h1 : (0:ℚ) ≤ (((jsMapGet counts q).getD 0 : Int) : ℚ) := by exact_mod_cast hc q
    simpa using mul_nonneg h1 havg

/-- A field untouched by the totals pass reads equally on shape-equal maps. -/
theorem sameShape_field {β : Type} (g : FunctionData → β)
    (hg : ∀ x y, stripTotal x = stripTotal y → g x = g y)
    {m0 m : List (String × FunctionData)} (h : SameShape m0 m) (q : String) :
    (jsMapGet m q).map g = (jsMapGet m0 q).map g :=
  option_map_congr_of_map_eq stripTotal g hg (h.2 q)

theorem sameShape_selfAt {m0 m : List (String × FunctionData)} (h : SameShape m0 m)
    (q : String) : selfAt m q = selfAt m0 q := by
  unfold selfAt
  rw [sameShape_field (fun f => f.selfTime)
    (fun x y hxy => by
      have := congrArg FunctionData.selfTime hxy
      simpa [stripTotal] using this) h q]

theorem sameShape_childrenAt {m0 m : List (String × FunctionData)} (h : SameShape m0 m)
    (q : String) : childrenAt m q = childrenAt m0 q := by
  unfold childrenAt
  rw [sameShape_field (fun f => f.children)
    (fun x y hxy => by
      have := congrArg FunctionData.children hxy
      simpa [stripTotal] using this) h q]

theorem sameShape_idMap {m0 m : List (String × FunctionData)} (h : SameShape m0 m)
    (q : String) :
    (jsMapGet m q).map (fun f => f.id) = (jsMapGet m0 q).map (fun f => f.id) :=
  sameShape_field (fun f => f.id)
    (fun x y hxy => by
      have := congrArg FunctionData.id hxy
      simpa [stripTotal] using this) h q

/-- A resolvable parent pointer targets a present key. -/
theorem resolvedParent_has {m : List (String × FunctionData)} {c p : String}
    (h : resolvedParent m c = some p) : jsMapHas m p = true := by
  unfold resolvedParent at h
  rcases hg : jsMapGet m c with _ | f
  · rw [hg] at h
    exact absurd h (by simp)
  · rw [hg] at h
    dsimp only at h
    rcases hp : f.parent with _ | pp
    · rw [hp] at h
      exact absurd h (by simp)
    · rw [hp] at h
      dsimp only at h
      by_cases hcond : (pp != "" && jsMapHas m pp) = true
      · rw [if_pos hcond] at h
        have hpp : pp = p := by simpa using h
        exact hpp ▸ ((Bool.and_eq_true _ _).mp hcond).2
      · rw [if_neg (by simpa using hcond)] at h
        exact absurd h (by simp)

/-- A frame with a resolvable parent is itself a present key. -/
theorem resolvedParent_mem_keys {m : List (String × FunctionData)} {c p : String}
    (h : resolvedParent m c = some p) : c ∈ keysOf m := by
  unfold resolvedParent at h
  rcases hg : jsMapGet m c with _ | f
  · rw [hg] at h
    exact absurd h (by simp)
  · have : jsMapHas m c = true := by
      unfold jsMapHas
      rw [hg]
      rfl
    exact (jsMapHas_iff_mem_keys m c).mp this

/-- A stored frame whose parent link does not resolve passes the source's
root test. -/
theorem isRootFrame_of_resolvedParent_none {m : List (String × FunctionData)}
    {w : String} {f : FunctionData} (hg : jsMapGet m w = some f)
    (h : resolvedParent m w = none) : isRootFrame m f = true := by
  unfold resolvedParent at h
  rw [hg] at h
  dsimp only at h
  unfold isRootFrame
  rcases hp : f.parent with _ | pp
  · rfl
  · rw [hp] at h
    dsimp only at h
    by_cases hcond : (pp != "" && jsMapHas m pp) = true
    · rw [if_pos hcond] at h
      exact absurd h (by simp)
    · have hc' : (pp != "" && jsMapHas m pp) = false := by
        rcases hb : (pp != "" && jsMapHas m pp) with _ | _
        · rfl
        · exact absurd hb hcond
      rcases Bool.and_eq_false_iff.mp hc' with h1 | h2
      · have : (pp == "") = true := by
          rcases hb : (pp == "") with _ | _
          · rw [bne] at h1
            rw [hb] at h1
            exact absurd h1 (by simp)
          · rfl
        simp [this]
      · simp [h2]

/-- The root loop of the totals pass: starting from a shape-preserving state
whose done-invariant holds with an empty in-flight stack, it preserves the
invariants and visits the key of every root entry it encounters. -/
theorem totalsFold_spec (m0 : List (String × FunctionData)) (rnk : String → ℕ)
    (hchild_keys : ∀ p c, c ∈ childrenAt m0 p → c ∈ keysOf m0)
    (hrnk : ∀ p c, c ∈ childrenAt m0 p → rnk p < rnk c)
    (fuel : Nat) (hfuel : (keysOf m0).length < fuel) :
    ∀ (l : List (String × FunctionData)) (v : List String)
      (m : List (String × FunctionData)),
      (∀ e ∈ l, e.1 ∈ keysOf m0) →
      SameShape m0 m →
      DoneInv m0 m v [] →
      (∀ w, ¬ w ∈ v → totalAt m w = 0) →
      ∀ R, R = l.foldl
        (fun st e => if isRootFrame m0 e.2 then (calcTotalTime fuel st e.1).1 else st)
        (v, m) →
      SameShape m0 R.2 ∧ (∀ w ∈ v, w ∈ R.1) ∧ DoneInv m0 R.2 R.1 [] ∧
      (∀ w, ¬ w ∈ R.1 → totalAt R.2 w = 0) ∧
      (∀ e ∈ l, isRootFrame m0 e.2 = true → e.1 ∈ R.1) := by
  obtain ⟨k, rfl⟩ : ∃ k, fuel = k + 1 := ⟨fuel - 1, by omega⟩
  intro l
  induction l with
  | nil =>
      intro v m _ hshape hdone hzero R hR
      rw [List.foldl_nil] at hR
      subst hR
      exact ⟨hshape, fun w hw => hw, hdone, hzero,
        fun e he => absurd he (List.not_mem_nil e)⟩
  | cons e l ih =>
      intro v m hl hshape hdone hzero R hR
      rw [List.foldl_cons] at hR
      by_cases hroot : isRootFrame m0 e.2 = true
      · rw [if_pos hroot] at hR
        by_cases hv : e.1 ∈ v
        · have hcont : v.contains e.1 = true := List.elem_eq_true_of_mem hv
          have hcalc : (calcTotalTime (k + 1) (v, m) e.1).1 = (v, m) := by
            rw [calcTotalTime_succ]
            simp only [hcont, if_true]
          rw [hcalc] at hR
          obtain ⟨r1, r2, r3, r4, r5⟩ :=
            ih v m (fun e' he' => hl e' (List.mem_cons_of_mem e he'))
              hshape hdone hzero R hR
          refine ⟨r1, r2, r3, r4, ?_⟩
          intro e' he' hre'
          rcases List.mem_cons.mp he' with rfl | hm
          · exact r2 e'.1 hv
          · exact r5 e' hm hre'
        · have hlt : ((keysOf m0).filter (fun x => !(v.contains x))).length < k + 1 :=
            Nat.lt_of_le_of_lt (List.length_filter_le _ _) hfuel
          obtain ⟨c1, c2, c3, c4, c5, c6, c7, c8⟩ :=
            calcTotalTime_spec m0 rnk hchild_keys hrnk (k + 1) v m e.1 []
              hshape hlt (hl e (List.mem_cons_self e l)) hv
              (fun a ha => absurd ha (List.not_mem_nil a))
              (List.chain'_singleton e.1) hdone hzero
          obtain ⟨r1, r2, r3, r4, r5⟩ :=
            ih (calcTotalTime (k + 1) (v, m) e.1).1.1
              (calcTotalTime (k + 1) (v, m) e.1).1.2
              (fun e' he' => hl e' (List.mem_cons_of_mem e he'))
              c1 c6 c7 R hR
          refine ⟨r1, ?_, r3, r4, ?_⟩
          · intro w hw
            exact r2 w (c2 w hw)
          · intro e' he' hre'
            rcases List.mem_cons.mp he' with rfl | hm
            · exact r2 e'.1 c3
            · exact r5 e' hm hre'
      · rw [if_neg hroot] at hR
        obtain ⟨r1, r2, r3, r4, r5⟩ :=
          ih v m (fun e' he' => hl e' (List.mem_cons_of_mem e he'))
            hshape hdone hzero R hR
        refine ⟨r1, r2, r3, r4, ?_⟩
        intro e' he' hre'
        rcases List.mem_cons.mp he' with rfl | hm
        · exact absurd hre' hroot
        · exact r5 e' hm hre'

/-- The totals pass: it only rewrites `totalTime` fields, and afterwards
there is a visited set containing every root key, closed under children,
outside which totals are zero and inside which the subtree equation holds. -/
theorem runTotals_spec (m0 : List (String × FunctionData)) (rnk : String → ℕ)
    (hchild_keys : ∀ p c, c ∈ childrenAt m0 p → c ∈ keysOf m0)
    (hrnk : ∀ p c, c ∈ childrenAt m0 p → rnk p < rnk c)
    (hzero0 : ∀ w, totalAt m0 w = 0) :
    ∃ V : List String,
      SameShape m0 (runTotals m0) ∧
      DoneInv m0 (runTotals m0) V [] ∧
      (∀ w, ¬ w ∈ V → totalAt (runTotals m0) w = 0) ∧
      (∀ w ∈ keysOf m0, resolvedParent m0 w = none → w ∈ V) := by
  have hfuel : (keysOf m0).length < m0.length + 1 := by
    unfold keysOf
    rw [List.length_map]
    exact Nat.lt_succ_self _
  obtain ⟨r1, r2, r3, r4, r5⟩ :=
    totalsFold_spec m0 rnk hchild_keys hrnk (m0.length + 1) hfuel m0
      [] m0
      (fun e he => List.mem_map.mpr ⟨e, he, rfl⟩)
      ⟨rfl, fun _ => rfl⟩
      (fun w hw => absurd hw (List.not_mem_nil w))
      (fun w _ => hzero0 w)
      (m0.foldl
        (fun st e => if isRootFrame m0 e.2 then (calcTotalTime (m0.length + 1) st e.1).1
          else st)
        ([], m0))
      rfl
  unfold runTotals
  refine ⟨(m0.foldl
      (fun st e => if isRootFrame m0 e.2 then (calcTotalTime (m0.length + 1) st e.1).1
        else st)
      ([], m0)).1, r1, r3, r4, ?_⟩
  intro w hw hrp
  have hsome : (jsMapGet m0 w).isSome := isSome_jsMapGet_of_mem_keys m0 w hw
  rcases hg : jsMapGet m0 w with _ | f
  · rw [hg] at hsome
    exact absurd hsome (by simp)
  · have hmem : (w, f) ∈ m0 := mem_of_jsMapGet_eq_some hg
    have hroot : isRootFrame m0 f = true := isRootFrame_of_resolvedParent_none hg hrp
    exact r5 (w, f) hmem hroot

/-- Abstract summary of the totals pass on an acyclic parent structure
(children membership coincides with parent resolution, and a rank function
certifies acyclicity): every key satisfies the subtree equation, and with
nonnegative self-times every total is nonnegative. -/
theorem runTotals_ensures (m2 : List (String × FunctionData)) (rnk : String → ℕ)
    (hmemiff : ∀ c p, c ∈ childrenAt m2 p ↔ resolvedParent m2 c = some p)
    (hrnkP : ∀ p c, c ∈ childrenAt m2 p → rnk p < rnk c)
    (B : ℕ) (hbnd : ∀ c ∈ keysOf m2, rnk c ≤ B)
    (hzero0 : ∀ w, totalAt m2 w = 0) :
    SameShape m2 (runTotals m2) ∧
    (∀ w ∈ keysOf m2,
      totalAt (runTotals m2) w =
        selfAt m2 w + ((childrenAt m2 w).map (totalAt (runTotals m2))).sum) ∧
    ((∀ q, 0 ≤ selfAt m2 q) → ∀ w ∈ keysOf m2, 0 ≤ totalAt (runTotals m2) w) := by
  have hchild_keys : ∀ p c, c ∈ childrenAt m2 p → c ∈ keysOf m2 := by
    intro p c hc
    exact resolvedParent_mem_keys ((hmemiff c p).mp hc)
  obtain ⟨V, hshape, hdone, hzeroV, hroots⟩ :=
    runTotals_spec m2 rnk hchild_keys hrnkP hzero0
  have hallV : ∀ w ∈ keysOf m2, w ∈ V := by
    have hstep : ∀ k : ℕ, ∀ w ∈ keysOf m2, rnk w < k → w ∈ V := by
      intro k
      induction k with
      | zero => intro w _ h; exact absurd h (Nat.not_lt_zero _)
      | succ k ih =>
          intro w hw hlt
          rcases hrp : resolvedParent m2 w with _ | p
          · exact hroots w hw hrp
          · have hchild : w ∈ childrenAt m2 p := (hmemiff w p).mpr hrp
            have hpk : p ∈ keysOf m2 :=
              (jsMapHas_iff_mem_keys m2 p).mp (resolvedParent_has hrp)
            have hplt : rnk p < rnk w := hrnkP p w hchild
            have hpV : p ∈ V := ih p hpk (by omega)
            exact ((hdone p hpV (List.not_mem_nil p)).2 w hchild).1
    intro w hw
    exact hstep (rnk w + 1) w hw (Nat.lt_succ_self _)
  have heq : ∀ w ∈ keysOf m2, totalAt (runTotals m2) w =
      selfAt m2 w + ((childrenAt m2 w).map (totalAt (runTotals m2))).sum :=
    fun w hw => (hdone w (hallV w hw) (List.not_mem_nil w)).1
  refine ⟨hshape, heq, ?_⟩
  intro hself_nn
  have hb : ∀ k : ℕ, ∀ w ∈ keysOf m2, B ≤ rnk w + k →
      0 ≤ totalAt (runTotals m2) w := by
    intro k
    induction k with
    | zero =>
        intro w hw hge
        have hch_empty : childrenAt m2 w = [] := by
          rcases hc : childrenAt m2 w with _ | ⟨c, cs⟩
          · rfl
          · exfalso
            have hcc : c ∈ childrenAt m2 w := by
              rw [hc]
              exact List.mem_cons_self c cs
            have h1 : rnk w < rnk c := hrnkP w c hcc
            have h2 : rnk c ≤ B := hbnd c (hchild_keys w c hcc)
            omega
        rw [heq w hw, hch_empty]
        simpa using hself_nn w
    | succ k ih =>
        intro w hw hge
        rw [heq w hw]
        have hsum : 0 ≤ ((childrenAt m2 w).map (totalAt (runTotals m2))).sum := by
          apply List.sum_nonneg
          intro x hx
          rcases List.mem_map.mp hx with ⟨c, hc, rfl⟩
          have h1 : rnk w < rnk c := hrnkP w c hc
          exact ih c (hchild_keys w c hc) (by omega)
        exact add_nonneg (hself_nn w) hsum
  intro w hw
  exact hb B w hw (by omega)

/-- C1 (amended).  For a trace-event capture whose parent links are acyclic
(every frame's resolved-parent chain reaches a root within `size + 1`
steps), every emitted function record satisfies the subtree equation
`totalTime = selfTime + Σ totalTime(child)` over its linked children — and,
when all sample weights are nonnegative, `selfTime ≤ totalTime`.  The
acyclicity hypothesis is not removable: on a self-referential parent link
the totals pass finds no root, leaves `totalTime = 0` below a positive
`selfTime`, and the claimed inequality fails
(`traceTotalTime_counterexample`).  The sample list must be nonempty: with
no samples the source computes `averageSampleInterval = -Infinity` and `NaN`
self/total times, which is outside the modelled fragment (cf. `traceSpan`). -/
theorem traceTotalTime_subtree (samples : List TraceSample)
    (stackFrames : List (String × StackFrameIn))
    (hsamples : samples ≠ [])
    (hreach : ∀ id ∈ keysOf (traceInitMap stackFrames),
      reachesRoot (linkChildren (traceInitMap stackFrames))
        ((traceInitMap stackFrames).length + 1) id = true) :
    ∀ f ∈ (parseTraceEventProfile samples stackFrames).functions,
      f.totalTime = f.selfTime +
        (f.children.map
          (outTotal (parseTraceEventProfile samples stackFrames).functions)).sum ∧
      ((∀ s ∈ samples, 0 ≤ weightOf s) → f.selfTime ≤ f.totalTime) := by
  classical
  set base := traceInitMap stackFrames with hbase
  set m1 := linkChildren base with hm1
  set cnts := sampleCounts m1 samples with hcnts
  set avg := averageSampleInterval samples with havgd
  set m2 := applySelfTimes m1 cnts avg with hm2
  have hfns : (parseTraceEventProfile samples stackFrames).functions =
      (runTotals m2).map (fun e => e.2) := rfl
  -- key chain and nodup
  have hk1 : keysOf m1 = keysOf base := linkChildren_keys base
  have hk2 : keysOf m2 = keysOf m1 := map_fst_applySelfTimes m1 cnts avg
  have hnb : (keysOf base).Nodup := traceInitMap_keys_nodup stackFrames
  have hnodup : (keysOf m2).Nodup := by rw [hk2, hk1]; exact hnb
  -- parent resolution transfers down the pipeline
  have hrp21 : ∀ c, resolvedParent m2 c = resolvedParent m1 c :=
    resolvedParent_congr m2 m1 (fun q => parentMap_applySelfTimes m1 cnts avg q)
      (fun q => jsMapHas_applySelfTimes m1 cnts avg q)
  have hrp1b : ∀ c, resolvedParent m1 c = resolvedParent base c :=
    resolvedParent_congr m1 base (fun q => parentMap_linkChildren base q)
      (fun q => jsMapHas_linkChildren base q)
  have hmemiff : ∀ c p, c ∈ childrenAt m2 p ↔ resolvedParent m2 c = some p := by
    intro c p
    rw [hm2, childrenAt_applySelfTimes, hrp21 c, hrp1b c]
    exact linkChildren_mem_iff base
      (fun e he => (traceInitMap_pair stackFrames e he).2.1) hnb c p
  -- acyclicity hypothesis, transported to the live map
  have hreach2 : ∀ id ∈ keysOf m2, reachesRoot m2 (base.length + 1) id = true := by
    intro id hid
    rw [reachesRoot_congr m2 m1 hrp21 (base.length + 1) id]
    apply hreach
    rw [← hk1, ← hk2]
    exact hid
  have hex : ∀ id ∈ keysOf m2, ∃ n, reachesRoot m2 n id = true :=
    fun id hid => ⟨base.length + 1, hreach2 id hid⟩
  -- the rank of a frame: the least number of parent steps to a root
  set rnk : String → ℕ :=
    fun id => if h : ∃ n, reachesRoot m2 n id = true then Nat.find h else 0 with hrnkdef
  have hfind : ∀ id (h : ∃ n, reachesRoot m2 n id = true), rnk id = Nat.find h := by
    intro id h
    rw [hrnkdef]
    exact dif_pos h
  have hrnkP : ∀ p c, c ∈ childrenAt m2 p → rnk p < rnk c := by
    intro p c hc
    have hrp := (hmemiff c p).mp hc
    have hck : c ∈ keysOf m2 := resolvedParent_mem_keys hrp
    have hpk : p ∈ keysOf m2 :=
      (jsMapHas_iff_mem_keys m2 p).mp (resolvedParent_has hrp)
    have hce := hex c hck
    have hpe := hex p hpk
    rw [hfind c hce, hfind p hpe]
    have hspec := Nat.find_spec hce
    rcases hn : Nat.find hce with _ | n
    · rw [hn] at hspec
      rw [show reachesRoot m2 0 c = false from rfl] at hspec
      exact absurd hspec (by simp)
    · rw [hn] at hspec
      have hstep : reachesRoot m2 (n + 1) c = reachesRoot m2 n p := by
        show (match resolvedParent m2 c with
              | none => true
              | some p => reachesRoot m2 n p) = reachesRoot m2 n p
        rw [hrp]
      rw [hstep] at hspec
      have hle : Nat.find hpe ≤ n := Nat.find_min' hpe hspec
      omega
  have hbnd : ∀ c ∈ keysOf m2, rnk c ≤ base.length + 1 := by
    intro c hc
    rw [hfind c (hex c hc)]
    exact Nat.find_min' _ (hreach2 c hc)
  -- initial totals are zero
  have hzero0 : ∀ w, totalAt m2 w = 0 := by
    intro w
    unfold totalAt
    have h2 : (jsMapGet m2 w).map (fun f => f.totalTime) =
        (jsMapGet m1 w).map (fun f => f.totalTime) := by
      rw [hm2, jsMapGet_applySelfTimes]
      rcases jsMapGet m1 w with _ | f
      · rfl
      · rfl
    have h1 : (jsMapGet m1 w).map (fun f => f.totalTime) =
        (jsMapGet base w).map (fun f => f.totalTime) :=
      option_map_congr_of_map_eq dropChildren (fun f => f.totalTime)
        (fun x y hxy => by
          have := congrArg FunctionData.totalTime hxy
          simpa [dropChildren] using this)
        (linkChildren_get_dropChildren base w)
    rw [h2, h1]
    rcases hg : jsMapGet base w with _ | f
    · rfl
    · have hmem := mem_of_jsMapGet_eq_some hg
      have := (traceInitMap_pair stackFrames (w, f) hmem).2.2
      simp only [Option.map_some', Option.getD_some]
      exact this
  obtain ⟨hshape, heq, hnn⟩ :=
    runTotals_ensures m2 rnk hmemiff hrnkP (base.length + 1) hbnd hzero0
  have hn3 : (keysOf (runTotals m2)).Nodup := by rw [hshape.1]; exact hnodup
  -- every stored record carries its key as id
  have hid3 : ∀ e ∈ runTotals m2, e.2.id = e.1 := by
    intro e he
    have hg3 : jsMapGet (runTotals m2) e.1 = some e.2 :=
      jsMapGet_eq_some_of_mem (runTotals m2) hn3 e he
    have hidmap : (jsMapGet (runTotals m2) e.1).map (fun f => f.id) =
        (jsMapGet base e.1).map (fun f => f.id) := by
      rw [sameShape_idMap hshape e.1]
      have h2 : (jsMapGet m2 e.1).map (fun f => f.id) =
          (jsMapGet m1 e.1).map (fun f => f.id) := by
        rw [hm2, jsMapGet_applySelfTimes]
        rcases jsMapGet m1 e.1 with _ | f
        · rfl
        · rfl
      rw [h2]
      exact option_map_congr_of_map_eq dropChildren (fun f => f.id)
        (fun x y hxy => by
          have := congrArg FunctionData.id hxy
          simpa [dropChildren] using this)
        (linkChildren_get_dropChildren base e.1)
    rw [hg3] at hidmap
    rcases hgb : jsMapGet base e.1 with _ | fb
    · rw [hgb] at hidmap
      exact absurd hidmap (by simp)
    · rw [hgb] at hidmap
      have hfb : e.2.id = fb.id := by simpa using hidmap
      rw [hfb]
      exact (traceInitMap_pair stackFrames (e.1, fb) (mem_of_jsMapGet_eq_some hgb)).1
  -- conclude for every emitted record
  intro f hf
  rw [hfns] at hf
  rcases List.mem_map.mp hf with ⟨e, he, rfl⟩
  have hkey : e.1 ∈ keysOf m2 := by
    rw [← hshape.1]
    exact List.mem_map.mpr ⟨e, he, rfl⟩
  have hg3 : jsMapGet (runTotals m2) e.1 = some e.2 :=
    jsMapGet_eq_some_of_mem (runTotals m2) hn3 e he
  have htot : e.2.totalTime = totalAt (runTotals m2) e.1 := by
    unfold totalAt
    rw [hg3]
    rfl
  have hselfe : e.2.selfTime = selfAt (runTotals m2) e.1 := by
    unfold selfAt
    rw [hg3]
    rfl
  have hself2 : selfAt (runTotals m2) e.1 = selfAt m2 e.1 := sameShape_selfAt hshape e.1
  have hch : e.2.children = childrenAt (runTotals m2) e.1 := by
    unfold childrenAt
    rw [hg3]
    rfl
  have hch2 : childrenAt (runTotals m2) e.1 = childrenAt m2 e.1 :=
    sameShape_childrenAt hshape e.1
  constructor
  · rw [htot, hselfe, hself2, hch, hch2, heq e.1 hkey]
    congr 1
    apply congrArg List.sum
    apply List.map_congr_left
    intro c _
    exact (outTotal_eq_totalAt (runTotals m2) hid3 c).symm
  · intro hwts
    have hcnt_nn : ∀ q, (0:Int) ≤ (jsMapGet cnts q).getD 0 := by
      intro q
      rw [hcnts]
      exact sampleCounts_nonneg m1 samples [] hwts (fun _ => le_refl 0) q
    have havg_nn : 0 ≤ avg := by
      rw [havgd]
      exact averageSampleInterval_nonneg samples
    have hself_nn : ∀ q, 0 ≤ selfAt m2 q := by
      intro q
      rw [hm2]
      exact selfAt_applySelfTimes_nonneg m1 cnts avg hcnt_nn havg_nn q
    have hsum_nn : 0 ≤ ((childrenAt m2 e.1).map (totalAt (runTotals m2))).sum := by
      apply List.sum_nonneg
      intro x hx
      rcases List.mem_map.mp hx with ⟨c, hc, rfl⟩
      have hck : c ∈ keysOf m2 := resolvedParent_mem_keys ((hmemiff c e.1).mp hc)
      exact hnn hself_nn c hck
    rw [htot, hselfe, hself2, heq e.1 hkey]
    linarith

/-- C1 counterexample.  A single frame whose `parent` is itself: the linked
children graph is the self-loop, no frame passes the root test, the totals
pass never runs, and the emitted record has `selfTime = 20` (two samples, 10
units apart) but `totalTime = 0` — refuting both `totalTime >= selfTime` and
the subtree equation (`0 ≠ 20 + totalTime("1")`). -/
theorem traceTotalTime_counterexample :
    ∃ f, f ∈ (parseTraceEventProfile
        [{ ts := 0, sf := some "1" }, { ts := 10, sf := some "1" }]
        [("1", { name := some "a", parent := some "1" })]).functions ∧
      f.selfTime = 20 ∧ f.totalTime = 0 ∧ f.children = ["1"] ∧
      f.totalTime < f.selfTime := by
  have hfl : (parseTraceEventProfile
      [{ ts := 0, sf := some "1" }, { ts := 10, sf := some "1" }]
      [("1", { name := some "a", parent := some "1" })]).functions =
      [{ id := "1", name := "a", selfTime := 20, totalTime := 0, category := "Unknown",
         parent := some "1", children := ["1"] }] := by
    norm_num +decide [parseTraceEventProfile, linkChildren, traceInitMap, traceInitRecord,
      jsStrOr, jsMapSet, jsMapHas, jsMapGet, jsMapModify, firstTimestamp, lastTimestamp,
      traceSpan, averageSampleInterval, weightOf, sampleCounts, applySelfTimes, runTotals,
      isRootFrame, List.foldl, List.find?, List.filter]
  refine ⟨{ id := "1", name := "a", selfTime := 20, totalTime := 0, category := "Unknown",
            parent := some "1", children := ["1"] }, ?_, rfl, rfl, rfl, by norm_num⟩
  rw [hfl]
  exact List.mem_cons_self _ _

theorem traceTotalTime_subtree_witness :
    ([{ ts := 0, sf := some "1" }, ({ ts := 10, sf := some "1" } : TraceSample)] ≠ []) ∧
    (∀ id ∈ keysOf (traceInitMap [("1", ({ name := some "a" } : StackFrameIn))]),
      reachesRoot
        (linkChildren (traceInitMap [("1", ({ name := some "a" } : StackFrameIn))]))
        ((traceInitMap [("1", ({ name := some "a" } : StackFrameIn))]).length + 1)
        id = true) ∧
    (∀ f ∈ (parseTraceEventProfile
        [{ ts := 0, sf := some "1" }, { ts := 10, sf := some "1" }]
        [("1", { name := some "a" })]).functions,
      f.totalTime = f.selfTime +
        (f.children.map (outTotal (parseTraceEventProfile
          [{ ts := 0, sf := some "1" }, { ts := 10, sf := some "1" }]
          [("1", { name := some "a" })]).functions)).sum ∧
      ((∀ s ∈ [{ ts := 0, sf := some "1" }, ({ ts := 10, sf := some "1" } : TraceSample)],
          0 ≤ weightOf s) → f.selfTime ≤ f.totalTime)) :=
  ⟨by decide, by decide, traceTotalTime_subtree
    [{ ts := 0, sf := some "1" }, { ts := 10, sf := some "1" }]
    [("1", { name := some "a" })] (by decide) (by decide)⟩

/-! ## C2: the no-throw envelope of `parseCpuProfile` -/

theorem truthy_ne_null {x : Json} (h : x.truthy = true) :
    x ≠ Json.null ∧ x ≠ Json.undef := by
  cases x
  · exact absurd h (by simp [Json.truthy])
  · exact absurd h (by simp [Json.truthy])
  all_goals exact ⟨fun hc => Json.noConfusion hc, fun hc => Json.noConfusion hc⟩

theorem jOr_obj_ne (x : Json) (l : List (String × Json)) :
    jOr x (Json.obj l) ≠ Json.null ∧ jOr x (Json.obj l) ≠ Json.undef := by
  unfold jOr
  by_cases h : x.truthy = true
  · rw [if_pos h]
    exact truthy_ne_null h
  · rw [if_neg h]
    exact ⟨fun hc => Json.noConfusion hc, fun hc => Json.noConfusion hc⟩

theorem extractOptStrField_ok (j : Json) (field : String) (h1 : j ≠ Json.null)
    (h2 : j ≠ Json.undef) (h : strFieldOk j field = true) :
    ∃ v, extractOptStrField j field = Except.ok v := by
  unfold extractOptStrField
  rw [jGet_eq_jField j h1 h2]
  unfold strFieldOk at h
  by_cases ht : (jField j field).truthy = true
  · rcases hv : jField j field with _ | _ | b | q | s | es | kvs <;> rw [hv] at h ht
    · exact absurd ht (by simp [Json.truthy])
    · exact absurd ht (by simp [Json.truthy])
    · simp [Json.truthy] at h ht
      exact absurd ht (by simp [h])
    · simp [Json.truthy] at h ht
      exact absurd h ht
    · refine ⟨some s, ?_⟩
      simp [Bind.bind, Except.bind, ht]
    · simp [Json.truthy] at h
    · simp [Json.truthy] at h
  · refine ⟨none, ?_⟩
    simp [Bind.bind, Except.bind, ht]

theorem extractParent_ok (fr : Json) (h1 : fr ≠ Json.null) (h2 : fr ≠ Json.undef)
    (h : parentFieldOk fr = true) : ∃ v, extractParent fr = Except.ok v := by
  unfold extractParent
  rw [jGet_eq_jField fr h1 h2]
  unfold parentFieldOk at h
  by_cases ht : (jField fr "parent").truthy = true
  · rcases hv : jField fr "parent" with _ | _ | b | q | s | es | kvs <;> rw [hv] at h ht
    · exact absurd ht (by simp [Json.truthy])
    · exact absurd ht (by simp [Json.truthy])
    · refine ⟨some (if b then "true" else "false"), ?_⟩
      simp [Bind.bind, Except.bind, ht, jsToStringId]
    · have hden : q.den = 1 := by simpa using h
      refine ⟨some (toString q.num), ?_⟩
      simp [Bind.bind, Except.bind, ht, jsToStringId, hden]
    · refine ⟨some s, ?_⟩
      simp [Bind.bind, Except.bind, ht, jsToStringId]
    · simp [Json.truthy] at h
    · simp [Json.truthy] at h
  · refine ⟨none, ?_⟩
    simp [Bind.bind, Except.bind, ht]

theorem extractTraceFrame_ok (fr : Json) (h : traceFrameOk fr = true) :
    ∃ out, extractTraceFrame fr = Except.ok out := by
  have hspec : fr ≠ Json.null ∧ fr ≠ Json.undef ∧ strFieldOk fr "name" = true ∧
      strFieldOk fr "category" = true ∧ parentFieldOk fr = true := by
    unfold traceFrameOk at h
    cases fr
    · exact absurd h (by simp)
    · exact absurd h (by simp)
    all_goals
      refine ⟨fun hc => Json.noConfusion hc, fun hc => Json.noConfusion hc, ?_⟩
    all_goals
      simpa [Bool.and_eq_true, and_assoc] using h
  obtain ⟨h1, h2, hn, hc, hp⟩ := hspec
  obtain ⟨n, hne⟩ := extractOptStrField_ok fr "name" h1 h2 hn
  obtain ⟨c, hce⟩ := extractOptStrField_ok fr "category" h1 h2 hc
  obtain ⟨p, hpe⟩ := extractParent_ok fr h1 h2 hp
  refine ⟨{ name := n, category := c, parent := p }, ?_⟩
  unfold extractTraceFrame
  simp [Bind.bind, Except.bind, hne, hce, hpe]

theorem extractTraceSample_ok (s : Json) (h : traceSampleOk s = true) :
    ∃ out, extractTraceSample s = Except.ok out := by
  have hspec : s ≠ Json.null ∧ s ≠ Json.undef ∧
      (jsParseIntOpt (jField s "ts")).isSome = true ∧
      (match jField s "sf" with
       | Json.null => true
       | Json.undef => true
       | Json.str _ => true
       | Json.bool _ => true
       | Json.num q => decide (q.den = 1)
       | _ => false) = true := by
    unfold traceSampleOk at h
    cases s
    · exact absurd h (by simp)
    · exact absurd h (by simp)
    all_goals
      refine ⟨fun hc => Json.noConfusion hc, fun hc => Json.noConfusion hc, ?_⟩
    all_goals
      simpa [Bool.and_eq_true, and_assoc] using h
  obtain ⟨h1, h2, hts, hsf⟩ := hspec
  obtain ⟨t, hto⟩ : ∃ t, jsParseIntOpt (jField s "ts") = some t :=
    Option.isSome_iff_exists.mp hts
  rcases hv : jField s "sf" with _ | _ | b | q | st | es | kvs <;> rw [hv] at hsf
  · refine ⟨⟨t, none, jsParseIntOpt (jField s "weight")⟩, ?_⟩
    unfold extractTraceSample
    simp only [jGet_eq_jField s h1 h2, hv]
    simp [Bind.bind, Except.bind, hto]
  · refine ⟨⟨t, none, jsParseIntOpt (jField s "weight")⟩, ?_⟩
    unfold extractTraceSample
    simp only [jGet_eq_jField s h1 h2, hv]
    simp [Bind.bind, Except.bind, hto]
  · refine ⟨⟨t, some (if b then "true" else "false"), jsParseIntOpt (jField s "weight")⟩, ?_⟩
    unfold extractTraceSample
    simp only [jGet_eq_jField s h1 h2, hv]
    simp [Bind.bind, Except.bind, hto, jsToStringId]
  · have hden : q.den = 1 := by simpa using hsf
    refine ⟨⟨t, some (toString q.num), jsParseIntOpt (jField s "weight")⟩, ?_⟩
    unfold extractTraceSample
    simp only [jGet_eq_jField s h1 h2, hv]
    simp [Bind.bind, Except.bind, hto, jsToStringId, hden]
  · refine ⟨⟨t, some st, jsParseIntOpt (jField s "weight")⟩, ?_⟩
    unfold extractTraceSample
    simp only [jGet_eq_jField s h1 h2, hv]
    simp [Bind.bind, Except.bind, hto, jsToStringId]
  · simp at hsf
  · simp at hsf

theorem extractTraceParts_ok (j : Json) (h1 : j ≠ Json.null) (h2 : j ≠ Json.undef)
    (h : traceShapeOk j = true) :
    ∃ parts, extractTraceParts j = Except.ok parts := by
  unfold traceShapeOk at h
  rw [Bool.and_eq_true] at h
  obtain ⟨hsamp, hframes⟩ := h
  obtain ⟨es, hes, hallS⟩ : ∃ es, jOr (jField j "samples") (Json.arr []) = Json.arr es ∧
      es.all traceSampleOk = true := by
    rcases hv : jOr (jField j "samples") (Json.arr []) with _ | _ | b | q | st | es | kvs <;>
      rw [hv] at hsamp
    · exact absurd hsamp (by simp)
    · exact absurd hsamp (by simp)
    · exact absurd hsamp (by simp)
    · exact absurd hsamp (by simp)
    · exact absurd hsamp (by simp)
    · exact ⟨es, rfl, hsamp⟩
    · exact absurd hsamp (by simp)
  have hfr : ∀ e ∈ jsEntries (jOr (jField j "stackFrames") (Json.obj [])),
      ∃ out, (do
        let fr ← extractTraceFrame e.2
        Except.ok (e.1, fr)) = Except.ok out ∧ True := by
    intro e he
    have hok : traceFrameOk e.2 = true := List.all_eq_true.mp hframes e he
    obtain ⟨fr, hfre⟩ := extractTraceFrame_ok e.2 hok
    exact ⟨(e.1, fr), by simp [Bind.bind, Except.bind, hfre], trivial⟩
  obtain ⟨frames, hframesEq, _⟩ := mapM_ok_forall _ hfr
  have hso : ∀ x ∈ es, ∃ out, extractTraceSample x = Except.ok out ∧ True := by
    intro x hx
    obtain ⟨out, ho⟩ := extractTraceSample_ok x (List.all_eq_true.mp hallS x hx)
    exact ⟨out, ho, trivial⟩
  obtain ⟨samps, hsampsEq, _⟩ := mapM_ok_forall es hso
  refine ⟨(samps, frames), ?_⟩
  unfold extractTraceParts
  simp only [jGet_eq_jField j h1 h2]
  simp [Bind.bind, Except.bind, List.mapM] at hframesEq hsampsEq
  simp [Bind.bind, Except.bind, hes, hframesEq, hsampsEq]

theorem parseTraceEventProfileJ_ok (j : Json) (h1 : j ≠ Json.null) (h2 : j ≠ Json.undef)
    (h : traceShapeOk j = true) :
    ∃ p, parseTraceEventProfileJ j = Except.ok p := by
  obtain ⟨parts, hp⟩ := extractTraceParts_ok j h1 h2 h
  refine ⟨parseTraceEventProfile parts.1 parts.2, ?_⟩
  unfold parseTraceEventProfileJ
  simp [Bind.bind, Except.bind, hp]

theorem except_bind_ok {ε α β : Type} (a : α) (f : α → Except ε β) :
    ((Except.ok a : Except ε α) >>= f) = f a := rfl

theorem exists_ok_of_isOk {ε α : Type} {e : Except ε α} (h : e.isOk = true) :
    ∃ a, e = Except.ok a := by
  cases e with
  | error err => exact Bool.noConfusion h
  | ok a => exact ⟨a, rfl⟩

theorem extractV8Node_ok (node : Json) (h : v8NodeOk node = true) :
    ∃ out, extractV8Node node = Except.ok out := by
  have hspec : node ≠ Json.null ∧ node ≠ Json.undef ∧
      strFieldOk (jOr (jField node "callFrame") (Json.obj [])) "functionName" = true ∧
      strFieldOk (jOr (jField node "callFrame") (Json.obj [])) "url" = true ∧
      intFieldOk (jField (jOr (jField node "callFrame") (Json.obj [])) "lineNumber") = true ∧
      intFieldOk (jField (jOr (jField node "callFrame") (Json.obj [])) "columnNumber") = true ∧
      (match jField node "id" with
       | Json.num q => decide (q.den = 1)
       | _ => false) = true ∧
      (match jField node "children" with
       | Json.arr es => es.all (fun e => match e with
          | Json.num q => decide (q.den = 1)
          | _ => false)
       | v => !v.truthy) = true := by
    unfold v8NodeOk at h
    cases node
    · exact absurd h (by simp)
    · exact absurd h (by simp)
    all_goals
      refine ⟨fun hc => Json.noConfusion hc, fun hc => Json.noConfusion hc, ?_⟩
    all_goals
      simpa [Bool.and_eq_true, and_assoc] using h
  obtain ⟨h1, h2, hfnOk, hurlOk, hlineOk, hcolOk, hidOk, hchOk⟩ := hspec
  have hcf := jOr_obj_ne (jField node "callFrame") []
  obtain ⟨fn, hfn⟩ := extractOptStrField_ok _ "functionName" hcf.1 hcf.2 hfnOk
  obtain ⟨url, hurl⟩ := extractOptStrField_ok _ "url" hcf.1 hcf.2 hurlOk
  have hline3 : jField (jOr (jField node "callFrame") (Json.obj [])) "lineNumber" =
        Json.undef ∨
      jField (jOr (jField node "callFrame") (Json.obj [])) "lineNumber" = Json.null ∨
      ∃ q, jField (jOr (jField node "callFrame") (Json.obj [])) "lineNumber" = Json.num q ∧
        q.den = 1 := by
    unfold intFieldOk at hlineOk
    rcases hv : jField (jOr (jField node "callFrame") (Json.obj [])) "lineNumber" with
      _ | _ | b | q | st | es | kvs <;> rw [hv] at hlineOk
    · exact Or.inr (Or.inl rfl)
    · exact Or.inl rfl
    · simp at hlineOk
    · exact Or.inr (Or.inr ⟨q, rfl, by simpa using hlineOk⟩)
    · simp at hlineOk
    · simp at hlineOk
    · simp at hlineOk
  have hcol3 : jField (jOr (jField node "callFrame") (Json.obj [])) "columnNumber" =
        Json.undef ∨
      jField (jOr (jField node "callFrame") (Json.obj [])) "columnNumber" = Json.null ∨
      ∃ q, jField (jOr (jField node "callFrame") (Json.obj [])) "columnNumber" =
        Json.num q ∧ q.den = 1 := by
    unfold intFieldOk at hcolOk
    rcases hv : jField (jOr (jField node "callFrame") (Json.obj [])) "columnNumber" with
      _ | _ | b | q | st | es | kvs <;> rw [hv] at hcolOk
    · exact Or.inr (Or.inl rfl)
    · exact Or.inl rfl
    · simp at hcolOk
    · exact Or.inr (Or.inr ⟨q, rfl, by simpa using hcolOk⟩)
    · simp at hcolOk
    · simp at hcolOk
    · simp at hcolOk
  obtain ⟨idq, hidv, hden⟩ : ∃ q, jField node "id" = Json.num q ∧ q.den = 1 := by
    rcases hv : jField node "id" with _ | _ | b | q | st | es | kvs <;> rw [hv] at hidOk
    · simp at hidOk
    · simp at hidOk
    · simp at hidOk
    · exact ⟨q, rfl, by simpa using hidOk⟩
    · simp at hidOk
    · simp at hidOk
    · simp at hidOk
  have hch2 : (jField node "children").truthy = false ∨
      ∃ es, jField node "children" = Json.arr es ∧
        ∃ cs, es.mapM (fun e => match e with
          | Json.num q => if q.den = 1 then Except.ok q.num
                          else Except.error (JsErr.modelLimit "non-integer child id")
          | _ => Except.error (JsErr.modelLimit "non-number child id")) = Except.ok cs := by
    rcases hv : jField node "children" with _ | _ | b | q | st | es | kvs <;>
      rw [hv] at hchOk
    · exact Or.inl rfl
    · exact Or.inl rfl
    · left
      simp only [] at hchOk
      simpa [Json.truthy] using hchOk
    · left
      simp only [] at hchOk
      simp [Json.truthy] at hchOk ⊢
      exact hchOk
    · left
      simp only [] at hchOk
      simp [Json.truthy] at hchOk ⊢
      exact hchOk
    · right
      refine ⟨es, rfl, ?_⟩
      simp only [] at hchOk
      have hall : ∀ x ∈ es, ∃ b, (fun e => match e with
          | Json.num q => if q.den = 1 then Except.ok q.num
                          else Except.error (JsErr.modelLimit "non-integer child id")
          | _ => Except.error (JsErr.modelLimit "non-number child id")) x = Except.ok b ∧
          True := by
        intro x hx
        have hx1 := List.all_eq_true.mp hchOk x hx
        cases x with
        | num q =>
            have hq : q.den = 1 := by simpa using hx1
            exact ⟨q.num, by simp [hq], trivial⟩
        | null => simp at hx1
        | undef => simp at hx1
        | bool b => simp at hx1
        | str st2 => simp at hx1
        | arr es2 => simp at hx1
        | obj kvs2 => simp at hx1
      obtain ⟨cs, hcs, _⟩ := mapM_ok_forall es hall
      exact ⟨cs, hcs⟩
    · simp only [] at hchOk
      simp [Json.truthy] at hchOk
  suffices hOk : (extractV8Node node).isOk = true by
    exact exists_ok_of_isOk hOk
  unfold extractV8Node
  simp only [jGet_eq_jField node h1 h2, except_bind_ok]
  rw [hfn]
  simp only [except_bind_ok]
  rw [hurl]
  simp only [except_bind_ok]
  rcases hline3 with hv1 | hv1 | ⟨q1, hv1, hq1⟩
  · rw [hv1]
    dsimp only
    rcases hcol3 with hv2 | hv2 | ⟨q2, hv2, hq2⟩
    · rw [hv2]
      dsimp only
      rw [hidv]
      dsimp only
      rw [if_pos hden]
      rcases hch2 with hcf0 | ⟨es, hves, cs, hcs⟩
      · rw [if_neg (by simp [hcf0])]
        rfl
      · rw [if_pos (by rw [hves]; rfl), hves]
        dsimp only
        rw [hcs]
        rfl
    · rw [hv2]
      dsimp only
      rw [hidv]
      dsimp only
      rw [if_pos hden]
      rcases hch2 with hcf0 | ⟨es, hves, cs, hcs⟩
      · rw [if_neg (by simp [hcf0])]
        rfl
      · rw [if_pos (by rw [hves]; rfl), hves]
        dsimp only
        rw [hcs]
        rfl
    · rw [hv2]
      dsimp only
      rw [if_pos hq2]
      rw [hidv]
      dsimp only
      rw [if_pos hden]
      rcases hch2 with hcf0 | ⟨es, hves, cs, hcs⟩
      · rw [if_neg (by simp [hcf0])]
        rfl
      · rw [if_pos (by rw [hves]; rfl), hves]
        dsimp only
        rw [hcs]
        rfl
  · rw [hv1]
    dsimp only
    rcases hcol3 with hv2 | hv2 | ⟨q2, hv2, hq2⟩
    · rw [hv2]
      dsimp only
      rw [hidv]
      dsimp only
      rw [if_pos hden]
      rcases hch2 with hcf0 | ⟨es, hves, cs, hcs⟩
      · rw [if_neg (by simp [hcf0])]
        rfl
      · rw [if_pos (by rw [hves]; rfl), hves]
        dsimp only
        rw [hcs]
        rfl
    · rw [hv2]
      dsimp only
      rw [hidv]
      dsimp only
      rw [if_pos hden]
      rcases hch2 with hcf0 | ⟨es, hves, cs, hcs⟩
      · rw [if_neg (by simp [hcf0])]
        rfl
      · rw [if_pos (by rw [hves]; rfl), hves]
        dsimp only
        rw [hcs]
        rfl
    · rw [hv2]
      dsimp only
      rw [if_pos hq2]
      rw [hidv]
      dsimp only
      rw [if_pos hden]
      rcases hch2 with hcf0 | ⟨es, hves, cs, hcs⟩
      · rw [if_neg (by simp [hcf0])]
        rfl
      · rw [if_pos (by rw [hves]; rfl), hves]
        dsimp only
        rw [hcs]
        rfl
  · rw [hv1]
    dsimp only
    rw [if_pos hq1]
    rcases hcol3 with hv2 | hv2 | ⟨q2, hv2, hq2⟩
    · rw [hv2]
      dsimp only
      rw [hidv]
      dsimp only
      rw [if_pos hden]
      rcases hch2 with hcf0 | ⟨es, hves, cs, hcs⟩
      · rw [if_neg (by simp [hcf0])]
        rfl
      · rw [if_pos (by rw [hves]; rfl), hves]
        dsimp only
        rw [hcs]
        rfl
    · rw [hv2]
      dsimp only
      rw [hidv]
      dsimp only
      rw [if_pos hden]
      rcases hch2 with hcf0 | ⟨es, hves, cs, hcs⟩
      · rw [if_neg (by simp [hcf0])]
        rfl
      · rw [if_pos (by rw [hves]; rfl), hves]
        dsimp only
        rw [hcs]
        rfl
    · rw [hv2]
      dsimp only
      rw [if_pos hq2]
      rw [hidv]
      dsimp only
      rw [if_pos hden]
      rcases hch2 with hcf0 | ⟨es, hves, cs, hcs⟩
      · rw [if_neg (by simp [hcf0])]
        rfl
      · rw [if_pos (by rw [hves]; rfl), hves]
        dsimp only
        rw [hcs]
        rfl

theorem extractV8Parts_ok (j : Json) (h1 : j ≠ Json.null) (h2 : j ≠ Json.undef)
    (h : v8ShapeOk j = true) :
    ∃ parts, extractV8Parts j = Except.ok parts := by
  unfold v8ShapeOk at h
  simp only [Bool.and_eq_true] at h
  obtain ⟨⟨hA, hB⟩, hC⟩ := h
  obtain ⟨ns, hnv, hnall⟩ : ∃ ns, jOr (jField j "nodes") (Json.arr []) = Json.arr ns ∧
      ns.all v8NodeOk = true := by
    rcases hv : jOr (jField j "nodes") (Json.arr []) with _ | _ | b | q | st | es | kvs <;>
      rw [hv] at hA
    · exact absurd hA (by simp)
    · exact absurd hA (by simp)
    · exact absurd hA (by simp)
    · exact absurd hA (by simp)
    · exact absurd hA (by simp)
    · exact ⟨es, rfl, hA⟩
    · exact absurd hA (by simp)
  obtain ⟨ss, hsv, hsall⟩ : ∃ ss, jOr (jField j "samples") (Json.arr []) = Json.arr ss ∧
      ss.all (fun e => match e with
        | Json.num q => decide (q.den = 1)
        | _ => false) = true := by
    rcases hv : jOr (jField j "samples") (Json.arr []) with _ | _ | b | q | st | es | kvs <;>
      rw [hv] at hB
    · exact absurd hB (by simp)
    · exact absurd hB (by simp)
    · exact absurd hB (by simp)
    · exact absurd hB (by simp)
    · exact absurd hB (by simp)
    · exact ⟨es, rfl, hB⟩
    · exact absurd hB (by simp)
  obtain ⟨ds, hdv, hdall⟩ : ∃ ds, jOr (jField j "timeDeltas") (Json.arr []) = Json.arr ds ∧
      ds.all (fun e => match e with
        | Json.num _ => true
        | _ => false) = true := by
    rcases hv : jOr (jField j "timeDeltas") (Json.arr []) with _ | _ | b | q | st | es | kvs <;>
      rw [hv] at hC
    · exact absurd hC (by simp)
    · exact absurd hC (by simp)
    · exact absurd hC (by simp)
    · exact absurd hC (by simp)
    · exact absurd hC (by simp)
    · exact ⟨es, rfl, hC⟩
    · exact absurd hC (by simp)
  obtain ⟨nodes, hnodesEq, _⟩ := mapM_ok_forall (P := fun _ _ => True) ns
    (fun n hn => by
      obtain ⟨out, ho⟩ := extractV8Node_ok n (List.all_eq_true.mp hnall n hn)
      exact ⟨out, ho, trivial⟩)
  obtain ⟨samps, hsampEq, _⟩ := mapM_ok_forall
    (f := fun e => match e with
      | Json.num q => if q.den = 1 then Except.ok q.num
                      else Except.error (JsErr.modelLimit "non-integer sample")
      | _ => Except.error (JsErr.modelLimit "non-number sample"))
    (P := fun _ _ => True) ss
    (fun x hx => by
      have hx1 := List.all_eq_true.mp hsall x hx
      cases x with
      | num q =>
          have hq : q.den = 1 := by simpa using hx1
          exact ⟨q.num, by simp [hq], trivial⟩
      | null => simp at hx1
      | undef => simp at hx1
      | bool b => simp at hx1
      | str st => simp at hx1
      | arr es => simp at hx1
      | obj kvs => simp at hx1)
  obtain ⟨deltas, hdeltaEq, _⟩ := mapM_ok_forall
    (f := fun e => match e with
      | Json.num q => Except.ok q
      | _ => Except.error (JsErr.modelLimit "non-number time delta"))
    (P := fun _ _ => True) ds
    (fun x hx => by
      have hx1 := List.all_eq_true.mp hdall x hx
      cases x with
      | num q => exact ⟨q, by simp, trivial⟩
      | null => simp at hx1
      | undef => simp at hx1
      | bool b => simp at hx1
      | str st => simp at hx1
      | arr es => simp at hx1
      | obj kvs => simp at hx1)
  suffices hOk : (extractV8Parts j).isOk = true by
    exact exists_ok_of_isOk hOk
  unfold extractV8Parts
  simp only [jGet_eq_jField j h1 h2, except_bind_ok]
  rw [hnv]
  dsimp only
  rw [hnodesEq]
  simp only [except_bind_ok]
  rw [hsv]
  dsimp only
  rw [hsampEq]
  simp only [except_bind_ok]
  rw [hdv]
  dsimp only
  rw [hdeltaEq]
  rfl

theorem buildFlameGraphData_ok (fm : List (Int × FunctionData)) (nodes : List V8Node)
    (hdepth : ∀ n ∈ nodes, boundedDepthV8 nodes (nodes.length + 1) n.id = true) :
    ∃ t, buildFlameGraphData fm nodes = Except.ok t := by
  have hroots_sub : ∀ r ∈ v8RootNodes nodes, r ∈ nodes := by
    intro r hr
    exact List.mem_of_mem_filter hr
  unfold buildFlameGraphData
  rcases hroot : v8RootNodes nodes with _ | ⟨r1, rest⟩
  · exact ⟨.mk "Root" 0 [], rfl⟩
  · rcases rest with _ | ⟨r2, rs⟩
    · obtain ⟨t, ht, _⟩ := buildNodeV8_mirrors nodes fm (nodes.length + 1) r1.id
        (hdepth r1 (hroots_sub r1 (by rw [hroot]; exact List.mem_cons_self r1 [])))
      exact ⟨t, by dsimp only; exact ht⟩
    · have hc : ∀ r ∈ r1 :: r2 :: rs,
          ∃ t, buildNodeV8 nodes fm (nodes.length + 1) r.id = Except.ok t ∧ True := by
        intro r hr
        obtain ⟨t, ht, _⟩ := buildNodeV8_mirrors nodes fm (nodes.length + 1) r.id
          (hdepth r (hroots_sub r (by rw [hroot]; exact hr)))
        exact ⟨t, ht, trivial⟩
      obtain ⟨cs, hcs, _⟩ := mapM_ok_forall (P := fun _ _ => True) (r1 :: r2 :: rs) hc
      refine ⟨.mk "Root" 0 cs, ?_⟩
      dsimp only
      rw [show ((r1 :: r2 :: rs).mapM
          (fun n => buildNodeV8 nodes fm (nodes.length + 1) n.id)) = Except.ok cs from hcs]
      rfl

theorem parseV8Profile_ok (nodes : List V8Node) (samples : List Int) (timeDeltas : List ℚ)
    (hdepth : ∀ n ∈ nodes, boundedDepthV8 nodes (nodes.length + 1) n.id = true) :
    ∃ p, parseV8Profile nodes samples timeDeltas = Except.ok p := by
  obtain ⟨t, ht⟩ := buildFlameGraphData_ok
    (v8ProcessSamples (v8FunctionMapInit nodes) samples timeDeltas).1 nodes hdepth
  refine ⟨⟨.tree t, (v8ProcessSamples (v8FunctionMapInit nodes) samples timeDeltas).2,
    ((v8ProcessSamples (v8FunctionMapInit nodes) samples timeDeltas).1).map
      (fun e => e.2)⟩, ?_⟩
  unfold parseV8Profile
  dsimp only
  rw [ht]
  rfl

theorem parseV8ProfileJ_ok (j : Json) (h1 : j ≠ Json.null) (h2 : j ≠ Json.undef)
    (hshape : v8ShapeOk j = true)
    (hdepthJ : ∀ parts, extractV8Parts j = Except.ok parts →
      ∀ n ∈ parts.1, boundedDepthV8 parts.1 (parts.1.length + 1) n.id = true) :
    ∃ p, parseV8ProfileJ j = Except.ok p := by
  obtain ⟨parts, hp⟩ := extractV8Parts_ok j h1 h2 hshape
  obtain ⟨p, hpp⟩ := parseV8Profile_ok parts.1 parts.2.1 parts.2.2 (hdepthJ parts hp)
  refine ⟨p, ?_⟩
  unfold parseV8ProfileJ
  rw [hp]
  simp only [except_bind_ok]
  exact hpp

/-- C2 (amended).  `parseCpuProfile` does **not** return on every
deserialized payload: on `null` the very first property access throws a
`TypeError` (see the counterexample).  Within the modeled no-throw envelope
it does return a profile: for every non-`null` payload that (when routed to
the trace-event parser) satisfies `traceShapeOk`, and (when routed to the
sample-format parser) satisfies `v8ShapeOk` with an acyclic extracted node
graph — on cyclic children data the source's `buildNode` recursion
overflows the call stack — the parse succeeds; unrecognised shapes degrade
to the empty echo profile. -/
theorem parseCpuProfile_no_throw (j : Json) (h1 : j ≠ Json.null) (h2 : j ≠ Json.undef)
    (htr : routesTrace j = true → traceShapeOk j = true)
    (hv8 : routesV8 j = true → v8ShapeOk j = true ∧
      ∀ parts, extractV8Parts j = Except.ok parts →
        ∀ n ∈ parts.1, boundedDepthV8 parts.1 (parts.1.length + 1) n.id = true) :
    ∃ p, parseCpuProfileJ j = Except.ok p := by
  by_cases hT : routesTrace j = true
  · obtain ⟨p, hp⟩ := parseTraceEventProfileJ_ok j h1 h2 (htr hT)
    refine ⟨p, ?_⟩
    unfold routesTrace at hT
    rw [Bool.and_eq_true] at hT
    unfold parseCpuProfileJ
    simp only [jGet_eq_jField j h1 h2, except_bind_ok]
    rw [if_pos (by rw [hT.1, hT.2]; rfl)]
    exact hp
  · have hTf : ((jField j "samples").truthy && (jField j "stackFrames").truthy) = false := by
      unfold routesTrace at hT
      rcases hb : ((jField j "samples").truthy && (jField j "stackFrames").truthy) with _ | _
      · rfl
      · exact absurd hb hT
    by_cases hV : routesV8 j = true
    · obtain ⟨hsh, hdep⟩ := hv8 hV
      obtain ⟨p, hp⟩ := parseV8ProfileJ_ok j h1 h2 hsh hdep
      refine ⟨p, ?_⟩
      unfold routesV8 at hV
      simp only [Bool.and_eq_true] at hV
      obtain ⟨⟨⟨_, hb⟩, hc⟩, hd⟩ := hV
      unfold parseCpuProfileJ
      simp only [jGet_eq_jField j h1 h2, except_bind_ok]
      rw [if_neg (by simp [hTf])]
      rw [if_pos (by rw [hb, hc, hd]; rfl)]
      exact hp
    · have hVf2 : ((jField j "nodes").truthy && (jField j "samples").truthy &&
          (jField j "timeDeltas").truthy) = false := by
        have hTb : routesTrace j = false := by
          rcases hb : routesTrace j with _ | _
          · rfl
          · exact absurd hb hT
        unfold routesV8 at hV
        rw [hTb] at hV
        rcases hb : ((jField j "nodes").truthy && (jField j "samples").truthy &&
            (jField j "timeDeltas").truthy) with _ | _
        · rfl
        · exfalso
          apply hV
          simp only [Bool.and_eq_true] at hb
          obtain ⟨⟨hn, hs⟩, htd⟩ := hb
          simp [hn, hs, htd]
      refine ⟨{ flamegraphData := FlameData.raw j, totalDuration := 0, functions := [] }, ?_⟩
      unfold parseCpuProfileJ
      simp only [jGet_eq_jField j h1 h2, except_bind_ok]
      rw [if_neg (by simp [hTf])]
      rw [if_neg (by simp [hVf2])]

/-- C2 counterexample.  The deserialized payload `null` — a perfectly valid
result of `JSON.parse` — makes `parseCpuProfile` throw a `TypeError` on its
first property access instead of returning a `ParsedProfile`. -/
theorem parseCpuProfile_no_throw_counterexample :
    parseCpuProfileJ Json.null =
      Except.error (JsErr.typeError "Cannot read properties of null (reading samples)") ∧
    ¬ ∃ p, parseCpuProfileJ Json.null = Except.ok p := by
  constructor
  · simp [parseCpuProfileJ, jGet, Bind.bind, Except.bind]
  · rintro ⟨p, hp⟩
    simp [parseCpuProfileJ, jGet, Bind.bind, Except.bind] at hp

theorem parseCpuProfile_no_throw_witness :
    (Json.obj [("samples", Json.arr [Json.obj [("ts", Json.num 3)]]),
        ("stackFrames", Json.obj [])] ≠ Json.null) ∧
    traceShapeOk (Json.obj [("samples", Json.arr [Json.obj [("ts", Json.num 3)]]),
        ("stackFrames", Json.obj [])]) = true ∧
    ∃ p, parseCpuProfileJ (Json.obj [("samples", Json.arr [Json.obj [("ts", Json.num 3)]]),
        ("stackFrames", Json.obj [])]) = Except.ok p :=
  ⟨by simp, by decide,
    parseCpuProfile_no_throw
      (Json.obj [("samples", Json.arr [Json.obj [("ts", Json.num 3)]]),
        ("stackFrames", Json.obj [])])
      (by simp) (by simp) (fun _ => by decide) (fun hv => absurd hv (by decide))⟩
